import Mathlib

/-!
# Yalnix file system server (`yalnix-file-system/yfs.c`)

A shallow embedding of the file-system engine of `yfs.c` and theorems about it.

Conventions of the embedding.

* Every C `int`, `short` and `char` value is a Lean `Int`; a `short` that is stored
  is reduced with `wrap16`, and the integers kept inside a block go through the byte
  encodings `writeInt16`/`writeInt32` (two's complement, least significant byte first).
* A block buffer is a function from the byte offset to the byte; the offsets
  `0 .. BLOCKSIZE - 1` are the buffer, every other offset lies outside of it.
* `getInode n` and `getBlock b` are the record of inode `n` and the buffer of block `b`
  as the server sees them through its two caches: `FS.inodes n` and `FS.blocks b`.
  `saveInode`/`saveBlock` set the dirty flag of the cache item.
* A `char *` is the list of the characters it points to; the list ends, or holds a
  `0`, where the C string has its terminating NUL, and advancing the pointer is taking
  the tail.
* A pointer into the client's address space is an integer address (`0` is `NULL`) and
  the client's memory is a function from the address to the byte.
* The caches themselves are the layer `Cache` below: the two queues of cache items
  and the sectors of the disk, with `getBlock` and `yfsSync` on them.
-/

namespace Yfs

/-! ## Constants of `comp421/filesystem.h`, `comp421/yalnix.h` and `yfs.h` -/

/-- Modelled from the spec: `BLOCKSIZE`, the size of a block (a sector) in bytes, is
declared in `comp421/filesystem.h`, which is not among the sources; the value is the
one of the Yalnix header. -/
def BLOCKSIZE : Int := 512

/-- Modelled from the spec: `NUM_DIRECT`, the number of direct block numbers of an
inode (`comp421/filesystem.h`, not among the sources). -/
def NUM_DIRECT : Int := 12

/-- Modelled from the spec: `DIRNAMELEN`, the length of the name field of a directory
entry (`comp421/filesystem.h`, not among the sources). -/
def DIRNAMELEN : Int := 30

/-- Modelled from the spec: `sizeof(struct dir_entry)` for the layout
`{ int16 inum; char name[DIRNAMELEN]; }` of the spec. -/
def DIRENTRYSIZE : Int := 32

/-- Modelled from the spec: `MAXPATHNAMELEN` (`comp421/filesystem.h`, not among the
sources). -/
def MAXPATHNAMELEN : Int := 256

/-- Modelled from the spec: `MAXSYMLINKS`, the symlink budget of one resolution
(`comp421/filesystem.h`, not among the sources). -/
def MAXSYMLINKS : Int := 20

/-- Modelled from the spec: `ROOTINODE`, the inode number of the root directory
(`comp421/filesystem.h`, not among the sources). -/
def ROOTINODE : Int := 1

/-- Modelled from the spec: the inode type `FREE` (`INODE_FREE` of
`comp421/filesystem.h`, not among the sources). -/
def INODE_FREE : Int := 0

/-- Modelled from the spec: the inode type `DIRECTORY` (`INODE_DIRECTORY`). -/
def INODE_DIRECTORY : Int := 1

/-- Modelled from the spec: the inode type `REGULAR` (`INODE_REGULAR`). -/
def INODE_REGULAR : Int := 2

/-- Modelled from the spec: the inode type `SYMLINK` (`INODE_SYMLINK`). -/
def INODE_SYMLINK : Int := 3

/-- Modelled from the spec: the error sentinel `ERROR` of `comp421/yalnix.h` (not among
the sources); the resolver's own "not found" is `0`. -/
def ERROR : Int := -1

/-- The hint `CREATE_NEW` of `yfs.h`. -/
def CREATE_NEW : Int := -1

/-- The character `/`. -/
def SLASH : Int := 47

/-! ## Integers, bytes and buffers -/

/-- C division of `int`s (rounds towards zero). -/
def cdiv (a b : Int) : Int := Int.tdiv a b

/-- C remainder of `int`s (sign of the dividend). -/
def cmod (a b : Int) : Int := Int.tmod a b

/-- The value of a 16 bit pattern as a `short`. -/
def wrap16 (v : Int) : Int := if v % 65536 < 32768 then v % 65536 else v % 65536 - 65536

/-- The value of a 32 bit pattern as an `int`. -/
def wrap32 (v : Int) : Int :=
  if v % 4294967296 < 2147483648 then v % 4294967296 else v % 4294967296 - 4294967296

/-- A buffer of bytes: a block, or the memory of a client. -/
abbrev Bytes := Int → Int

/-- Pointwise update of a function on the integers. -/
def upd {α : Type} (f : Int → α) (a : Int) (v : α) : Int → α :=
  fun k => if k = a then v else f k

/-- Read the `short` stored at offset `o`. -/
def readInt16 (b : Bytes) (o : Int) : Int :=
  wrap16 (b o % 256 + 256 * (b (o + 1) % 256))

/-- Store the `short` value of `v` at offset `o`. -/
def writeInt16 (b : Bytes) (o v : Int) : Bytes :=
  fun k => if k = o then v % 256 else if k = o + 1 then v / 256 % 256 else b k

/-- Read the `int` stored at offset `o`. -/
def readInt32 (b : Bytes) (o : Int) : Int :=
  wrap32 (b o % 256 + 256 * (b (o + 1) % 256) + 65536 * (b (o + 2) % 256)
    + 16777216 * (b (o + 3) % 256))

/-- Store the `int` `v` at offset `o`. -/
def writeInt32 (b : Bytes) (o v : Int) : Bytes :=
  fun k => if k = o then v % 256 else if k = o + 1 then v / 256 % 256
    else if k = o + 2 then v / 65536 % 256 else if k = o + 3 then v / 16777216 % 256 else b k

/-- The buffer `dst` after `n` bytes were copied from `src + srcOff` to `dst + dstOff`
(`memcpy`, `CopyFrom`, `CopyTo`). -/
def copyBytes (dst : Bytes) (dstOff : Int) (src : Bytes) (srcOff n : Int) : Bytes :=
  fun k => if dstOff ≤ k ∧ k < dstOff + n then src (srcOff + (k - dstOff)) else dst k

/-- The buffer after the characters of `l` were stored from offset `o` on. -/
def writeList (b : Bytes) (o : Int) : List Int → Bytes
  | [] => b
  | c :: rest => writeList (upd b o c) (o + 1) rest

/-- The buffer after `n` bytes from offset `o` on were set to `0` (`memset`). -/
def zeroBytes (b : Bytes) (o n : Int) : Bytes :=
  fun k => if o ≤ k ∧ k < o + n then 0 else b k

/-- The characters of a C string: the list up to its terminating NUL. -/
def cstr : List Int → List Int
  | [] => []
  | c :: rest => if c = 0 then [] else c :: cstr rest

/-- The first character a `char *` points to (`p[0]`). -/
def hd (p : List Int) : Int := p.headD 0

/-- The characters of the buffer `b` from offset `o` up to the first NUL, at most `n`
of them. -/
def bytesString : Nat → Bytes → Int → List Int
  | 0, _, _ => []
  | n + 1, b, o => if b o = 0 then [] else b o :: bytesString n b (o + 1)

/-- The string that starts at the beginning of a block buffer; it ends with the buffer
when the buffer holds no NUL. -/
def blockString (b : Bytes) : List Int := bytesString BLOCKSIZE.toNat b 0

/-- The character codes of a string literal. -/
def str (s : String) : List Int := s.toList.map (fun c => (c.toNat : Int))

/-! ## Data model -/

/-- The inode record `struct inode`. -/
structure Inode where
  type : Int
  nlink : Int
  reuse : Int
  size : Int
  direct : Int → Int
  indirect : Int

/-- The state of the server: inodes and blocks as seen through the caches, the dirty
flags of the cache items, the two free lists with their counters and the symlink
counter. -/
structure FS where
  inodes : Int → Inode
  blocks : Int → Bytes
  inodeDirty : Int → Bool
  blockDirty : Int → Bool
  freeInodes : List Int
  freeBlocks : List Int
  freeInodeCount : Int
  freeBlockCount : Int
  numSymLinks : Int

/-- The state with inode `n` replaced. -/
def FS.setInode (s : FS) (n : Int) (i : Inode) : FS := { s with inodes := upd s.inodes n i }

/-- The state with the buffer of block `b` replaced. -/
def FS.setBlock (s : FS) (b : Int) (d : Bytes) : FS := { s with blocks := upd s.blocks b d }

/-- Function `saveBlock`: mark the cache item of a block dirty. -/
def saveBlock (s : FS) (blockNumber : Int) : FS :=
  { s with blockDirty := upd s.blockDirty blockNumber true }

/-- Function `saveInode`: mark the cache item of an inode dirty. -/
def saveInode (s : FS) (inodeNum : Int) : FS :=
  { s with inodeDirty := upd s.inodeDirty inodeNum true }

/-! ## Free lists -/

/-- Function `getNextFreeInodeNum`. The field `reuse` is an `int`: `inode->reuse++` is
taken modulo `2^32`. -/
def getNextFreeInodeNum (s : FS) : Int × FS :=
  match s.freeInodes with
  | [] => (0, s)
  | inodeNum :: next =>
    let inode := s.inodes inodeNum
    let s1 := s.setInode inodeNum { inode with reuse := wrap32 (inode.reuse + 1) }
    let s2 := saveInode s1 inodeNum
    (inodeNum, { s2 with freeInodes := next })

/-- Function `addFreeInodeToList`. -/
def addFreeInodeToList (s : FS) (inodeNum : Int) : FS :=
  { s with freeInodes := inodeNum :: s.freeInodes, freeInodeCount := s.freeInodeCount + 1 }

/-- Function `getNextFreeBlockNum`. -/
def getNextFreeBlockNum (s : FS) : Int × FS :=
  match s.freeBlocks with
  | [] => (0, s)
  | blockNum :: next => (blockNum, { s with freeBlocks := next })

/-- Function `addFreeBlockToList`. -/
def addFreeBlockToList (s : FS) (blockNum : Int) : FS :=
  { s with freeBlocks := blockNum :: s.freeBlocks, freeBlockCount := s.freeBlockCount + 1 }

/-- Function `freeUpInode`. -/
def freeUpInode (s : FS) (inodeNum : Int) : FS :=
  let inode := s.inodes inodeNum
  let s1 := s.setInode inodeNum { inode with type := INODE_FREE }
  saveInode (addFreeInodeToList s1 inodeNum) inodeNum

/-! ## The block map of a file -/

/-- Function `getNthBlock`; the inode pointer is the record of inode `ino`. -/
def getNthBlock (s : FS) (ino n : Int) (allocateIfNeeded : Bool) : Int × FS :=
  if n ≥ NUM_DIRECT + BLOCKSIZE / 4 then (0, s)
  else
    let isOver : Bool := decide (n * BLOCKSIZE ≥ (s.inodes ino).size)
    if isOver && !allocateIfNeeded then (0, s)
    else if n < NUM_DIRECT then
      if isOver then
        let r := getNextFreeBlockNum s
        let inode := r.2.inodes ino
        (r.1, r.2.setInode ino { inode with direct := upd inode.direct n r.1 })
      else ((s.inodes ino).direct n, s)
    else
      let ib := (s.inodes ino).indirect
      if isOver then
        let r := getNextFreeBlockNum s
        let s2 := r.2.setBlock ib (writeInt32 (r.2.blocks ib) (4 * (n - NUM_DIRECT)) r.1)
        (readInt32 (s2.blocks ib) (4 * (n - NUM_DIRECT)), s2)
      else (readInt32 (s.blocks ib) (4 * (n - NUM_DIRECT)), s)

/-- The loop of `clearFile`: push the blocks `i, i+1, ..` of the file until
`getNthBlock` yields 0. -/
def clearLoop : Nat → FS → Int → Int → FS
  | 0, s, _, _ => s
  | fuel + 1, s, ino, i =>
    let blockNum := (getNthBlock s ino i false).1
    if blockNum ≠ 0 then clearLoop fuel (addFreeBlockToList s blockNum) ino (i + 1) else s

/-- Function `clearFile`. The loop ends at the latest at index
`NUM_DIRECT + BLOCKSIZE / 4`, where `getNthBlock` yields 0. -/
def clearFile (s : FS) (inodeNum : Int) : FS :=
  let s1 := clearLoop ((NUM_DIRECT + BLOCKSIZE / 4).toNat + 1) s inodeNum 0
  let inode := s1.inodes inodeNum
  saveInode (s1.setInode inodeNum { inode with size := 0 }) inodeNum

/-! ## Read and write -/

/-- The loop of `yfsRead`. Every round copies at least one byte, so `bytesLeft` rounds
are enough; `copyOk i` tells whether `CopyTo` succeeds for block `i`. The result is
`false` when the function returns `ERROR` from inside the loop. -/
def readLoop : Nat → FS → Int → (Int → Bool) → Bytes → Int → Int → Int → Int → Int →
    Bool × Bytes
  | 0, _, _, _, mem, _, _, _, _, _ => (true, mem)
  | fuel + 1, s, ino, copyOk, mem, i, buf, bytesLeft, blockOffset, bytesToCopy =>
    if bytesLeft > 0 then
      let blockNum := (getNthBlock s ino i false).1
      if blockNum = 0 then (false, mem)
      else
        let currentBlock := s.blocks blockNum
        let bytesToCopy := if bytesLeft < bytesToCopy then bytesLeft else bytesToCopy
        if copyOk i = false then (false, mem)
        else
          readLoop fuel s ino copyOk (copyBytes mem buf currentBlock blockOffset bytesToCopy)
            (i + 1) (buf + bytesToCopy) (bytesLeft - bytesToCopy) 0 BLOCKSIZE
    else (true, mem)

/-- Function `yfsRead`: the result and the memory of the client afterwards. -/
def yfsRead (s : FS) (mem : Bytes) (copyOk : Int → Bool)
    (inodeNum buf size byteOffset : Int) : Int × Bytes :=
  if buf = 0 ∨ size < 0 ∨ byteOffset < 0 ∨ inodeNum ≤ 0 then (ERROR, mem)
  else
    let inode := s.inodes inodeNum
    if byteOffset > inode.size then (ERROR, mem)
    else
      let bytesLeft := if inode.size - byteOffset < size then inode.size - byteOffset else size
      let returnVal := bytesLeft
      let blockOffset := cmod byteOffset BLOCKSIZE
      let bytesToCopy := BLOCKSIZE - blockOffset
      let r := readLoop bytesLeft.toNat s inodeNum copyOk mem (cdiv byteOffset BLOCKSIZE) buf
        bytesLeft blockOffset bytesToCopy
      if r.1 then (returnVal, r.2) else (ERROR, r.2)

/-- The loop of `yfsWrite`. Every round copies at least one byte, so `bytesLeft` rounds
are enough; `copyOk i` tells whether `CopyFrom` succeeds for block `i`. The result is
`false` when the function returns `ERROR` from inside the loop. -/
def writeLoop : Nat → FS → Bytes → (Int → Bool) → Int → Int → Int → Int → Int → Int →
    Int → Int → Bool × FS
  | 0, s, _, _, _, _, _, _, _, _, _, _ => (true, s)
  | fuel + 1, s, mem, copyOk, ino, size, byteOffset, i, buf, bytesLeft, blockOffset,
      bytesToCopy =>
    if bytesLeft > 0 then
      let r := getNthBlock s ino i true
      let blockNum := r.1
      if blockNum = 0 then (false, r.2)
      else
        let bytesToCopy := if bytesLeft < bytesToCopy then bytesLeft else bytesToCopy
        if copyOk i = false then (false, r.2)
        else
          let s2 := r.2.setBlock blockNum
            (copyBytes (r.2.blocks blockNum) blockOffset mem buf bytesToCopy)
          let s3 := saveBlock s2 blockNum
          let bytesLeft1 := bytesLeft - bytesToCopy
          let bytesWrittenSoFar := size - bytesLeft1
          let inode := s3.inodes ino
          let s4 := if bytesWrittenSoFar + byteOffset > inode.size
            then s3.setInode ino { inode with size := bytesWrittenSoFar + byteOffset } else s3
          writeLoop fuel s4 mem copyOk ino size byteOffset (i + 1) (buf + bytesToCopy)
            bytesLeft1 0 BLOCKSIZE
    else (true, s)

/-- Function `yfsWrite`: the result and the state afterwards; `mem` is the memory of
the client. -/
def yfsWrite (s : FS) (mem : Bytes) (copyOk : Int → Bool)
    (inodeNum buf size byteOffset : Int) : Int × FS :=
  let inode := s.inodes inodeNum
  if inode.type ≠ INODE_REGULAR then (ERROR, s)
  else
    let bytesLeft := size
    let returnVal := bytesLeft
    let blockOffset := cmod byteOffset BLOCKSIZE
    let bytesToCopy := BLOCKSIZE - blockOffset
    let r := writeLoop bytesLeft.toNat s mem copyOk inodeNum size byteOffset
      (cdiv byteOffset BLOCKSIZE) buf bytesLeft blockOffset bytesToCopy
    if r.1 then (returnVal, saveInode r.2 inodeNum) else (ERROR, r.2)

/-! ## Directories -/

/-- The loop of `isEqual` from index `i` on, with `fuel` rounds left of the
`DIRNAMELEN` ones; `path` points to `path[i]` and `name i` is `dirEntryName[i]`. -/
def isEqualLoop : Nat → List Int → (Int → Int) → Int → Bool
  | 0, _, _, _ => true
  | fuel + 1, path, name, i =>
    if (hd path = SLASH ∨ hd path = 0) ∧ name i = 0 then true
    else if hd path ≠ name i then false
    else isEqualLoop fuel path.tail name (i + 1)

/-- Function `isEqual`. -/
def isEqual (path : List Int) (dirEntryName : Int → Int) : Bool :=
  isEqualLoop DIRNAMELEN.toNat path dirEntryName 0

/-- The name field of the directory entry at offset `off` of a block. -/
def entryName (b : Bytes) (off : Int) : Int → Int := fun i => b (off + 2 + i)

/-- The local variables of `getDirectoryEntry`. `currentBlock` is the number of the
block whose buffer the pointer `currentBlock` points to and `curOff` is
`currentEntry - currentBlock`; both pointers are uninitialised in the source until the
first block is visited, and are block 0, offset 0 here. -/
structure DirCursor where
  i : Int
  blockNum : Int
  currBlockNum : Int
  currentBlock : Int
  curOff : Int
  totalSize : Int
  isFound : Bool
  freeEntryOffset : Int
  freeEntryBlockNum : Int

/-- The inner loop of `getDirectoryEntry` over the entries of one block; an entry is
`DIRENTRYSIZE` bytes, so `BLOCKSIZE / DIRENTRYSIZE` rounds reach the end of the
block. -/
def scanBlock : Nat → Bytes → List Int → Int → DirCursor → DirCursor
  | 0, _, _, _, c => c
  | fuel + 1, blk, pathname, size, c =>
    if c.totalSize ≤ size ∧ c.curOff < BLOCKSIZE then
      let c1 := if c.freeEntryOffset = -1 ∧ readInt16 blk c.curOff = 0
        then { c with freeEntryBlockNum := c.blockNum, freeEntryOffset := c.curOff } else c
      if isEqual pathname (entryName blk c1.curOff) then { c1 with isFound := true }
      else scanBlock fuel blk pathname size
        { c1 with curOff := c1.curOff + DIRENTRYSIZE, totalSize := c1.totalSize + DIRENTRYSIZE }
    else c

/-- The outer loop of `getDirectoryEntry` over the blocks of the directory; it ends at
the latest at block index `NUM_DIRECT + BLOCKSIZE / 4`, where `getNthBlock` yields 0. -/
def searchDir : Nat → FS → Int → List Int → DirCursor → DirCursor
  | 0, _, _, _, c => c
  | fuel + 1, s, ino, pathname, c =>
    if c.blockNum ≠ 0 ∧ c.isFound = false then
      let c1 := scanBlock (BLOCKSIZE / DIRENTRYSIZE).toNat (s.blocks c.blockNum) pathname
        (s.inodes ino).size { c with currentBlock := c.blockNum, curOff := 0 }
      if c1.isFound then c1
      else searchDir fuel s ino pathname
        { c1 with currBlockNum := c1.blockNum,
                  blockNum := (getNthBlock s ino (c1.i + 1) false).1, i := c1.i + 1 }
    else c

/-- The search of `getDirectoryEntry`: the local variables after the outer loop. -/
def dirSearch (s : FS) (pathname : List Int) (inodeStartNumber : Int) : DirCursor :=
  searchDir ((NUM_DIRECT + BLOCKSIZE / 4).toNat + 1) s inodeStartNumber pathname
    { i := 0, blockNum := (getNthBlock s inodeStartNumber 0 false).1, currBlockNum := 0,
      currentBlock := 0, curOff := 0, totalSize := DIRENTRYSIZE, isFound := false,
      freeEntryOffset := -1, freeEntryBlockNum := 0 }

/-- Function `getDirectoryEntry`: the offset, the block number stored through
`blockNumPtr` and the state afterwards. -/
def getDirectoryEntry (s : FS) (pathname : List Int) (inodeStartNumber : Int)
    (createIfNeeded : Bool) : Int × Int × FS :=
  let c := dirSearch s pathname inodeStartNumber
  if c.isFound then (c.curOff, c.blockNum, s)
  else if createIfNeeded then
    if c.freeEntryBlockNum ≠ 0 then (c.freeEntryOffset, c.freeEntryBlockNum, s)
    else if (s.inodes inodeStartNumber).size % BLOCKSIZE = 0 then
      let r := getNthBlock s inodeStartNumber c.i true
      let blockNum := r.1
      let inode := r.2.inodes inodeStartNumber
      let s1 := r.2.setInode inodeStartNumber { inode with size := inode.size + DIRENTRYSIZE }
      let s2 := s1.setBlock blockNum (writeInt16 (s1.blocks blockNum) 0 0)
      (0, blockNum, saveInode (saveBlock s2 blockNum) inodeStartNumber)
    else
      let inode := s.inodes inodeStartNumber
      let s1 := saveInode
        (s.setInode inodeStartNumber { inode with size := inode.size + DIRENTRYSIZE })
        inodeStartNumber
      let s2 := s1.setBlock c.currentBlock (writeInt16 (s1.blocks c.currentBlock) c.curOff 0)
      (c.curOff, c.currBlockNum, saveBlock s2 c.currBlockNum)
  else (-1, c.blockNum, s)

/-! ## Path resolution -/

/-- The loop `while (nextPath[0] != '/')` of `getPathInodeNumber`: `none` when the NUL
is reached, else the pointer at the first `/`. -/
def scanComponent : List Int → Option (List Int)
  | [] => none
  | c :: rest => if c = SLASH then some (c :: rest) else if c = 0 then none
    else scanComponent rest

/-- The loop `while (nextPath[0] == '/') nextPath++`. -/
def skipSlashes : List Int → List Int
  | [] => []
  | c :: rest => if c = SLASH then skipSlashes rest else c :: rest

/-- The inode number of the directory entry that `getDirectoryEntry` finds for the
first component of `name` in directory `dir` without creating one (`dir_entry->inum`);
0 when there is none. -/
def dirLookup (s : FS) (dir : Int) (name : List Int) : Int :=
  let e := getDirectoryEntry s name dir false
  if e.1 ≠ -1 then readInt16 (s.blocks e.2.1) e.1 else 0

/-- The first loop of `getPathInodeNumber` over `nextPath`: `none` when the function
returns `nextInodeNumber` from inside the loop (the path has one component and the
inode found is not a symbolic link), else the value of `nextPath` after the loop. -/
def firstScan (s : FS) (path : List Int) (nextInodeNumber : Int) : Option (List Int) :=
  match scanComponent path with
  | some rest => some rest
  | none => if (s.inodes nextInodeNumber).type ≠ INODE_SYMLINK then none else some path

/-- The path stored in the first block of the symbolic link `ino`, without its leading
`/` when it has one. -/
def linkTarget (s : FS) (ino : Int) : List Int :=
  let dataBlock := blockString (s.blocks ((s.inodes ino).direct 0))
  if hd dataBlock = SLASH then dataBlock.tail else dataBlock

/-- The inode from which the target of the symbolic link `ino` is resolved. -/
def linkStart (s : FS) (ino inodeStartNumber : Int) : Int :=
  if hd (blockString (s.blocks ((s.inodes ino).direct 0))) = SLASH then ROOTINODE
  else inodeStartNumber

/-- Function `getPathInodeNumber` with a bound on the depth of the recursion and the
global `numSymLinks` passed in and out; `none` when the bound is reached. -/
def getPathInodeNumberFuel : Nat → FS → List Int → Int → Int → Option (Int × Int)
  | 0, _, _, _, _ => none
  | fuel + 1, s, path, inodeStartNumber, numSymLinks =>
    if (s.inodes inodeStartNumber).type = INODE_DIRECTORY then
      let nextInodeNumber := dirLookup s inodeStartNumber path
      if nextInodeNumber = 0 then some (0, numSymLinks)
      else
        match firstScan s path nextInodeNumber with
        | none => some (nextInodeNumber, numSymLinks)
        | some nextPath0 =>
          let nextPath := skipSlashes nextPath0
          if hd nextPath = 0 then some (nextInodeNumber, numSymLinks)
          else if (s.inodes nextInodeNumber).type = INODE_SYMLINK then
            if numSymLinks + 1 > MAXSYMLINKS then some (0, numSymLinks + 1)
            else
              match getPathInodeNumberFuel fuel s (linkTarget s nextInodeNumber)
                  (linkStart s nextInodeNumber inodeStartNumber) (numSymLinks + 1) with
              | none => none
              | some r =>
                match scanComponent nextPath with
                | none => some r
                | some rest => getPathInodeNumberFuel fuel s (skipSlashes rest) r.1 r.2
          else getPathInodeNumberFuel fuel s nextPath nextInodeNumber numSymLinks
    else some (0, numSymLinks)

/-- A depth that the recursion of `getPathInodeNumber` cannot reach: a call either
goes on with a shorter path, or has used one of the `MAXSYMLINKS` expansions and goes on
with a link target, which is at most one block long. -/
def pathFuel (path : List Int) (numSymLinks : Int) : Nat :=
  path.length + (MAXSYMLINKS + 1 - numSymLinks).toNat * (BLOCKSIZE.toNat + 1) + 1

/-- Function `getPathInodeNumber`: the result and the state afterwards (only the global
`numSymLinks` changes). -/
def getPathInodeNumber (s : FS) (path : List Int) (inodeStartNumber : Int) : Int × FS :=
  match getPathInodeNumberFuel (pathFuel path s.numSymLinks) s path inodeStartNumber
      s.numSymLinks with
  | some r => (r.1, { s with numSymLinks := r.2 })
  | none => (0, s)

/-- The loop of `getContainingDirectory` that finds `lastSlashIndex`; `idx` is the index
of the first character of `p`. -/
def lastSlashIndexLoop : List Int → Int → Int → Int
  | [], _, last => last
  | c :: rest, idx, last =>
    if c = 0 then last
    else lastSlashIndexLoop rest (idx + 1) (if c = SLASH then idx else last)

/-- Function `getContainingDirectory`: the result, the file name stored through
`filenamePtr` and the state afterwards. When the path is too long the source leaves
`*filenamePtr` unset; it is the path here. -/
def getContainingDirectory (s : FS) (pathname : List Int) (currentInode : Int) :
    Int × List Int × FS :=
  if ((cstr pathname).length : Int) ≥ MAXPATHNAMELEN then (ERROR, pathname, s)
  else
    let currentInode := if hd pathname = SLASH then ROOTINODE else currentInode
    let pathname := skipSlashes pathname
    let lastSlashIndex := lastSlashIndexLoop pathname 0 0
    if lastSlashIndex ≠ 0 then
      let path := pathname.take lastSlashIndex.toNat
      let filename := pathname.drop (lastSlashIndex.toNat + 1)
      let r := getPathInodeNumber { s with numSymLinks := 0 } path currentInode
      if r.1 = 0 then (ERROR, filename, r.2) else (r.1, filename, r.2)
    else (currentInode, pathname, s)

/-! ## The requests -/

/-- Function `yfsOpen`. A path argument is never `NULL` here. -/
def yfsOpen (s : FS) (pathname : List Int) (currentInode : Int) : Int × FS :=
  if currentInode ≤ 0 then (ERROR, s)
  else
    let currentInode := if hd pathname = SLASH then ROOTINODE else currentInode
    let pathname := skipSlashes pathname
    let r := getPathInodeNumber { s with numSymLinks := 0 } pathname currentInode
    if r.1 = 0 then (ERROR, r.2) else r

/-- Function `yfsChDir`. -/
def yfsChDir (s : FS) (pathname : List Int) (currentInode : Int) : Int × FS :=
  if currentInode ≤ 0 then (ERROR, s)
  else
    let currentInode := if hd pathname = SLASH then ROOTINODE else currentInode
    let pathname := skipSlashes pathname
    let r := getPathInodeNumber { s with numSymLinks := 0 } pathname currentInode
    if r.1 = 0 then (ERROR, r.2) else r

/-- The check of the format of the path in `yfsCreate`: a `/` is followed by the
terminating NUL. -/
def endsWithSlash : List Int → Bool
  | [] => false
  | c :: rest => if c = 0 then false else if c = SLASH ∧ hd rest = 0 then true
    else endsWithSlash rest

/-- Function `yfsCreate`. -/
def yfsCreate (s : FS) (pathname : List Int) (currentInode inodeNumToSet : Int) : Int × FS :=
  if currentInode ≤ 0 then (ERROR, s)
  else if ((cstr pathname).length : Int) ≥ MAXPATHNAMELEN then (ERROR, s)
  else if endsWithSlash pathname then (ERROR, s)
  else
    let d := getContainingDirectory s pathname currentInode
    let dirInodeNum := d.1
    let filename := d.2.1
    if dirInodeNum = ERROR then (ERROR, d.2.2)
    else if (d.2.2.inodes dirInodeNum).type ≠ INODE_DIRECTORY then (ERROR, d.2.2)
    else
      let e := getDirectoryEntry d.2.2 filename dirInodeNum true
      let offset := e.1
      let blockNum := e.2.1
      let s1 := e.2.2
      let inodeNum := readInt16 (s1.blocks blockNum) offset
      if inodeNum ≠ 0 then
        if inodeNumToSet ≠ -1 then (ERROR, s1)
        else (inodeNum, saveInode (clearFile s1 inodeNum) inodeNum)
      else
        let named := writeList (zeroBytes (s1.blocks blockNum) (offset + 2) DIRNAMELEN)
          (offset + 2) (cstr filename)
        let s2 := s1.setBlock blockNum named
        if inodeNumToSet = CREATE_NEW then
          let r := getNextFreeInodeNum s2
          let inodeNum := r.1
          let s3 := saveBlock (r.2.setBlock blockNum (writeInt16 (r.2.blocks blockNum) offset inodeNum))
            blockNum
          let inode := s3.inodes inodeNum
          let s4 := s3.setInode inodeNum
            { inode with type := INODE_REGULAR, size := 0, nlink := 1 }
          (inodeNum, saveInode s4 inodeNum)
        else
          let s3 := saveBlock (s2.setBlock blockNum (writeInt16 (s2.blocks blockNum) offset inodeNumToSet))
            blockNum
          (inodeNumToSet, s3)

/-- Function `yfsLink`. -/
def yfsLink (s : FS) (oldName newName : List Int) (currentInode : Int) : Int × FS :=
  if currentInode ≤ 0 then (ERROR, s)
  else
    let currentInode1 := if hd oldName = SLASH then ROOTINODE else currentInode
    let oldName1 := if hd oldName = SLASH then oldName.tail else oldName
    let r := getPathInodeNumber { s with numSymLinks := 0 } oldName1 currentInode1
    let oldNameNodeNum := r.1
    if (r.2.inodes oldNameNodeNum).type = INODE_DIRECTORY ∨ oldNameNodeNum = 0 then (ERROR, r.2)
    else
      let currentInode2 := if hd newName = SLASH then ROOTINODE else currentInode1
      let newName1 := if hd newName = SLASH then newName.tail else newName
      let c := yfsCreate r.2 newName1 currentInode2 oldNameNodeNum
      if c.1 = ERROR then (ERROR, c.2)
      else
        let inode := c.2.inodes oldNameNodeNum
        (0, saveInode (c.2.setInode oldNameNodeNum { inode with nlink := wrap16 (inode.nlink + 1) })
          oldNameNodeNum)

/-- Function `yfsUnlink`. -/
def yfsUnlink (s : FS) (pathname : List Int) (currentInode : Int) : Int × FS :=
  if currentInode ≤ 0 then (ERROR, s)
  else
    let d := getContainingDirectory s pathname currentInode
    let dirInodeNum := d.1
    let filename := d.2.1
    if (d.2.2.inodes dirInodeNum).type ≠ INODE_DIRECTORY then (ERROR, d.2.2)
    else
      let e := getDirectoryEntry d.2.2 filename dirInodeNum false
      let offset := e.1
      let blockNum := e.2.1
      if offset = -1 then (ERROR, e.2.2)
      else
        let s1 := e.2.2
        let inodeNum := readInt16 (s1.blocks blockNum) offset
        let inode := s1.inodes inodeNum
        let s2 := s1.setInode inodeNum { inode with nlink := wrap16 (inode.nlink - 1) }
        let s3 := if (s2.inodes inodeNum).nlink = 0 then clearFile s2 inodeNum else s2
        let s4 := saveInode s3 inodeNum
        (0, saveBlock (s4.setBlock blockNum (writeInt16 (s4.blocks blockNum) offset 0)) blockNum)

/-- Function `yfsSymLink`. -/
def yfsSymLink (s : FS) (oldname newname : List Int) (currentInode : Int) : Int × FS :=
  let currentInode := if hd newname = SLASH then ROOTINODE else currentInode
  let newname := if hd newname = SLASH then newname.tail else newname
  if currentInode ≤ 0 then (ERROR, s)
  else if ((cstr oldname).length : Int) ≥ MAXPATHNAMELEN then (ERROR, s)
  else if ((cstr newname).length : Int) ≥ MAXPATHNAMELEN then (ERROR, s)
  else
    let d := getContainingDirectory s newname currentInode
    let dirInodeNum := d.1
    let filename := d.2.1
    let e := getDirectoryEntry d.2.2 filename dirInodeNum true
    let offset := e.1
    let blockNum := e.2.1
    let r := getNextFreeInodeNum e.2.2
    let inodeNum := r.1
    let s1 := r.2.setBlock blockNum (writeInt16 (r.2.blocks blockNum) offset inodeNum)
    let s2 := s1.setBlock blockNum (zeroBytes (s1.blocks blockNum) (offset + 2) DIRNAMELEN)
    let s3 := saveBlock
      (s2.setBlock blockNum (writeList (s2.blocks blockNum) (offset + 2) (cstr filename)))
      blockNum
    let inode := s3.inodes inodeNum
    let b := getNextFreeBlockNum s3
    let s4 := b.2.setInode inodeNum
      { inode with type := INODE_SYMLINK, size := (cstr oldname).length, nlink := 1,
                   direct := upd inode.direct 0 b.1 }
    let s5 := s4.setBlock b.1
      (writeList (s4.blocks b.1) 0 (cstr oldname))
    (0, saveInode (saveBlock s5 b.1) inodeNum)

/-! ## The requests on symbolic links, directories and positions -/

/-- Modelled from the spec: `SEEK_SET`, the `whence` code of a position counted from
the beginning of the file (`comp421/iolib.h`, not among the sources). -/
def SEEK_SET : Int := 0

/-- Modelled from the spec: `SEEK_CUR`, the `whence` code of a position counted from
the current position (`comp421/iolib.h`, not among the sources). -/
def SEEK_CUR : Int := 1

/-- Modelled from the spec: `SEEK_END`, the `whence` code of a position counted from
the end of the file (`comp421/iolib.h`, not among the sources). -/
def SEEK_END : Int := 2

/-- Function `yfsSeek`: the result and the state afterwards. The sums are sums of
`int`, reduced with `wrap32`. -/
def yfsSeek (s : FS) (inodeNum offset whence currentPosition : Int) : Int × FS :=
  let s := { s with numSymLinks := 0 }
  let size := (s.inodes inodeNum).size
  if currentPosition > size ∨ currentPosition < 0 then (ERROR, s)
  else if whence = SEEK_SET then
    if offset < 0 ∨ offset > size then (ERROR, s) else (offset, s)
  else if whence = SEEK_CUR then
    if wrap32 (currentPosition + offset) > size ∨ wrap32 (currentPosition + offset) < 0 then
      (ERROR, s)
    else (wrap32 (currentPosition + offset), s)
  else if whence = SEEK_END then
    if offset > 0 ∨ wrap32 (size + offset) < 0 then (ERROR, s)
    else (wrap32 (size + offset), s)
  else (ERROR, s)

/-- The loop of `yfsReadLink` that counts `charsToRead`; it runs at most `len` rounds. -/
def charsToReadLoop : Nat → Bytes → Int → Int → Int
  | 0, _, _, charsToRead => charsToRead
  | fuel + 1, dataBlock, len, charsToRead =>
    if charsToRead < len ∧ dataBlock charsToRead ≠ 0 then
      charsToReadLoop fuel dataBlock len (charsToRead + 1)
    else charsToRead

/-- Function `yfsReadLink`: the result, the memory of the client and the state
afterwards; `copyOk` tells whether `CopyTo` succeeds. -/
def yfsReadLink (s : FS) (mem : Bytes) (copyOk : Bool) (pathname : List Int)
    (buf len currentInode : Int) : Int × Bytes × FS :=
  if buf = 0 ∨ len < 0 ∨ currentInode ≤ 0 then (ERROR, mem, s)
  else
    let currentInode := if hd pathname = SLASH then ROOTINODE else currentInode
    let pathname := skipSlashes pathname
    let r := getPathInodeNumber { s with numSymLinks := 0 } pathname currentInode
    let symInodeNum := r.1
    if symInodeNum = ERROR then (ERROR, mem, r.2)
    else
      let symInode := r.2.inodes symInodeNum
      let dataBlockNum := symInode.direct 0
      let dataBlock := r.2.blocks dataBlockNum
      let charsToRead := charsToReadLoop len.toNat dataBlock len 0
      if copyOk = false then (ERROR, mem, r.2)
      else (charsToRead, copyBytes mem buf dataBlock 0 charsToRead, r.2)

/-- Function `yfsMkDir`. The characters `'.'` of the two entries of the new directory
are stored over what the block holds; the other bytes of the two names are not
written. -/
def yfsMkDir (s : FS) (pathname : List Int) (currentInode : Int) : Int × FS :=
  if currentInode ≤ 0 then (ERROR, s)
  else
    let currentInode := if hd pathname = SLASH then ROOTINODE else currentInode
    let pathname := skipSlashes pathname
    let d := getContainingDirectory s pathname currentInode
    let dirInodeNum := d.1
    let filename := d.2.1
    let e := getDirectoryEntry d.2.2 filename dirInodeNum true
    let offset := e.1
    let blockNum := e.2.1
    let s1 := e.2.2
    if readInt16 (s1.blocks blockNum) offset ≠ 0 then (ERROR, s1)
    else
      let named := writeList (zeroBytes (s1.blocks blockNum) (offset + 2) DIRNAMELEN)
        (offset + 2) (cstr filename)
      let s2 := s1.setBlock blockNum named
      let r := getNextFreeInodeNum s2
      let inodeNum := r.1
      let s3 := saveBlock (r.2.setBlock blockNum (writeInt16 (r.2.blocks blockNum) offset inodeNum))
        blockNum
      let inode := s3.inodes inodeNum
      let s4 := s3.setInode inodeNum
        { inode with type := INODE_DIRECTORY, size := 2 * DIRENTRYSIZE, nlink := 1 }
      let b := getNextFreeBlockNum s4
      let firstDirectBlockNum := b.1
      let inode4 := b.2.inodes inodeNum
      let s5 := b.2.setInode inodeNum
        { inode4 with direct := upd inode4.direct 0 firstDirectBlockNum }
      let dir1 := upd (writeInt16 (s5.blocks firstDirectBlockNum) 0 inodeNum) 2 46
      let dir2 := upd (upd (writeInt16 dir1 DIRENTRYSIZE dirInodeNum) (DIRENTRYSIZE + 2) 46)
        (DIRENTRYSIZE + 3) 46
      let s6 := s5.setBlock firstDirectBlockNum dir2
      (0, saveInode (saveBlock s6 firstDirectBlockNum) inodeNum)

/-- Function `yfsRmDir`. -/
def yfsRmDir (s : FS) (pathname : List Int) (currentInode : Int) : Int × FS :=
  if currentInode ≤ 0 then (ERROR, s)
  else
    let currentInode := if hd pathname = SLASH then ROOTINODE else currentInode
    let pathname := skipSlashes pathname
    let r := getPathInodeNumber { s with numSymLinks := 0 } pathname currentInode
    let inodeNum := r.1
    if inodeNum = ERROR then (ERROR, r.2)
    else if (r.2.inodes inodeNum).size > 2 * DIRENTRYSIZE then (ERROR, r.2)
    else
      let s1 := addFreeInodeToList (clearFile r.2 inodeNum) inodeNum
      let d := getContainingDirectory s1 pathname currentInode
      let dirInodeNum := d.1
      let filename := d.2.1
      let e := getDirectoryEntry d.2.2 filename dirInodeNum true
      let offset := e.1
      let blockNum := e.2.1
      (0, saveBlock (e.2.2.setBlock blockNum (writeInt16 (e.2.2.blocks blockNum) offset 0))
        blockNum)

/-! ## The two caches and the disk

The requests above see the inodes and the blocks through the caches. This part is the
layer below: the queues of cache items and the sectors of the disk. -/

/-- Modelled from the spec: `INODESIZE`, the size of an inode on the disk, which is
`sizeof(struct inode)` (`comp421/filesystem.h`, not among the sources). -/
def INODESIZE : Int := 64

/-- The constant `INODESPERBLOCK` of `yfs.h`. -/
def INODESPERBLOCK : Int := cdiv BLOCKSIZE INODESIZE

/-- Modelled from the spec: `BLOCK_CACHESIZE`, the capacity of the block cache
(`comp421/filesystem.h`, not among the sources). -/
def BLOCK_CACHESIZE : Int := 32

/-- Modelled from the spec: `INODE_CACHESIZE`, the capacity of the inode cache
(`comp421/filesystem.h`, not among the sources). -/
def INODE_CACHESIZE : Int := 16

/-- The `struct cacheItem` of `yfs.h`: `addr` is the buffer the item owns, a block or
the bytes of a `struct inode`. The links `prevItem` and `nextItem` are the place of the
item in the list that holds the queue. -/
structure CacheItem where
  number : Int
  dirty : Bool
  addr : Bytes

/-- The disk and the global variables of the caches. A `queue` is the list of its
items from `firstItem` to `lastItem`. -/
structure Cache where
  disk : Int → Bytes
  cacheBlockQueue : List CacheItem
  blockCacheSize : Int
  cacheInodeQueue : List CacheItem
  inodeCacheSize : Int

/-- Modelled from the spec: `hash_table_lookup` (`hash_table.c` is not among the
sources). The table of a cache indexes the items of its queue: the lookup of a key is
the item of the queue with this number. -/
def hash_table_lookup (queue : List CacheItem) (key : Int) : Option CacheItem :=
  queue.find? (fun item => decide (item.number = key))

/-- Function `removeItemFromQueue` for the item that the lookup of `number` yields. -/
def removeItemFromQueue (queue : List CacheItem) (number : Int) : List CacheItem :=
  queue.eraseP (fun item => decide (item.number = number))

/-- Function `addItemEndQueue`. -/
def addItemEndQueue (item : CacheItem) (queue : List CacheItem) : List CacheItem :=
  queue ++ [item]

/-- Modelled from the spec: `WriteSector` of the Yalnix kernel (`comp421/yalnix.h`, not
among the sources); the sector holds the buffer afterwards. `ReadSector` is the
lookup `disk sector`. -/
def WriteSector (c : Cache) (sector : Int) (buf : Bytes) : Cache :=
  { c with disk := upd c.disk sector buf }

/-- Function `getBlock`: the buffer and the caches afterwards. The item of the buffer
is the last item of the block queue afterwards. The result is `none` where the source
dereferences `NULL`: the counter says that the cache is full and the queue is empty. -/
def getBlock (c : Cache) (blockNumber : Int) : Option (Bytes × Cache) :=
  match hash_table_lookup c.cacheBlockQueue blockNumber with
  | some blockItem =>
    some (blockItem.addr,
      { c with cacheBlockQueue :=
          addItemEndQueue blockItem (removeItemFromQueue c.cacheBlockQueue blockNumber) })
  | none =>
    let evicted : Option Cache :=
      if c.blockCacheSize = BLOCK_CACHESIZE then
        match c.cacheBlockQueue with
        | [] => none
        | lruBlockItem :: rest =>
          some { WriteSector c lruBlockItem.number lruBlockItem.addr with
            cacheBlockQueue := rest, blockCacheSize := c.blockCacheSize - 1 }
      else some c
    match evicted with
    | none => none
    | some c1 =>
      let block := c1.disk blockNumber
      let newItem : CacheItem := { number := blockNumber, addr := block, dirty := false }
      some (block,
        { c1 with cacheBlockQueue := addItemEndQueue newItem c1.cacheBlockQueue,
                  blockCacheSize := c1.blockCacheSize + 1 })

/-- A store through the pointer that `getBlock` has just returned: the buffer of the
last item of the block queue becomes `buf`. -/
def setLastAddr (queue : List CacheItem) (buf : Bytes) : List CacheItem :=
  match queue.getLast? with
  | none => queue
  | some item => queue.dropLast ++ [{ item with addr := buf }]

/-- The first loop of `yfsSync`, over the items of the block queue: the disk after the
dirty blocks were written. -/
def syncBlocks : List CacheItem → (Int → Bytes) → (Int → Bytes)
  | [], disk => disk
  | currBlockItem :: rest, disk =>
    syncBlocks rest (if currBlockItem.dirty then upd disk currBlockItem.number currBlockItem.addr
      else disk)

/-- The second loop of `yfsSync`, over the items of the inode queue. -/
def syncInodes : List CacheItem → Cache → Option Cache
  | [], c => some c
  | currInodeItem :: rest, c =>
    if currInodeItem.dirty then
      let inodeNum := currInodeItem.number
      let blockNum := cdiv inodeNum INODESPERBLOCK + 1
      match getBlock c blockNum with
      | none => none
      | some (block, c1) =>
        let block1 := copyBytes block ((inodeNum - (blockNum - 1) * INODESPERBLOCK) * INODESIZE)
          currInodeItem.addr 0 INODESIZE
        syncInodes rest
          (WriteSector { c1 with cacheBlockQueue := setLastAddr c1.cacheBlockQueue block1 }
            blockNum block1)
    else syncInodes rest c

/-- Function `yfsSync`: the result and the caches afterwards. -/
def yfsSync (c : Cache) : Option (Int × Cache) :=
  match syncInodes c.cacheInodeQueue { c with disk := syncBlocks c.cacheBlockQueue c.disk } with
  | none => none
  | some c1 => some (0, c1)

/-- Function `getNthBlock` on the caches: `inode` is the record that the pointer
`inode` points to and `freeBlocks` the free block list; the result is the block number,
the record, the caches and the free block list afterwards. The store into the indirect
block goes into the buffer of the cache item; the source does not call `saveBlock`
after it. -/
def Cache.getNthBlock (c : Cache) (freeBlocks : List Int) (inode : Inode) (n : Int)
    (allocateIfNeeded : Bool) : Option (Int × Inode × Cache × List Int) :=
  if n ≥ NUM_DIRECT + BLOCKSIZE / 4 then some (0, inode, c, freeBlocks)
  else
    let isOver : Bool := decide (n * BLOCKSIZE ≥ inode.size)
    if isOver && !allocateIfNeeded then some (0, inode, c, freeBlocks)
    else if n < NUM_DIRECT then
      if isOver then
        some (freeBlocks.headD 0,
          { inode with direct := upd inode.direct n (freeBlocks.headD 0) }, c, freeBlocks.tail)
      else some (inode.direct n, inode, c, freeBlocks)
    else
      match getBlock c inode.indirect with
      | none => none
      | some (indirectBlock, c1) =>
        if isOver then
          let stored := writeInt32 indirectBlock (4 * (n - NUM_DIRECT)) (freeBlocks.headD 0)
          some (readInt32 stored (4 * (n - NUM_DIRECT)), inode,
            { c1 with cacheBlockQueue := setLastAddr c1.cacheBlockQueue stored },
            freeBlocks.tail)
        else some (readInt32 indirectBlock (4 * (n - NUM_DIRECT)), inode, c1, freeBlocks)

/-! ## The bootstrap scan -/

/-- The loop `while ((blockNum = getNthBlock(inode, i++, false)) != 0)` of
`buildFreeInodeAndBlockLists`: the array `takenBlocks` afterwards. The array is a
function of the index here; a store at an index outside of `0 .. num_blocks - 1` is a
store outside of the array in the source. The loop ends at the latest at index
`NUM_DIRECT + BLOCKSIZE / 4`, where `getNthBlock` yields 0. -/
def takenLoop : Nat → FS → Int → Int → (Int → Bool) → (Int → Bool)
  | 0, _, _, _, takenBlocks => takenBlocks
  | fuel + 1, s, inodeNum, i, takenBlocks =>
    let blockNum := (getNthBlock s inodeNum i false).1
    if blockNum ≠ 0 then takenLoop fuel s inodeNum (i + 1) (upd takenBlocks blockNum true)
    else takenBlocks

/-- The loop `for (; inodeNum < INODESPERBLOCK * blockNum; inodeNum++)` of
`buildFreeInodeAndBlockLists`: the state, the array `takenBlocks` and `inodeNum`
afterwards. -/
def inodeLoop : Nat → FS → (Int → Bool) → Int → Int → FS × (Int → Bool) × Int
  | 0, s, takenBlocks, inodeNum, _ => (s, takenBlocks, inodeNum)
  | fuel + 1, s, takenBlocks, inodeNum, blockNum =>
    if inodeNum < INODESPERBLOCK * blockNum then
      if (s.inodes inodeNum).type = INODE_FREE then
        inodeLoop fuel (addFreeInodeToList s inodeNum) takenBlocks (inodeNum + 1) blockNum
      else
        inodeLoop fuel s
          (takenLoop ((NUM_DIRECT + BLOCKSIZE / 4).toNat + 1) s inodeNum 0 takenBlocks)
          (inodeNum + 1) blockNum
    else (s, takenBlocks, inodeNum)

/-- The loop `while (inodeNum < header.num_inodes)` of `buildFreeInodeAndBlockLists`.
Every round but the first moves `inodeNum` on by `INODESPERBLOCK`, so `num_inodes`
rounds are enough. -/
def inodeBlockLoop : Nat → Int → FS → (Int → Bool) → Int → Int → FS × (Int → Bool)
  | 0, _, s, takenBlocks, _, _ => (s, takenBlocks)
  | fuel + 1, num_inodes, s, takenBlocks, inodeNum, blockNum =>
    if inodeNum < num_inodes then
      let r := inodeLoop (INODESPERBLOCK * blockNum - inodeNum).toNat s takenBlocks inodeNum
        blockNum
      inodeBlockLoop fuel num_inodes r.1 r.2.1 r.2.2 (blockNum + 1)
    else (s, takenBlocks)

/-- Function `buildFreeInodeAndBlockLists`. Modelled from the spec: the layout of
`struct fs_header` (`comp421/filesystem.h`, not among the sources): `num_blocks` is the
`int` at offset 0 and `num_inodes` the `int` at offset 4; the function reads the header
from block 1. -/
def buildFreeInodeAndBlockLists (s : FS) : FS :=
  let num_blocks := readInt32 (s.blocks 1) 0
  let num_inodes := readInt32 (s.blocks 1) 4
  let takenBlocks : Int → Bool := upd (fun _ => false) 0 true
  let r := inodeBlockLoop num_inodes.toNat num_inodes s takenBlocks ROOTINODE 1
  (List.range num_blocks.toNat).foldl
    (fun (s1 : FS) (i : Nat) => if r.2 (i : Int) then s1 else addFreeBlockToList s1 (i : Int))
    r.1

/-! ## The queues as linked items -/

/-- The links and the number of a `struct cacheItem` in memory. An address is an
integer and 0 is `NULL`. -/
structure ItemCell where
  number : Int
  prevItem : Int
  nextItem : Int

/-- The memory that holds the items of a `struct queue`, and its two fields. -/
structure QueueMem where
  cell : Int → ItemCell
  firstItem : Int
  lastItem : Int

/-- Function `removeItemFromFrontOfQueue` on the linked items: the pointer returned and
the memory afterwards. -/
def QueueMem.removeItemFromFrontOfQueue (m : QueueMem) : Int × QueueMem :=
  let firstItem := m.firstItem
  if firstItem = 0 then (0, m)
  else
    let m1 := if (m.cell m.firstItem).nextItem = 0 then { m with lastItem := 0 } else m
    let m2 := { m1 with
      cell := upd m1.cell m1.firstItem { m1.cell m1.firstItem with prevItem := 0 } }
    let m3 := { m2 with firstItem := (m2.cell m2.firstItem).nextItem }
    let m4 := if m3.firstItem ≠ 0 then
        { m3 with cell := upd m3.cell m3.firstItem { m3.cell m3.firstItem with prevItem := 0 } }
      else m3
    (firstItem, m4)

/-- Function `removeItemFromQueue` on the linked items. -/
def QueueMem.removeItemFromQueue (m : QueueMem) (item : Int) : QueueMem :=
  if (m.cell item).prevItem = 0 then m.removeItemFromFrontOfQueue.2
  else
    let m1 := if (m.cell item).nextItem = 0 then { m with lastItem := (m.cell item).prevItem }
      else m
    let m2 := { m1 with
      cell := upd m1.cell (m1.cell item).prevItem
        { m1.cell (m1.cell item).prevItem with nextItem := (m1.cell item).nextItem } }
    if (m2.cell item).nextItem ≠ 0 then
      { m2 with
        cell := upd m2.cell (m2.cell item).nextItem
          { m2.cell (m2.cell item).nextItem with prevItem := (m2.cell item).prevItem } }
    else m2

/-- Function `addItemEndQueue` on the linked items; `isBlockQueue` is the test
`queue == cacheBlockQueue`, which guards the statement `item->nextItem = NULL` of the
first branch. -/
def QueueMem.addItemEndQueue (m : QueueMem) (item : Int) (isBlockQueue : Bool) : QueueMem :=
  if m.firstItem = 0 then
    let m1 := if isBlockQueue then
        { m with cell := upd m.cell item { m.cell item with nextItem := 0 } }
      else m
    let m2 := { m1 with cell := upd m1.cell item { m1.cell item with prevItem := 0 } }
    { m2 with lastItem := item, firstItem := item }
  else
    let m1 := { m with cell := upd m.cell m.lastItem { m.cell m.lastItem with nextItem := item } }
    let m2 := { m1 with cell := upd m1.cell item { m1.cell item with prevItem := m1.lastItem } }
    let m3 := { m2 with lastItem := item }
    { m3 with cell := upd m3.cell m3.lastItem { m3.cell m3.lastItem with nextItem := 0 } }

/-- The items at the addresses `l` are linked from `cur` on by `nextItem` and back by
`prevItem`, with `prev` before the first of them, and `last` is the last of them (or
`prev` when there is none). -/
def linkedFrom (cell : Int → ItemCell) : Int → Int → List Int → Int → Prop
  | prev, cur, [], last => cur = 0 ∧ last = prev
  | prev, cur, x :: xs, last =>
    cur = x ∧ x ≠ 0 ∧ (cell x).prevItem = prev ∧ linkedFrom cell x (cell x).nextItem xs last

/-- The memory `m` holds the queue of the items at the addresses `l`, from `firstItem`
to `lastItem`. -/
def IsQueue (m : QueueMem) (l : List Int) : Prop :=
  linkedFrom m.cell 0 m.firstItem l m.lastItem ∧ l.Nodup

/-! ## Reference definitions and the description of a write -/

/-- The data model of the spec: block `j` of a file is `direct[j]` for
`j < NUM_DIRECT`, else entry `j - NUM_DIRECT` of the indirect block, which holds
`BLOCKSIZE / 4` block numbers; a larger index has no block (0). -/
def logicalBlock (s : FS) (ino j : Int) : Int :=
  if j < NUM_DIRECT then (s.inodes ino).direct j
  else if j - NUM_DIRECT < BLOCKSIZE / 4 then
    readInt32 (s.blocks (s.inodes ino).indirect) (4 * (j - NUM_DIRECT))
  else 0

/-- File byte `k` of a file: byte `k mod BLOCKSIZE` of logical block `k / BLOCKSIZE`. -/
def fileByte (s : FS) (ino k : Int) : Int :=
  s.blocks (logicalBlock s ino (k / BLOCKSIZE)) (k % BLOCKSIZE)

/-- The read of the spec: the result for a file of size `fsize`. -/
def readResult (fsize size byteOffset : Int) : Int :=
  if byteOffset > fsize then ERROR else min size (fsize - byteOffset)

/-- The value is a C `int`. -/
abbrev isInt32 (v : Int) : Prop := -2147483648 ≤ v ∧ v < 2147483648

/-- The number of blocks of a file of size `sz`: `ceil(sz / BLOCKSIZE)`. -/
def numBlocks (sz : Int) : Nat := ((sz + (BLOCKSIZE - 1)) / BLOCKSIZE).toNat

/-- The block numbers of the logical blocks `0 .. ceil(size / BLOCKSIZE) - 1` of file
`ino`, in this order. -/
def fileBlocks (s : FS) (ino : Int) : List Int :=
  (List.range (numBlocks (s.inodes ino).size)).map (fun (j : Nat) => logicalBlock s ino (j : Int))

/-- The reference definition of the result of a seek, in the words of the
specification: `s` is the size of the file, `cur` the current position. -/
def seekReference (s offset whence cur : Int) : Int :=
  if cur < 0 ∨ cur > s then ERROR
  else if whence = SEEK_SET ∧ 0 ≤ offset ∧ offset ≤ s then offset
  else if whence = SEEK_CUR ∧ 0 ≤ cur + offset ∧ cur + offset ≤ s then cur + offset
  else if whence = SEEK_END ∧ offset ≤ 0 ∧ s + offset ≥ 0 then s + offset
  else ERROR

/-- The containing directory and the leaf name that `yfsSymLink` computes for
`newname`: one leading slash is dropped and makes the root the starting directory. -/
def symLinkDir (s : FS) (newname : List Int) (currentInode : Int) : Int × List Int × FS :=
  getContainingDirectory s (if hd newname = SLASH then newname.tail else newname)
    (if hd newname = SLASH then ROOTINODE else currentInode)

/-- The inode that `yfsRmDir` resolves its path to, and the state after the
resolution: the leading slashes are dropped and make the root the starting directory. -/
def rmDirTarget (s : FS) (pathname : List Int) (currentInode : Int) : Int × FS :=
  getPathInodeNumber { s with numSymLinks := 0 } (skipSlashes pathname)
    (if hd pathname = SLASH then ROOTINODE else currentInode)

/-- The sector of the on-disk record of inode `n`: `n / INODESPERBLOCK + 1`. -/
def inodeSector (n : Int) : Int := cdiv n INODESPERBLOCK + 1

/-- The byte offset of the on-disk record of inode `n` in its sector:
`(n mod INODESPERBLOCK) * INODESIZE`. -/
def inodeOffset (n : Int) : Int := cmod n INODESPERBLOCK * INODESIZE

/-- The caches are consistent: the counter of the block cache is the number of its
items, and no two items of a queue have the same number. -/
structure CacheOk (c : Cache) : Prop where
  size : c.blockCacheSize = c.cacheBlockQueue.length
  blocks : (c.cacheBlockQueue.map CacheItem.number).Nodup
  inodes : (c.cacheInodeQueue.map CacheItem.number).Nodup

/-- The sector of block `m` on the disk equals the buffer of every item of the block
cache that holds block `m`. -/
def Synced (c : Cache) (m : Int) : Prop :=
  ∀ it ∈ c.cacheBlockQueue, it.number = m → c.disk m = it.addr

/-- The buffer `buf` of the sector of inode `n` holds `data` as the record of inode
`n`. -/
def HasRecord (buf : Bytes) (n : Int) (data : Bytes) : Prop :=
  ∀ k, 0 ≤ k → k < INODESIZE → buf (inodeOffset n + k) = data k

/-- The record of inode `n` is `data` on the disk and in every buffer of the block
cache that holds its sector. -/
def Recorded (c : Cache) (n : Int) (data : Bytes) : Prop :=
  HasRecord (c.disk (inodeSector n)) n data ∧
    ∀ it ∈ c.cacheBlockQueue, it.number = inodeSector n → HasRecord it.addr n data

/-- Every item of the block cache that holds block `m` is dirty. -/
def DirtyKept (c : Cache) (m : Int) : Prop :=
  ∀ it ∈ c.cacheBlockQueue, it.number = m → it.dirty = true

/-- The shape of the directories of the spec: every inode of type `DIRECTORY` has a
size that is a multiple of `sizeof(struct dir_entry)` and at least twice that, and the
entries `.` and `..` are in use. -/
def DirShape (s : FS) : Prop :=
  ∀ n, (s.inodes n).type = INODE_DIRECTORY →
    (s.inodes n).size % DIRENTRYSIZE = 0 ∧ (s.inodes n).size ≥ 2 * DIRENTRYSIZE ∧
      dirLookup s n (str ".") ≠ 0 ∧ dirLookup s n (str "..") ≠ 0

/-- The free inode list of the spec for the inode numbers `1 .. numInodes - 1`: a number
is on the list if and only if the type of the inode is `FREE`, and no number is on the
list twice. -/
def FreeInodeInv (s : FS) (numInodes : Nat) : Prop :=
  (∀ n ∈ List.range numInodes, 1 ≤ n →
      ((n : Int) ∈ s.freeInodes ↔ (s.inodes (n : Int)).type = INODE_FREE)) ∧
    s.freeInodes.Nodup

/-- A view of the block cache and the disk: of every item of the block queue the
number, the dirty flag and the `int` at offset 0 of its buffer, and the `int` at offset
0 of sector 0. -/
def blockView (c : Cache) : List (Int × Bool × Int) × Int :=
  (c.cacheBlockQueue.map (fun (it : CacheItem) => (it.number, it.dirty, readInt32 it.addr 0)),
    readInt32 (c.disk 0) 0)

/-! ## The steps of the directory search -/

/-- The first statement of the inner loop of `getDirectoryEntry`: remember the first
entry with `inum = 0`. -/
def noteFree (blk : Bytes) (c : DirCursor) : DirCursor :=
  if c.freeEntryOffset = -1 ∧ readInt16 blk c.curOff = 0
  then { c with freeEntryBlockNum := c.blockNum, freeEntryOffset := c.curOff } else c

/-- The last statements of the inner loop of `getDirectoryEntry`: go to the next
entry. -/
def nextEntry (c : DirCursor) : DirCursor :=
  { c with curOff := c.curOff + DIRENTRYSIZE, totalSize := c.totalSize + DIRENTRYSIZE }

/-! ## The entries of a directory -/

/-- The block that holds entry `k` of the directory `ino`: a block holds
`BLOCKSIZE / DIRENTRYSIZE` entries. -/
def dirEntryBlock (s : FS) (ino k : Int) : Int :=
  logicalBlock s ino (k / (BLOCKSIZE / DIRENTRYSIZE))

/-- The offset of entry `k` of a directory in its block. -/
def dirEntryOff (k : Int) : Int := k % (BLOCKSIZE / DIRENTRYSIZE) * DIRENTRYSIZE

/-- The field `inum` of entry `k` of the directory `ino`. -/
def dirEntryInum (s : FS) (ino k : Int) : Int :=
  readInt16 (s.blocks (dirEntryBlock s ino k)) (dirEntryOff k)

/-- The name of entry `k` of the directory `ino` equals the first component of `p` (by
`isEqual`). -/
def dirEntryMatch (s : FS) (ino : Int) (p : List Int) (k : Int) : Bool :=
  isEqual p (entryName (s.blocks (dirEntryBlock s ino k)) (dirEntryOff k))

/-- Every logical block within the size of the file has a block number. -/
def Mapped (s : FS) (ino : Int) : Prop :=
  ∀ j, 0 ≤ j → j * BLOCKSIZE < (s.inodes ino).size → logicalBlock s ino j ≠ 0

/-- What the search remembers of the free entries among the entries `0 .. k - 1`: the
location of the first of them, or `-1` and block 0 when there is none. -/
def FreeSeen (s : FS) (ino k : Int) (c : DirCursor) : Prop :=
  (c.freeEntryOffset = -1 ∧ c.freeEntryBlockNum = 0 ∧
    ∀ j, 0 ≤ j → j < k → dirEntryInum s ino j ≠ 0) ∨
  (∃ f, 0 ≤ f ∧ f < k ∧ dirEntryInum s ino f = 0 ∧
    (∀ j, 0 ≤ j → j < f → dirEntryInum s ino j ≠ 0) ∧
    c.freeEntryOffset = dirEntryOff f ∧ c.freeEntryBlockNum = dirEntryBlock s ino f)

/-- The search is in block `i` of the directory, before its entry `a`: the entries before
have been compared and none matched. -/
structure InBlock (s : FS) (ino : Int) (p : List Int) (i a : Int) (c : DirCursor) : Prop where
  a0 : 0 ≤ a
  a16 : a ≤ 16
  i0 : 0 ≤ i
  ci : c.i = i
  cb : c.blockNum = logicalBlock s ino i
  ccur : c.currentBlock = logicalBlock s ino i
  ccb : c.currBlockNum = if i = 0 then 0 else logicalBlock s ino (i - 1)
  coff : c.curOff = 32 * a
  ctot : c.totalSize = 32 * (16 * i + a + 1)
  cnf : c.isFound = false
  within : 32 * (16 * i + a) ≤ (s.inodes ino).size
  free : FreeSeen s ino (16 * i + a) c
  noMatch : ∀ k, 0 ≤ k → k < 16 * i + a → dirEntryMatch s ino p k = false

/-- The search has found the name in entry `k`, the first entry that matches. -/
structure FoundAt (s : FS) (ino : Int) (p : List Int) (k : Int) (c : DirCursor) : Prop where
  k0 : 0 ≤ k
  kin : (k + 1) * 32 ≤ (s.inodes ino).size
  hit : dirEntryMatch s ino p k = true
  first : ∀ j, 0 ≤ j → j < k → dirEntryMatch s ino p j = false
  found : c.isFound = true
  off : c.curOff = dirEntryOff k
  blk : c.blockNum = dirEntryBlock s ino k

/-- The search has compared every entry within the size and none matched: the values of
the local variables after the outer loop. -/
structure SearchEnd (s : FS) (ino : Int) (p : List Int) (c : DirCursor) : Prop where
  nf : c.isFound = false
  blk : c.blockNum = 0
  noMatch : ∀ k, 0 ≤ k → (k + 1) * 32 ≤ (s.inodes ino).size → dirEntryMatch s ino p k = false
  free : FreeSeen s ino ((s.inodes ino).size / 32) c
  ci : c.i = ((s.inodes ino).size + 511) / 512
  tot : c.totalSize = 32 * ((s.inodes ino).size / 32 + 1)
  last : 0 < (s.inodes ino).size →
    c.currBlockNum = logicalBlock s ino (((s.inodes ino).size - 1) / 512) ∧
    c.currentBlock = logicalBlock s ino (((s.inodes ino).size - 1) / 512) ∧
    c.curOff = 32 * ((s.inodes ino).size / 32) - 512 * (((s.inodes ino).size - 1) / 512)

/-- The search is at the head of the outer loop for block `i`, with `e` entries
compared. -/
structure AtHead (s : FS) (ino : Int) (p : List Int) (i e : Int) (c : DirCursor) : Prop where
  i0 : 0 ≤ i
  ci : c.i = i
  cb : c.blockNum = (getNthBlock s ino i false).1
  cnf : c.isFound = false
  ctot : c.totalSize = 32 * (e + 1)
  e0 : 0 ≤ e
  within : 32 * e ≤ (s.inodes ino).size
  free : FreeSeen s ino e c
  noMatch : ∀ k, 0 ≤ k → k < e → dirEntryMatch s ino p k = false
  pos : (i = 0 ∧ e = 0 ∧ c.currBlockNum = 0 ∧ c.currentBlock = 0 ∧ c.curOff = 0) ∨
    (0 < i ∧ (i - 1) * 512 < (s.inodes ino).size ∧ 16 * (i - 1) ≤ e ∧ e ≤ 16 * i ∧
      c.currBlockNum = logicalBlock s ino (i - 1) ∧
      c.currentBlock = logicalBlock s ino (i - 1) ∧
      c.curOff = 32 * (e - 16 * (i - 1)) ∧
      (e = 16 * i ∨ (s.inodes ino).size < 32 * (e + 1)))

/-- The state `s2` is the state `s` with one entry appended to the directory `ino` at
offset `o` of block `blk`: the size has grown by one entry, the new entry is at file
offset `size`, has `inum = 0` and is in a block with a number, and the blocks that the
directory had are at their places in the block map with their names. -/
structure Appended (s s2 : FS) (ino o blk : Int) : Prop where
  size : (s2.inodes ino).size = (s.inodes ino).size + 32
  dirty : s2.inodeDirty ino = true
  off : o = (s.inodes ino).size % 512
  loc : blk = logicalBlock s2 ino ((s.inodes ino).size / 512)
  inum : readInt16 (s2.blocks blk) o = 0
  map : ∀ j, 0 ≤ j → j * 512 < (s.inodes ino).size →
    logicalBlock s2 ino j = logicalBlock s ino j
  names : ∀ j x, 0 ≤ j → j * 512 < (s.inodes ino).size → 2 ≤ x % 32 →
    s2.blocks (logicalBlock s ino j) x = s.blocks (logicalBlock s ino j) x
  nz : blk ≠ 0

/-! ## The contents of a block seen through the block cache -/

/-- The logical content of block `m`: the buffer of its item when the block is in the
block cache, else its sector on the disk. -/
def logicalContent (c : Cache) (m : Int) : Bytes :=
  match hash_table_lookup c.cacheBlockQueue m with
  | some item => item.addr
  | none => c.disk m

/-- The block numbers of the items of the block queue, from the least recently used to
the most recently used. -/
def residentBlocks (c : Cache) : List Int := c.cacheBlockQueue.map CacheItem.number

/-! ## The reference for the comparison of names -/

/-- The first component of a path: its characters before the first `/` or the
terminating NUL. -/
def firstComponent : List Int → List Int
  | [] => []
  | c :: rest => if c = SLASH ∨ c = 0 then [] else c :: firstComponent rest

/-- The name stored in a name field of `DIRNAMELEN` bytes: the bytes up to the first
NUL, or all `DIRNAMELEN` bytes when the field holds no NUL. -/
def storedName (e : Int → Int) : List Int := bytesString DIRNAMELEN.toNat e 0

/-- The comparison of names as the specification words it: the first component of the
path, truncated to `DIRNAMELEN` characters, equals the stored name. -/
def isEqualReference (path : List Int) (e : Int → Int) : Bool :=
  decide ((firstComponent path).take DIRNAMELEN.toNat = storedName e)

/-! ## The range of the bootstrap scan -/

/-- The first inode number that the scan of `buildFreeInodeAndBlockLists` does not
visit: the scan starts at `ROOTINODE` and, once begun, runs to the end of a block of
inodes. -/
def scanEnd (num_inodes : Int) : Int :=
  if num_inodes ≤ ROOTINODE then ROOTINODE
  else INODESPERBLOCK * ((num_inodes + INODESPERBLOCK - 1) / INODESPERBLOCK)

/-! ## Concrete states -/

/-- A block of zero bytes. -/
def zeroBlock : Bytes := fun _ => 0

/-- An inode record of type `FREE` with all fields zero. -/
def freeInode : Inode := ⟨INODE_FREE, 0, 0, 0, fun _ => 0, 0⟩

/-- The buffer with the directory entry `(inum, name)` stored at offset `off`. -/
def mkEntry (b : Bytes) (off inum : Int) (name : List Int) : Bytes :=
  writeList (writeInt16 b off inum) (off + 2) name

/-- The first block of a directory `self` with parent `parent`: the entries `.` and
`..`. -/
def dirBlock (self parent : Int) : Bytes :=
  mkEntry (mkEntry zeroBlock 0 self (str ".")) 32 parent (str "..")

/-- `CopyFrom` and `CopyTo` always succeed. -/
def copyAlways : Int → Bool := fun _ => true

/-- A client memory that holds `hello` at address 100. -/
def memHello : Bytes := writeList zeroBlock 100 (str "hello")

/-- A freshly formatted file system: the root directory (inode 1, block 7) with the
entries `.` and `..`, the free inodes 2 to 6 and the free blocks 8 to 20. -/
def fsFresh : FS where
  inodes := upd (fun _ => freeInode) 1 ⟨INODE_DIRECTORY, 2, 0, 64, upd (fun _ => 0) 0 7, 0⟩
  blocks := upd (fun _ => zeroBlock) 7 (dirBlock 1 1)
  inodeDirty := fun _ => false
  blockDirty := fun _ => false
  freeInodes := [2, 3, 4, 5, 6]
  freeBlocks := [20, 19, 18, 17, 16, 15, 14, 13, 12, 11, 10, 9, 8]
  freeInodeCount := 5
  freeBlockCount := 13
  numSymLinks := 0

/-- The root directory holds the regular file `a` (inode 2) with the five bytes
`hello` in block 8, and the empty regular file `e` (inode 3). -/
def fsFile : FS where
  inodes := upd (upd (upd (fun _ => freeInode)
    1 ⟨INODE_DIRECTORY, 2, 0, 128, upd (fun _ => 0) 0 7, 0⟩)
    2 ⟨INODE_REGULAR, 1, 1, 5, upd (fun _ => 0) 0 8, 0⟩)
    3 ⟨INODE_REGULAR, 1, 1, 0, fun _ => 0, 0⟩
  blocks := upd (upd (fun _ => zeroBlock)
    7 (mkEntry (mkEntry (dirBlock 1 1) 64 2 (str "a")) 96 3 (str "e")))
    8 (writeList zeroBlock 0 (str "hello"))
  inodeDirty := fun _ => false
  blockDirty := fun _ => false
  freeInodes := [4, 5, 6]
  freeBlocks := [20, 19, 18, 17, 16, 15, 14, 13, 12, 11, 10, 9]
  freeInodeCount := 5
  freeBlockCount := 13
  numSymLinks := 0

/-- The root directory (inode 1, block 7) holds the symbolic link `s` (inode 2, target
`t` in block 8) and the directory `t` (inode 3, block 9), which holds the empty regular
file `f` (inode 4). -/
def fsLink : FS where
  inodes := upd (upd (upd (upd (fun _ => freeInode)
    1 ⟨INODE_DIRECTORY, 2, 0, 128, upd (fun _ => 0) 0 7, 0⟩)
    2 ⟨INODE_SYMLINK, 1, 1, 1, upd (fun _ => 0) 0 8, 0⟩)
    3 ⟨INODE_DIRECTORY, 1, 1, 96, upd (fun _ => 0) 0 9, 0⟩)
    4 ⟨INODE_REGULAR, 1, 1, 0, fun _ => 0, 0⟩
  blocks := upd (upd (upd (fun _ => zeroBlock)
    7 (mkEntry (mkEntry (dirBlock 1 1) 64 2 (str "s")) 96 3 (str "t")))
    8 (writeList zeroBlock 0 (str "t")))
    9 (mkEntry (dirBlock 3 1) 64 4 (str "f"))
  inodeDirty := fun _ => false
  blockDirty := fun _ => false
  freeInodes := [5, 6]
  freeBlocks := [20, 19, 18, 17, 16, 15, 14, 13, 12, 11, 10]
  freeInodeCount := 5
  freeBlockCount := 13
  numSymLinks := 0

/-- The root directory (inode 1, block 7) holds the regular file `a` (inode 2, the
bytes `hello` in block 8) and the directory `d` (inode 3, block 9). -/
def fsDir : FS where
  inodes := upd (upd (upd (fun _ => freeInode)
    1 ⟨INODE_DIRECTORY, 2, 0, 128, upd (fun _ => 0) 0 7, 0⟩)
    2 ⟨INODE_REGULAR, 1, 1, 5, upd (fun _ => 0) 0 8, 0⟩)
    3 ⟨INODE_DIRECTORY, 1, 1, 64, upd (fun _ => 0) 0 9, 0⟩
  blocks := upd (upd (upd (fun _ => zeroBlock)
    7 (mkEntry (mkEntry (dirBlock 1 1) 64 2 (str "a")) 96 3 (str "d")))
    8 (writeList zeroBlock 0 (str "hello")))
    9 (dirBlock 3 1)
  inodeDirty := fun _ => false
  blockDirty := fun _ => false
  freeInodes := [4, 5, 6]
  freeBlocks := [20, 19, 18, 17, 16, 15, 14, 13, 12, 11, 10]
  freeInodeCount := 5
  freeBlockCount := 13
  numSymLinks := 0

/-- The path of 255 slashes followed by the name `a`: 256 characters. -/
def longPath : List Int := List.replicate 255 SLASH ++ str "a"

/-- The root directory holds the regular file `a` (inode 2) of size 1029 whose first
two logical blocks are not mapped (`direct[0] = direct[1] = 0`) and whose third is
block 8: the file as it is after a write of 5 bytes at offset 1024 to the empty file. -/
def fsSparse : FS where
  inodes := upd (upd (fun _ => freeInode)
    1 ⟨INODE_DIRECTORY, 2, 0, 96, upd (fun _ => 0) 0 7, 0⟩)
    2 ⟨INODE_REGULAR, 1, 1, 1029, upd (fun _ => 0) 2 8, 0⟩
  blocks := upd (upd (fun _ => zeroBlock)
    7 (mkEntry (dirBlock 1 1) 64 2 (str "a")))
    8 (writeList zeroBlock 0 (str "hello"))
  inodeDirty := fun _ => false
  blockDirty := fun _ => false
  freeInodes := [3, 4, 5, 6]
  freeBlocks := [20, 19, 18, 17, 16, 15, 14, 13, 12, 11, 10, 9]
  freeInodeCount := 5
  freeBlockCount := 13
  numSymLinks := 0

/-- A block that holds the byte `z` everywhere: a block that was in use before. -/
def staleBlock : Bytes := fun _ => 122

/-- The freshly formatted file system in which the first free block, block 20, still
holds what an earlier file left there. -/
def fsStale : FS := { fsFresh with blocks := upd fsFresh.blocks 20 staleBlock }

/-- The state of `fsDir` after the file `d/x` was created and unlinked: the directory
`d` (inode 3, block 9) holds the entries `.` and `..` and a free entry, and has the
size 96. -/
def fsTomb : FS := (yfsUnlink (yfsCreate fsDir (str "d/x") 1 CREATE_NEW).2 (str "d/x") 1).2

/-- A cache that holds the dirty block 9 and the dirty inode 3, whose record has the
byte 7 everywhere, over a disk of zero blocks. -/
def cacheDirty : Cache where
  disk := fun _ => zeroBlock
  cacheBlockQueue := [⟨9, true, staleBlock⟩]
  blockCacheSize := 1
  cacheInodeQueue := [⟨3, true, fun _ => 7⟩]
  inodeCacheSize := 1

/-- The header of a file system of 21 blocks and 8 inodes, in the first bytes of
block 1. -/
def headerBlock : Bytes := writeInt32 (writeInt32 zeroBlock 0 21) 4 8

/-- A disk image before the bootstrap: the header in block 1, the root directory
(inode 1, block 7) with the entries `.` and `..`, every other inode free, and empty
free lists. -/
def imgFresh : FS where
  inodes := upd (fun _ => freeInode) 1 ⟨INODE_DIRECTORY, 2, 0, 64, upd (fun _ => 0) 0 7, 0⟩
  blocks := upd (upd (fun _ => zeroBlock) 1 headerBlock) 7 (dirBlock 1 1)
  inodeDirty := fun _ => false
  blockDirty := fun _ => false
  freeInodes := []
  freeBlocks := []
  freeInodeCount := 0
  freeBlockCount := 0
  numSymLinks := 0

/-- The state after the bootstrap of `imgFresh`. -/
def fsBoot : FS := buildFreeInodeAndBlockLists imgFresh

/-- The image `imgFresh` with the regular file of inode 2 of 13 blocks: the direct
blocks 3 to 6 and 8 to 15, the indirect block 16 and the data block 17 in its first
slot. -/
def imgIndirect : FS :=
  { imgFresh with
    inodes := upd imgFresh.inodes 2
      ⟨INODE_REGULAR, 1, 1, 13 * 512,
        fun j => if 0 ≤ j ∧ j < 4 then j + 3 else if 4 ≤ j ∧ j < 12 then j + 4 else 0, 16⟩
    blocks := upd imgFresh.blocks 16 (writeInt32 zeroBlock 0 17) }

/-- The state `fsFile` with an empty free inode list. -/
def fsNoInode : FS := { fsFile with freeInodes := [] }

/-- An empty cache over a disk of zero blocks. -/
def cacheEmpty : Cache where
  disk := fun _ => zeroBlock
  cacheBlockQueue := []
  blockCacheSize := 0
  cacheInodeQueue := []
  inodeCacheSize := 0

/-- The record of an empty regular file that has never used its indirect block. -/
def emptyFile : Inode := ⟨INODE_REGULAR, 1, 1, 0, fun _ => 0, 0⟩

/-- The state `fsFile` with the `reuse` field of the free inode 4, the head of the free
inode list, at `INT_MAX`. -/
def fsReuseMax : FS :=
  { fsFile with inodes := upd fsFile.inodes 4 { freeInode with reuse := 2147483647 } }

/-- The state `fsDir` after `yfsUnlink` of `a`: the entry at offset 64 of the root block 7
has `inum = 0` and still carries the name `a`; the entry of `d` follows it at offset
96. -/
def fsUnlinked : FS := (yfsUnlink fsDir (str "a") 1).2

/-- A leaf name of 32 characters `n`: longer than `DIRNAMELEN`, shorter than
`MAXPATHNAMELEN`. -/
def longName : List Int := List.replicate 32 110

/-- A full block cache: the blocks 1 to 32, block 1 the least recently used, each with a
buffer that holds its number in every byte, over a disk of zero blocks. -/
def cacheFull : Cache where
  disk := fun _ => zeroBlock
  cacheBlockQueue := (List.range 32).map (fun i => ⟨(i : Int) + 1, true, fun _ => (i : Int) + 1⟩)
  blockCacheSize := 32
  cacheInodeQueue := []
  inodeCacheSize := 0

/-- The image `imgFresh` with `num_inodes = 6` in its header, which is not a multiple of
`INODESPERBLOCK`. -/
def imgSix : FS :=
  { imgFresh with blocks := upd imgFresh.blocks 1 (writeInt32 (writeInt32 zeroBlock 0 21) 4 6) }

/-- A directory of the maximal size: inode 1 has `(NUM_DIRECT + BLOCKSIZE / 4) * BLOCKSIZE`
bytes in the blocks 100 to 239 (the direct blocks 100 to 111, and 112 to 239 through the
indirect block 10). Block 100 starts with the entries `.` and `..`; every other byte of
the blocks of the directory is 1, so that every other entry has `inum = 257` and a name
of thirty bytes 1. The free block list is `[20, 19]`. -/
def fsDirMax : FS where
  inodes := upd (fun _ => freeInode) 1 ⟨INODE_DIRECTORY, 2, 0, 71680, fun j => 100 + j, 10⟩
  blocks := fun n =>
    if n = 10 then fun k => if k % 4 = 0 then 112 + k / 4 else 0
    else if n = 100 then
      mkEntry (mkEntry (fun _ => 1) 0 1 (str "." ++ [0])) 32 1 (str ".." ++ [0])
    else fun _ => 1
  inodeDirty := fun _ => false
  blockDirty := fun _ => false
  freeInodes := [4, 5, 6]
  freeBlocks := [20, 19]
  freeInodeCount := 3
  freeBlockCount := 2
  numSymLinks := 0

theorem getNthBlock_false_state (s : FS) (ino n : Int) :
    (getNthBlock s ino n false).2 = s := by
  unfold getNthBlock
  by_cases h1 : n ≥ NUM_DIRECT + BLOCKSIZE / 4
  · simp [h1]
  · by_cases h2 : n * BLOCKSIZE ≥ (s.inodes ino).size
    · simp [h1, h2]
    · by_cases h3 : n < NUM_DIRECT <;> simp [h1, h2, h3]

theorem getNthBlock_false_val (s : FS) (ino n : Int) :
    (getNthBlock s ino n false).1 =
      if n * BLOCKSIZE ≥ (s.inodes ino).size then 0 else logicalBlock s ino n := by
  unfold getNthBlock logicalBlock
  by_cases h1 : n ≥ NUM_DIRECT + BLOCKSIZE / 4
  · have h3 : ¬ n < NUM_DIRECT := by simp only [NUM_DIRECT, BLOCKSIZE] at h1 ⊢; omega
    have h4 : ¬ n - NUM_DIRECT < BLOCKSIZE / 4 := by
      simp only [NUM_DIRECT, BLOCKSIZE] at h1 ⊢; omega
    simp [h1, h3, h4]
  · by_cases h2 : n * BLOCKSIZE ≥ (s.inodes ino).size
    · simp [h1, h2]
    · by_cases h3 : n < NUM_DIRECT
      · simp [h1, h2, h3]
      · have h4 : n - NUM_DIRECT < BLOCKSIZE / 4 := by
          simp only [NUM_DIRECT, BLOCKSIZE] at h1 ⊢; omega
        simp [h1, h2, h3, h4]

theorem readLoop_done (fuel : Nat) (s : FS) (ino : Int) (copyOk : Int → Bool) (mem : Bytes)
    (i buf bytesLeft bo btc : Int) (h : bytesLeft ≤ 0) :
    readLoop fuel s ino copyOk mem i buf bytesLeft bo btc = (true, mem) := by
  cases fuel with
  | zero => rfl
  | succ n => simp [readLoop, not_lt.mpr h]

theorem fileByte_in_block (s : FS) (ino i bo d : Int) (h0 : 0 ≤ bo) (hd0 : 0 ≤ d)
    (hd1 : bo + d < BLOCKSIZE) :
    fileByte s ino (i * BLOCKSIZE + bo + d) = s.blocks (logicalBlock s ino i) (bo + d) := by
  unfold fileByte
  have e1 : (i * BLOCKSIZE + bo + d) / BLOCKSIZE = i := by
    simp only [BLOCKSIZE] at *; omega
  have e2 : (i * BLOCKSIZE + bo + d) % BLOCKSIZE = bo + d := by
    simp only [BLOCKSIZE] at *; omega
  rw [e1, e2]

theorem readLoop_spec (s : FS) (ino : Int) (copyOk : Int → Bool)
    (hcopy : ∀ j, copyOk j = true)
    (hmap : ∀ j, 0 ≤ j → j * BLOCKSIZE < (s.inodes ino).size → logicalBlock s ino j ≠ 0) :
    ∀ (fuel : Nat) (mem : Bytes) (i buf L bo : Int),
      0 ≤ i → 0 ≤ bo → bo < BLOCKSIZE → 0 ≤ L → L ≤ fuel →
      i * BLOCKSIZE + bo + L ≤ (s.inodes ino).size →
      readLoop fuel s ino copyOk mem i buf L bo (BLOCKSIZE - bo) =
        (true, fun a => if buf ≤ a ∧ a < buf + L
          then fileByte s ino (i * BLOCKSIZE + bo + (a - buf)) else mem a) := by
  intro fuel
  induction fuel with
  | zero =>
    intro mem i buf L bo _ _ _ hL hLf _
    have hL0 : L = 0 := by omega
    subst hL0
    simp only [readLoop]
    congr 1
    funext a
    rw [if_neg (by omega)]
  | succ fuel ih =>
    intro mem i buf L bo hi hbo0 hbo1 hL hLf hsz
    by_cases hpos : L > 0
    · have hnot : ¬ (i * BLOCKSIZE ≥ (s.inodes ino).size) := by
        simp only [BLOCKSIZE] at *; omega
      have hblk : (getNthBlock s ino i false).1 = logicalBlock s ino i := by
        rw [getNthBlock_false_val]; simp [hnot]
      have hne : logicalBlock s ino i ≠ 0 := hmap i hi (by simp only [BLOCKSIZE] at *; omega)
      have hfb : ∀ a, buf ≤ a → a - buf + bo < BLOCKSIZE →
          fileByte s ino (i * BLOCKSIZE + bo + (a - buf)) =
            s.blocks (logicalBlock s ino i) (bo + (a - buf)) := fun a h1 h2 =>
        fileByte_in_block s ino i bo (a - buf) hbo0 (by omega) (by omega)
      simp only [readLoop, hpos, if_true, hblk, hne, if_false, hcopy, Bool.true_eq_false]
      by_cases hlt : L < BLOCKSIZE - bo
      · simp only [hlt, if_true, sub_self]
        rw [readLoop_done _ _ _ _ _ _ _ _ _ _ (le_refl 0)]
        congr 1
        funext a
        unfold copyBytes
        by_cases ha : buf ≤ a ∧ a < buf + L
        · simp only [ha, and_self, if_true]
          rw [hfb a ha.1 (by omega)]
        · simp only [ha, if_false]
      · simp only [hlt, if_false]
        have e := ih (copyBytes mem buf (s.blocks (logicalBlock s ino i)) bo (BLOCKSIZE - bo))
          (i + 1) (buf + (BLOCKSIZE - bo)) (L - (BLOCKSIZE - bo)) 0
          (by omega) (le_refl 0) (by simp only [BLOCKSIZE]; omega) (by omega)
          (by simp only [BLOCKSIZE] at *; omega) (by simp only [BLOCKSIZE] at *; omega)
        rw [sub_zero] at e
        rw [e]
        congr 1
        funext a
        unfold copyBytes
        by_cases ha : buf ≤ a ∧ a < buf + L
        · simp only [ha, and_self, if_true]
          by_cases hb : buf + (BLOCKSIZE - bo) ≤ a
          · have hb2 : buf + (BLOCKSIZE - bo) ≤ a ∧
                a < buf + (BLOCKSIZE - bo) + (L - (BLOCKSIZE - bo)) := by omega
            simp only [hb2, and_self, if_true]
            congr 1
            simp only [BLOCKSIZE]; omega
          · have hb2 : ¬ (buf + (BLOCKSIZE - bo) ≤ a ∧
                a < buf + (BLOCKSIZE - bo) + (L - (BLOCKSIZE - bo))) := by omega
            have hb3 : buf ≤ a ∧ a < buf + (BLOCKSIZE - bo) := by omega
            simp only [hb2, if_false, hb3, and_self, if_true]
            rw [hfb a ha.1 (by omega)]
        · have hb2 : ¬ (buf + (BLOCKSIZE - bo) ≤ a ∧
              a < buf + (BLOCKSIZE - bo) + (L - (BLOCKSIZE - bo))) := by omega
          have hb3 : ¬ (buf ≤ a ∧ a < buf + (BLOCKSIZE - bo)) := by omega
          simp only [ha, hb2, hb3, if_false]
    · have hL0 : L = 0 := by omega
      subst hL0
      rw [readLoop_done _ _ _ _ _ _ _ _ _ _ (le_refl 0)]
      congr 1
      funext a
      rw [if_neg (by omega)]

theorem wrap32_id (v : Int) (h0 : -2147483648 ≤ v) (h1 : v < 2147483648) :
    wrap32 (v % 256 + 256 * (v / 256 % 256) + 65536 * (v / 65536 % 256)
      + 16777216 * (v / 16777216 % 256)) = v := by
  unfold wrap32
  split_ifs with h <;> omega

theorem readInt32_writeInt32_same (b : Bytes) (o v : Int) (h0 : -2147483648 ≤ v)
    (h1 : v < 2147483648) : readInt32 (writeInt32 b o v) o = v := by
  unfold readInt32 writeInt32
  have e1 : ¬ (o + 1 = o) := by omega
  have e2 : ¬ (o + 2 = o) := by omega
  have e3 : ¬ (o + 2 = o + 1) := by omega
  have e4 : ¬ (o + 3 = o) := by omega
  have e5 : ¬ (o + 3 = o + 1) := by omega
  have e6 : ¬ (o + 3 = o + 2) := by omega
  simp only [if_true, e1, e2, e3, e4, e5, e6, if_false]
  have m1 : v % 256 % 256 = v % 256 := by omega
  have m2 : v / 256 % 256 % 256 = v / 256 % 256 := by omega
  have m3 : v / 65536 % 256 % 256 = v / 65536 % 256 := by omega
  have m4 : v / 16777216 % 256 % 256 = v / 16777216 % 256 := by omega
  rw [m1, m2, m3, m4]
  exact wrap32_id v h0 h1

theorem readInt32_writeInt32_other (b : Bytes) (o o2 v : Int) (h : o2 + 4 ≤ o ∨ o + 4 ≤ o2) :
    readInt32 (writeInt32 b o v) o2 = readInt32 b o2 := by
  unfold readInt32 writeInt32
  have e1 : ¬ (o2 = o) := by omega
  have e2 : ¬ (o2 = o + 1) := by omega
  have e3 : ¬ (o2 = o + 2) := by omega
  have e4 : ¬ (o2 = o + 3) := by omega
  have f1 : ¬ (o2 + 1 = o) := by omega
  have f2 : ¬ (o2 + 1 = o + 1) := by omega
  have f3 : ¬ (o2 + 1 = o + 2) := by omega
  have f4 : ¬ (o2 + 1 = o + 3) := by omega
  have g1 : ¬ (o2 + 2 = o) := by omega
  have g2 : ¬ (o2 + 2 = o + 1) := by omega
  have g3 : ¬ (o2 + 2 = o + 2) := by omega
  have g4 : ¬ (o2 + 2 = o + 3) := by omega
  have k1 : ¬ (o2 + 3 = o) := by omega
  have k2 : ¬ (o2 + 3 = o + 1) := by omega
  have k3 : ¬ (o2 + 3 = o + 2) := by omega
  have k4 : ¬ (o2 + 3 = o + 3) := by omega
  simp only [e1, e2, e3, e4, f1, f2, f3, f4, g1, g2, g3, g4, k1, k2, k3, k4, if_false]

theorem wrap16_id (v : Int) (h0 : -32768 ≤ v) (h1 : v < 32768) :
    wrap16 (v % 256 + 256 * (v / 256 % 256)) = v := by
  unfold wrap16
  split_ifs with h <;> omega

theorem readInt16_writeInt16_same (b : Bytes) (o v : Int) (h0 : -32768 ≤ v) (h1 : v < 32768) :
    readInt16 (writeInt16 b o v) o = v := by
  unfold readInt16 writeInt16
  have e1 : ¬ (o + 1 = o) := by omega
  simp only [if_true, e1, if_false]
  have m1 : v % 256 % 256 = v % 256 := by omega
  have m2 : v / 256 % 256 % 256 = v / 256 % 256 := by omega
  rw [m1, m2]
  exact wrap16_id v h0 h1

@[simp] theorem upd_same {α : Type} (f : Int → α) (a : Int) (v : α) : upd f a v a = v := by
  simp [upd]

theorem upd_ne {α : Type} (f : Int → α) (a k : Int) (v : α) (h : k ≠ a) : upd f a v k = f k := by
  simp [upd, h]

theorem getNthBlock_new_direct (s : FS) (ino i b : Int) (rest : List Int)
    (h1 : i * BLOCKSIZE ≥ (s.inodes ino).size) (h2 : i < NUM_DIRECT)
    (hf : s.freeBlocks = b :: rest) :
    getNthBlock s ino i true = (b, ({ s with freeBlocks := rest }).setInode ino
      { s.inodes ino with direct := upd (s.inodes ino).direct i b }) := by
  unfold getNthBlock getNextFreeBlockNum
  have h3 : ¬ (i ≥ NUM_DIRECT + BLOCKSIZE / 4) := by
    simp only [NUM_DIRECT, BLOCKSIZE] at *; omega
  simp [h1, h2, h3, hf]

theorem getNthBlock_new_indirect (s : FS) (ino i b : Int) (rest : List Int)
    (h1 : i * BLOCKSIZE ≥ (s.inodes ino).size) (h2 : ¬ i < NUM_DIRECT)
    (h3 : i < NUM_DIRECT + BLOCKSIZE / 4) (hf : s.freeBlocks = b :: rest) (hb : isInt32 b) :
    getNthBlock s ino i true = (b, ({ s with freeBlocks := rest }).setBlock
      (s.inodes ino).indirect
      (writeInt32 (s.blocks (s.inodes ino).indirect) (4 * (i - NUM_DIRECT)) b)) := by
  unfold getNthBlock getNextFreeBlockNum
  have h4 : ¬ (i ≥ NUM_DIRECT + BLOCKSIZE / 4) := by omega
  simp only [h1, h2, h4, hf, if_false, if_true, decide_True, Bool.not_true, Bool.and_false,
    FS.setBlock, upd_same, Bool.false_eq_true]
  rw [readInt32_writeInt32_same _ _ _ hb.1 hb.2]

theorem cdiv_nonneg (a : Int) (h : 0 ≤ a) : cdiv a BLOCKSIZE = a / BLOCKSIZE :=
  Int.tdiv_eq_ediv h (by decide)

theorem cmod_nonneg (a : Int) (h : 0 ≤ a) : cmod a BLOCKSIZE = a % BLOCKSIZE :=
  Int.tmod_eq_emod h (by decide)

/-- What `yfsRead` does on a file whose blocks are all mapped. -/
theorem yfsRead_spec (s : FS) (mem : Bytes) (copyOk : Int → Bool)
    (inodeNum buf size byteOffset : Int)
    (hbuf : buf ≠ 0) (hino : 0 < inodeNum) (hsize : 0 ≤ size) (hoff : 0 ≤ byteOffset)
    (hcopy : ∀ j, copyOk j = true)
    (hmap : ∀ j, 0 ≤ j → j * BLOCKSIZE < (s.inodes inodeNum).size →
      logicalBlock s inodeNum j ≠ 0) :
    yfsRead s mem copyOk inodeNum buf size byteOffset =
      if byteOffset > (s.inodes inodeNum).size then (ERROR, mem)
      else (min size ((s.inodes inodeNum).size - byteOffset),
        fun a => if buf ≤ a ∧ a < buf + min size ((s.inodes inodeNum).size - byteOffset)
          then fileByte s inodeNum (byteOffset + (a - buf)) else mem a) := by
  unfold yfsRead
  have hchk : ¬ (buf = 0 ∨ size < 0 ∨ byteOffset < 0 ∨ inodeNum ≤ 0) := by omega
  simp only [hchk, if_false]
  by_cases hgt : byteOffset > (s.inodes inodeNum).size
  · simp only [hgt, if_true]
  · simp only [hgt, if_false]
    have hL : (if (s.inodes inodeNum).size - byteOffset < size
        then (s.inodes inodeNum).size - byteOffset else size)
        = min size ((s.inodes inodeNum).size - byteOffset) := by
      by_cases h : (s.inodes inodeNum).size - byteOffset < size
      · simp only [h, if_true]; omega
      · simp only [h, if_false]; omega
    rw [hL, cdiv_nonneg _ hoff, cmod_nonneg _ hoff]
    have hpos : byteOffset / BLOCKSIZE * BLOCKSIZE + byteOffset % BLOCKSIZE = byteOffset := by
      simp only [BLOCKSIZE]; omega
    have e := readLoop_spec s inodeNum copyOk hcopy hmap
      (min size ((s.inodes inodeNum).size - byteOffset)).toNat mem (byteOffset / BLOCKSIZE) buf
      (min size ((s.inodes inodeNum).size - byteOffset)) (byteOffset % BLOCKSIZE)
      (by simp only [BLOCKSIZE]; omega) (by simp only [BLOCKSIZE]; omega)
      (by simp only [BLOCKSIZE]; omega) (by omega) (by omega) (by rw [hpos]; omega)
    rw [e, hpos]
    simp

theorem logicalBlock_same (s s2 : FS) (ino j : Int) (hi : s2.inodes = s.inodes)
    (hb : s2.blocks = s.blocks) : logicalBlock s2 ino j = logicalBlock s ino j := by
  unfold logicalBlock
  rw [hi, hb]

theorem getNthBlock_false_same (s s2 : FS) (ino j : Int) (hi : s2.inodes = s.inodes)
    (hb : s2.blocks = s.blocks) :
    (getNthBlock s2 ino j false).1 = (getNthBlock s ino j false).1 := by
  rw [getNthBlock_false_val, getNthBlock_false_val, logicalBlock_same s s2 ino j hi hb, hi]

/-- The loop of `clearFile` pushes the blocks `j, j + 1, ..` of a file whose blocks are
all mapped, up to the last one. -/
theorem clearLoop_spec (s0 : FS) (ino : Int)
    (hmap : ∀ j, 0 ≤ j → j * BLOCKSIZE < (s0.inodes ino).size → logicalBlock s0 ino j ≠ 0) :
    ∀ (k fuel : Nat) (s : FS) (j : Int), s.inodes = s0.inodes → s.blocks = s0.blocks →
      0 ≤ j → j + k = numBlocks (s0.inodes ino).size → k < fuel →
      clearLoop fuel s ino j =
        { s with
          freeBlocks :=
            ((List.range k).map (fun (t : Nat) => logicalBlock s0 ino (j + (t : Int)))).reverse
              ++ s.freeBlocks,
          freeBlockCount := s.freeBlockCount + k } := by
  intro k
  induction k with
  | zero =>
    intro fuel s j hi hb hj0 hjm hfuel
    obtain ⟨fuel, rfl⟩ : ∃ f, fuel = f + 1 := ⟨fuel - 1, by omega⟩
    have hover : j * BLOCKSIZE ≥ (s0.inodes ino).size := by
      unfold numBlocks at hjm
      simp only [BLOCKSIZE] at *
      omega
    have h0 : (getNthBlock s ino j false).1 = 0 := by
      rw [getNthBlock_false_same s0 s ino j hi hb, getNthBlock_false_val]
      simp [hover]
    simp [clearLoop, h0]
  | succ k ih =>
    intro fuel s j hi hb hj0 hjm hfuel
    obtain ⟨fuel, rfl⟩ : ∃ f, fuel = f + 1 := ⟨fuel - 1, by omega⟩
    have hlt : ¬ (j * BLOCKSIZE ≥ (s0.inodes ino).size) := by
      unfold numBlocks at hjm
      simp only [BLOCKSIZE] at *
      omega
    have hv : (getNthBlock s ino j false).1 = logicalBlock s0 ino j := by
      rw [getNthBlock_false_same s0 s ino j hi hb, getNthBlock_false_val]
      simp [hlt]
    have hne : logicalBlock s0 ino j ≠ 0 := hmap j hj0 (by omega)
    simp only [clearLoop, hv, ne_eq, hne, not_false_eq_true, if_true]
    rw [ih fuel (addFreeBlockToList s (logicalBlock s0 ino j)) (j + 1) hi hb (by omega)
      (by push_cast at hjm ⊢; omega) (by omega)]
    simp only [addFreeBlockToList]
    have hl : ((List.range (k + 1)).map (fun (t : Nat) => logicalBlock s0 ino (j + (t : Int)))).reverse
        = ((List.range k).map (fun (t : Nat) => logicalBlock s0 ino (j + 1 + (t : Int)))).reverse
          ++ [logicalBlock s0 ino j] := by
      rw [List.range_succ_eq_map, List.map_cons, List.reverse_cons, List.map_map]
      congr 1
      · congr 1
        apply List.map_congr_left
        intro t _
        simp only [Function.comp]
        congr 1
        push_cast
        omega
      · simp
    rw [hl]
    congr 1
    · simp
    · push_cast; omega

theorem clearFile_spec (s : FS) (ino : Int)
    (hmap : ∀ j, 0 ≤ j → j * BLOCKSIZE < (s.inodes ino).size → logicalBlock s ino j ≠ 0) :
    clearFile s ino = saveInode
      (({ s with freeBlocks := (fileBlocks s ino).reverse ++ s.freeBlocks,
                 freeBlockCount := s.freeBlockCount + numBlocks (s.inodes ino).size }).setInode
        ino { s.inodes ino with size := 0 }) ino := by
  have hle : numBlocks (s.inodes ino).size ≤ (NUM_DIRECT + BLOCKSIZE / 4).toNat := by
    by_contra hgt
    have h140 : logicalBlock s ino 140 ≠ 0 := hmap 140 (by decide) (by
      unfold numBlocks at hgt
      simp only [BLOCKSIZE, NUM_DIRECT] at *
      omega)
    exact h140 (by unfold logicalBlock; simp [NUM_DIRECT, BLOCKSIZE])
  unfold clearFile
  rw [clearLoop_spec s ino hmap (numBlocks (s.inodes ino).size) _ s 0 rfl rfl (le_refl 0)
    (by simp) (by omega)]
  simp [fileBlocks]

theorem searchDir_same (s s2 : FS) (ino : Int) (p : List Int) (hi : s2.inodes = s.inodes)
    (hb : s2.blocks = s.blocks) :
    ∀ (fuel : Nat) (c : DirCursor), searchDir fuel s2 ino p c = searchDir fuel s ino p c := by
  intro fuel
  induction fuel with
  | zero => intro c; rfl
  | succ fuel ih =>
    intro c
    simp only [searchDir, hi, hb, getNthBlock_false_same s s2 ino _ hi hb, ih]

/-- The search in a directory reads the inodes and the blocks only. -/
theorem dirSearch_same (s s2 : FS) (p : List Int) (ino : Int) (hi : s2.inodes = s.inodes)
    (hb : s2.blocks = s.blocks) : dirSearch s2 p ino = dirSearch s p ino := by
  unfold dirSearch
  rw [searchDir_same s s2 ino p hi hb, getNthBlock_false_same s s2 ino _ hi hb]

theorem getDirectoryEntry_found (s : FS) (p : List Int) (ino : Int) (create : Bool)
    (h : (dirSearch s p ino).isFound = true) :
    getDirectoryEntry s p ino create
      = ((dirSearch s p ino).curOff, (dirSearch s p ino).blockNum, s) := by
  unfold getDirectoryEntry
  simp [h]

theorem dirLookup_found (s : FS) (dir i : Int) (name : List Int)
    (h : dirLookup s dir name = i) (hi : i ≠ 0) :
    (dirSearch s name dir).isFound = true ∧
      readInt16 (s.blocks (dirSearch s name dir).blockNum) (dirSearch s name dir).curOff = i := by
  unfold dirLookup getDirectoryEntry at h
  by_cases hf : (dirSearch s name dir).isFound = true
  · refine ⟨hf, ?_⟩
    simp only [hf, if_true] at h
    by_cases h1 : (dirSearch s name dir).curOff ≠ -1
    · simpa [h1] using h
    · simp only [h1, if_false] at h
      exact absurd h.symm hi
  · simp only [hf, Bool.false_eq_true, if_false, ne_eq, not_true_eq_false] at h
    exact absurd h.symm hi

theorem getPathInodeNumber_state (s : FS) (p : List Int) (i : Int) :
    ∃ n, (getPathInodeNumber s p i).2 = { s with numSymLinks := n } := by
  unfold getPathInodeNumber
  cases getPathInodeNumberFuel (pathFuel p s.numSymLinks) s p i s.numSymLinks with
  | none => exact ⟨s.numSymLinks, rfl⟩
  | some r => exact ⟨r.2, rfl⟩

/-- The state after `getContainingDirectory` differs in `numSymLinks` at most. -/
theorem getContainingDirectory_state (s : FS) (p : List Int) (c : Int) :
    ∃ n, (getContainingDirectory s p c).2.2 = { s with numSymLinks := n } := by
  unfold getContainingDirectory
  simp only []
  split_ifs
  all_goals first
    | exact ⟨s.numSymLinks, rfl⟩
    | exact getPathInodeNumber_state { s with numSymLinks := 0 } _ _


theorem scanComponent_some (p r : List Int) (h : scanComponent p = some r) :
    r.length ≤ p.length ∧ hd r = SLASH := by
  induction p with
  | nil => simp [scanComponent] at h
  | cons c rest ih =>
    unfold scanComponent at h
    by_cases h1 : c = SLASH
    · simp only [h1, if_true, Option.some.injEq] at h
      subst h
      exact ⟨le_refl _, by simp [hd, h1]⟩
    · by_cases h2 : c = 0
      · subst h2
        simp only [h1, if_false, if_true] at h
        exact absurd h (by simp)
      · simp only [h1, h2, if_false] at h
        have := ih h
        exact ⟨by simp only [List.length_cons]; omega, this.2⟩

theorem skipSlashes_length_le (p : List Int) : (skipSlashes p).length ≤ p.length := by
  induction p with
  | nil => simp [skipSlashes]
  | cons c rest ih =>
    unfold skipSlashes
    by_cases h1 : c = SLASH
    · simp only [h1, if_true, List.length_cons]; omega
    · simp [h1]

theorem skipSlashes_length_lt (p : List Int) (h : hd p = SLASH) :
    (skipSlashes p).length < p.length := by
  cases p with
  | nil => simp [hd, SLASH] at h
  | cons c rest =>
    have h1 : c = SLASH := by simpa [hd] using h
    unfold skipSlashes
    simp only [h1, if_true, List.length_cons]
    have := skipSlashes_length_le rest
    omega

theorem bytesString_length (n : Nat) (b : Bytes) (o : Int) : (bytesString n b o).length ≤ n := by
  induction n generalizing o with
  | zero => simp [bytesString]
  | succ n ih =>
    unfold bytesString
    by_cases h : b o = 0
    · simp [h]
    · simp only [h, if_false, List.length_cons]
      have := ih (o + 1)
      omega

theorem linkTarget_length (s : FS) (ino : Int) : (linkTarget s ino).length ≤ 512 := by
  unfold linkTarget blockString
  have h := bytesString_length 512 (s.blocks ((s.inodes ino).direct 0)) 0
  have e : BLOCKSIZE.toNat = 512 := by decide
  rw [e]
  simp only []
  split_ifs
  · simp only [List.length_tail]; omega
  · exact h

/-! ### The cases of `getPathInodeNumber` -/

theorem gp_notdir (fuel : Nat) (s : FS) (path : List Int) (start n : Int)
    (h1 : (s.inodes start).type ≠ INODE_DIRECTORY) :
    getPathInodeNumberFuel (fuel + 1) s path start n = some (0, n) := by
  rw [getPathInodeNumberFuel]; simp [h1]

theorem gp_notfound (fuel : Nat) (s : FS) (path : List Int) (start n : Int)
    (h1 : (s.inodes start).type = INODE_DIRECTORY) (h2 : dirLookup s start path = 0) :
    getPathInodeNumberFuel (fuel + 1) s path start n = some (0, n) := by
  rw [getPathInodeNumberFuel]; simp [h1, h2]

theorem gp_leaf (fuel : Nat) (s : FS) (path : List Int) (start n : Int)
    (h1 : (s.inodes start).type = INODE_DIRECTORY) (h2 : dirLookup s start path ≠ 0)
    (h3 : firstScan s path (dirLookup s start path) = none) :
    getPathInodeNumberFuel (fuel + 1) s path start n = some (dirLookup s start path, n) := by
  rw [getPathInodeNumberFuel]; simp [h1, h2, h3]

theorem gp_end (fuel : Nat) (s : FS) (path np : List Int) (start n : Int)
    (h1 : (s.inodes start).type = INODE_DIRECTORY) (h2 : dirLookup s start path ≠ 0)
    (h3 : firstScan s path (dirLookup s start path) = some np)
    (h4 : hd (skipSlashes np) = 0) :
    getPathInodeNumberFuel (fuel + 1) s path start n = some (dirLookup s start path, n) := by
  rw [getPathInodeNumberFuel]; simp [h1, h2, h3, h4]

theorem gp_exceed (fuel : Nat) (s : FS) (path np : List Int) (start n : Int)
    (h1 : (s.inodes start).type = INODE_DIRECTORY) (h2 : dirLookup s start path ≠ 0)
    (h3 : firstScan s path (dirLookup s start path) = some np)
    (h4 : hd (skipSlashes np) ≠ 0)
    (h5 : (s.inodes (dirLookup s start path)).type = INODE_SYMLINK)
    (h6 : n + 1 > MAXSYMLINKS) :
    getPathInodeNumberFuel (fuel + 1) s path start n = some (0, n + 1) := by
  rw [getPathInodeNumberFuel]; simp [h1, h2, h3, h4, h5, h6]

theorem gp_expand (fuel : Nat) (s : FS) (path np : List Int) (start n : Int)
    (h1 : (s.inodes start).type = INODE_DIRECTORY) (h2 : dirLookup s start path ≠ 0)
    (h3 : firstScan s path (dirLookup s start path) = some np)
    (h4 : hd (skipSlashes np) ≠ 0)
    (h5 : (s.inodes (dirLookup s start path)).type = INODE_SYMLINK)
    (h6 : ¬ (n + 1 > MAXSYMLINKS)) :
    getPathInodeNumberFuel (fuel + 1) s path start n =
      match getPathInodeNumberFuel fuel s (linkTarget s (dirLookup s start path))
          (linkStart s (dirLookup s start path) start) (n + 1) with
      | none => none
      | some r =>
        match scanComponent (skipSlashes np) with
        | none => some r
        | some rest => getPathInodeNumberFuel fuel s (skipSlashes rest) r.1 r.2 := by
  rw [getPathInodeNumberFuel]; simp [h1, h2, h3, h4, h5, h6]

theorem gp_walk (fuel : Nat) (s : FS) (path np : List Int) (start n : Int)
    (h1 : (s.inodes start).type = INODE_DIRECTORY) (h2 : dirLookup s start path ≠ 0)
    (h3 : firstScan s path (dirLookup s start path) = some np)
    (h4 : hd (skipSlashes np) ≠ 0)
    (h5 : (s.inodes (dirLookup s start path)).type ≠ INODE_SYMLINK) :
    getPathInodeNumberFuel (fuel + 1) s path start n =
      getPathInodeNumberFuel fuel s (skipSlashes np) (dirLookup s start path) n := by
  rw [getPathInodeNumberFuel]; simp [h1, h2, h3, h4, h5]


/-- Case analysis of one call of `getPathInodeNumber`. -/
theorem gp_cases (fuel : Nat) (s : FS) (path : List Int) (start n : Int)
    (motive : Option (Int × Int) → Prop)
    (cfail : motive (some (0, n)))
    (cfound : dirLookup s start path ≠ 0 → motive (some (dirLookup s start path, n)))
    (cexceed : (s.inodes (dirLookup s start path)).type = INODE_SYMLINK →
      n + 1 > MAXSYMLINKS → motive (some (0, n + 1)))
    (cexpand : ∀ np, firstScan s path (dirLookup s start path) = some np →
      hd (skipSlashes np) ≠ 0 →
      (s.inodes (dirLookup s start path)).type = INODE_SYMLINK → ¬ (n + 1 > MAXSYMLINKS) →
      motive (match getPathInodeNumberFuel fuel s (linkTarget s (dirLookup s start path))
          (linkStart s (dirLookup s start path) start) (n + 1) with
        | none => none
        | some r =>
          match scanComponent (skipSlashes np) with
          | none => some r
          | some rest => getPathInodeNumberFuel fuel s (skipSlashes rest) r.1 r.2))
    (cwalk : ∀ np, firstScan s path (dirLookup s start path) = some np →
      hd (skipSlashes np) ≠ 0 →
      (s.inodes (dirLookup s start path)).type ≠ INODE_SYMLINK →
      motive (getPathInodeNumberFuel fuel s (skipSlashes np) (dirLookup s start path) n)) :
    motive (getPathInodeNumberFuel (fuel + 1) s path start n) := by
  by_cases h1 : (s.inodes start).type = INODE_DIRECTORY
  · by_cases h2 : dirLookup s start path = 0
    · rw [gp_notfound fuel s path start n h1 h2]; exact cfail
    · cases h3 : firstScan s path (dirLookup s start path) with
      | none => rw [gp_leaf fuel s path start n h1 h2 h3]; exact cfound h2
      | some np =>
        by_cases h4 : hd (skipSlashes np) = 0
        · rw [gp_end fuel s path np start n h1 h2 h3 h4]; exact cfound h2
        · by_cases h5 : (s.inodes (dirLookup s start path)).type = INODE_SYMLINK
          · by_cases h6 : n + 1 > MAXSYMLINKS
            · rw [gp_exceed fuel s path np start n h1 h2 h3 h4 h5 h6]; exact cexceed h5 h6
            · rw [gp_expand fuel s path np start n h1 h2 h3 h4 h5 h6]
              exact cexpand np h3 h4 h5 h6
          · rw [gp_walk fuel s path np start n h1 h2 h3 h4 h5]
            exact cwalk np h3 h4 h5
  · rw [gp_notdir fuel s path start n h1]; exact cfail

/-- The counter `numSymLinks` never decreases. -/
theorem getPathInodeNumberFuel_nsl (s : FS) :
    ∀ (fuel : Nat) (path : List Int) (start n : Int) (r : Int × Int),
      getPathInodeNumberFuel fuel s path start n = some r → n ≤ r.2 := by
  intro fuel
  induction fuel with
  | zero => intro path start n r h; simp [getPathInodeNumberFuel] at h
  | succ fuel ih =>
    intro path start n
    apply gp_cases fuel s path start n (fun o => ∀ r, o = some r → n ≤ r.2)
    · intro r h; simp at h; rw [← h]
    · intro _ r h; simp at h; rw [← h]
    · intro _ _ r h; simp at h; rw [← h]; simp
    · intro np _ _ _ _ r h
      cases h1 : getPathInodeNumberFuel fuel s (linkTarget s (dirLookup s start path))
          (linkStart s (dirLookup s start path) start) (n + 1) with
      | none => rw [h1] at h; simp at h
      | some r1 =>
        rw [h1] at h
        have hr1 := ih _ _ _ _ h1
        cases h2 : scanComponent (skipSlashes np) with
        | none =>
          rw [h2] at h
          simp at h
          rw [← h]; omega
        | some rest =>
          rw [h2] at h
          have := ih _ _ _ _ h
          omega
    · intro np _ _ _ r h
      exact ih _ _ _ _ h

/-- The length of the path with which a call goes on after the component found. -/
theorem firstScan_walk_length (s : FS) (path np : List Int) (next : Int)
    (h3 : firstScan s path next = some np)
    (h5 : (s.inodes next).type ≠ INODE_SYMLINK) :
    (skipSlashes np).length < path.length := by
  unfold firstScan at h3
  cases hsc : scanComponent path with
  | none => rw [hsc] at h3; simp [h5] at h3
  | some rest =>
    rw [hsc] at h3
    simp at h3
    subst h3
    have := scanComponent_some path rest hsc
    have := skipSlashes_length_lt rest this.2
    omega

theorem firstScan_length (s : FS) (path np : List Int) (next : Int)
    (h3 : firstScan s path next = some np) : (skipSlashes np).length ≤ path.length := by
  unfold firstScan at h3
  cases hsc : scanComponent path with
  | none =>
    rw [hsc] at h3
    by_cases h5 : (s.inodes next).type ≠ INODE_SYMLINK
    · simp [h5] at h3
    · simp only [h5, if_false, Option.some.injEq] at h3
      subst h3
      exact skipSlashes_length_le _
  | some rest =>
    rw [hsc] at h3
    simp at h3
    subst h3
    have := scanComponent_some path rest hsc
    have := skipSlashes_length_le rest
    omega

/-- Path resolution terminates: a depth of `pathFuel` is never reached. -/
theorem getPathInodeNumberFuel_isSome (s : FS) :
    ∀ (fuel : Nat) (path : List Int) (start n : Int), pathFuel path n ≤ fuel →
      (getPathInodeNumberFuel fuel s path start n).isSome = true := by
  intro fuel
  induction fuel with
  | zero => intro path start n h; unfold pathFuel at h; omega
  | succ fuel ih =>
    intro path start n hf
    apply gp_cases fuel s path start n (fun o => o.isSome = true)
    · rfl
    · intro _; rfl
    · intro _ _; rfl
    · intro np h3 _ _ h6
      have hlen := firstScan_length s path np _ h3
      have htl := linkTarget_length s (dirLookup s start path)
      have hb : (MAXSYMLINKS + 1 - n).toNat = (MAXSYMLINKS + 1 - (n + 1)).toNat + 1 := by omega
      have hf1 : pathFuel (linkTarget s (dirLookup s start path)) (n + 1) ≤ fuel := by
        unfold pathFuel at hf ⊢
        rw [hb] at hf
        have e : BLOCKSIZE.toNat = 512 := by decide
        rw [e] at hf ⊢
        have : ((MAXSYMLINKS + 1 - (n + 1)).toNat + 1) * (512 + 1)
            = (MAXSYMLINKS + 1 - (n + 1)).toNat * (512 + 1) + 513 := by ring
        omega
      have hs1 := ih (linkTarget s (dirLookup s start path))
        (linkStart s (dirLookup s start path) start) (n + 1) hf1
      cases h1 : getPathInodeNumberFuel fuel s (linkTarget s (dirLookup s start path))
          (linkStart s (dirLookup s start path) start) (n + 1) with
      | none => rw [h1] at hs1; simp at hs1
      | some r1 =>
        have hr1 := getPathInodeNumberFuel_nsl s _ _ _ _ _ h1
        cases h2 : scanComponent (skipSlashes np) with
        | none => rfl
        | some rest =>
          have hsc := scanComponent_some _ _ h2
          have hlt := skipSlashes_length_lt rest hsc.2
          apply ih
          unfold pathFuel at hf ⊢
          have hmono : (MAXSYMLINKS + 1 - r1.2).toNat * (BLOCKSIZE.toNat + 1)
              ≤ (MAXSYMLINKS + 1 - n).toNat * (BLOCKSIZE.toNat + 1) :=
            Nat.mul_le_mul_right _ (by omega)
          omega
    · intro np h3 _ h5
      have hlen := firstScan_walk_length s path np _ h3 h5
      apply ih
      unfold pathFuel at hf ⊢
      omega


/-- More depth does not change the result of `getPathInodeNumber`. -/
theorem getPathInodeNumberFuel_succ (s : FS) :
    ∀ (fuel : Nat) (path : List Int) (start n : Int) (r : Int × Int),
      getPathInodeNumberFuel fuel s path start n = some r →
      getPathInodeNumberFuel (fuel + 1) s path start n = some r := by
  intro fuel
  induction fuel with
  | zero => intro path start n r h; simp [getPathInodeNumberFuel] at h
  | succ fuel ih =>
    intro path start n r h
    by_cases h1 : (s.inodes start).type = INODE_DIRECTORY
    · by_cases h2 : dirLookup s start path = 0
      · rw [gp_notfound _ s path start n h1 h2] at h ⊢; exact h
      · cases h3 : firstScan s path (dirLookup s start path) with
        | none => rw [gp_leaf _ s path start n h1 h2 h3] at h ⊢; exact h
        | some np =>
          by_cases h4 : hd (skipSlashes np) = 0
          · rw [gp_end _ s path np start n h1 h2 h3 h4] at h ⊢; exact h
          · by_cases h5 : (s.inodes (dirLookup s start path)).type = INODE_SYMLINK
            · by_cases h6 : n + 1 > MAXSYMLINKS
              · rw [gp_exceed _ s path np start n h1 h2 h3 h4 h5 h6] at h ⊢; exact h
              · rw [gp_expand _ s path np start n h1 h2 h3 h4 h5 h6] at h ⊢
                cases hr1 : getPathInodeNumberFuel fuel s (linkTarget s (dirLookup s start path))
                    (linkStart s (dirLookup s start path) start) (n + 1) with
                | none => rw [hr1] at h; simp at h
                | some r1 =>
                  rw [hr1] at h
                  rw [ih _ _ _ _ hr1]
                  cases hsc : scanComponent (skipSlashes np) with
                  | none => rw [hsc] at h; exact h
                  | some rest =>
                    rw [hsc] at h
                    exact ih _ _ _ _ h
            · rw [gp_walk _ s path np start n h1 h2 h3 h4 h5] at h ⊢
              exact ih _ _ _ _ h
    · rw [gp_notdir _ s path start n h1] at h ⊢; exact h

theorem getPathInodeNumberFuel_le (s : FS) (fuel fuel2 : Nat) (path : List Int)
    (start n : Int) (r : Int × Int) (hle : fuel ≤ fuel2)
    (h : getPathInodeNumberFuel fuel s path start n = some r) :
    getPathInodeNumberFuel fuel2 s path start n = some r := by
  induction fuel2 with
  | zero =>
    have : fuel = 0 := by omega
    subst this; exact h
  | succ k ih =>
    by_cases hk : fuel ≤ k
    · exact getPathInodeNumberFuel_succ s k path start n r (ih hk)
    · have : fuel = k + 1 := by omega
      subst this; exact h

/-- The function `getPathInodeNumber` is the resolver at any depth at which it
returns. -/
theorem getPathInodeNumber_of_fuel (s : FS) (fuel : Nat) (path : List Int) (start : Int)
    (r : Int × Int) (h : getPathInodeNumberFuel fuel s path start s.numSymLinks = some r) :
    getPathInodeNumber s path start = (r.1, { s with numSymLinks := r.2 }) := by
  unfold getPathInodeNumber
  have hs := getPathInodeNumberFuel_isSome s (pathFuel path s.numSymLinks) path start
    s.numSymLinks (le_refl _)
  cases h2 : getPathInodeNumberFuel (pathFuel path s.numSymLinks) s path start s.numSymLinks with
  | none => rw [h2] at hs; simp at hs
  | some r2 =>
    have e : r2 = r := by
      rcases Nat.le_total fuel (pathFuel path s.numSymLinks) with hle | hle
      · have := getPathInodeNumberFuel_le s _ _ path start _ r hle h
        rw [h2] at this
        exact Option.some.inj this
      · have := getPathInodeNumberFuel_le s _ _ path start _ r2 hle h2
        rw [h] at this
        exact (Option.some.inj this).symm
    rw [e]

/-! ### The resolver with the count of expansions -/

theorem writeList_below (l : List Int) :
    ∀ (b : Bytes) (o a : Int), a < o → writeList b o l a = b a := by
  induction l with
  | nil => intro b o a _; rfl
  | cons c rest ih =>
    intro b o a h
    rw [writeList, ih _ _ _ (by omega), upd_ne _ _ _ _ (by omega)]

theorem readInt16_congr (b b2 : Bytes) (o : Int) (h0 : b2 o = b o)
    (h1 : b2 (o + 1) = b (o + 1)) : readInt16 b2 o = readInt16 b o := by
  unfold readInt16
  rw [h0, h1]

/-- Storing a name at `o + 2` leaves the inum at `o`. -/
theorem readInt16_name (b : Bytes) (o : Int) (l : List Int) :
    readInt16 (writeList (zeroBytes b (o + 2) DIRNAMELEN) (o + 2) l) o = readInt16 b o := by
  apply readInt16_congr
  · rw [writeList_below _ _ _ _ (by omega)]
    unfold zeroBytes
    rw [if_neg (by omega)]
  · rw [writeList_below _ _ _ _ (by omega)]
    unfold zeroBytes
    rw [if_neg (by omega)]

theorem getNextFreeInodeNum_cons (s : FS) (n : Int) (rest : List Int)
    (h : s.freeInodes = n :: rest) :
    getNextFreeInodeNum s
      = (n, { saveInode (s.setInode n
          { s.inodes n with reuse := wrap32 ((s.inodes n).reuse + 1) }) n
                with freeInodes := rest }) := by
  unfold getNextFreeInodeNum
  rw [h]

theorem getNextFreeBlockNum_cons (s : FS) (b : Int) (rest : List Int)
    (h : s.freeBlocks = b :: rest) :
    getNextFreeBlockNum s = (b, { s with freeBlocks := rest }) := by
  unfold getNextFreeBlockNum
  rw [h]

theorem getNextFreeInodeNum_fst (s : FS) :
    (getNextFreeInodeNum s).1 = s.freeInodes.headD 0 := by
  unfold getNextFreeInodeNum
  cases s.freeInodes <;> rfl

theorem getNextFreeInodeNum_freeInodes (s : FS) :
    (getNextFreeInodeNum s).2.freeInodes = s.freeInodes.tail := by
  unfold getNextFreeInodeNum
  cases h : s.freeInodes <;> simp [h]

theorem getNextFreeInodeNum_freeBlocks (s : FS) :
    (getNextFreeInodeNum s).2.freeBlocks = s.freeBlocks := by
  unfold getNextFreeInodeNum
  cases h : s.freeInodes <;> simp [saveInode, FS.setInode]

theorem getNextFreeInodeNum_blocks (s : FS) :
    (getNextFreeInodeNum s).2.blocks = s.blocks := by
  unfold getNextFreeInodeNum
  cases h : s.freeInodes <;> simp [saveInode, FS.setInode]

theorem getNextFreeInodeNum_freeInodeCount (s : FS) :
    (getNextFreeInodeNum s).2.freeInodeCount = s.freeInodeCount := by
  unfold getNextFreeInodeNum
  cases h : s.freeInodes <;> simp [saveInode, FS.setInode]

theorem getNextFreeBlockNum_fst (s : FS) :
    (getNextFreeBlockNum s).1 = s.freeBlocks.headD 0 := by
  unfold getNextFreeBlockNum
  cases s.freeBlocks <;> rfl

theorem getNextFreeBlockNum_snd (s : FS) :
    (getNextFreeBlockNum s).2 = { s with freeBlocks := s.freeBlocks.tail } := by
  unfold getNextFreeBlockNum
  cases s with
  | mk i b id bd fi fb fic fbc n => cases fb <;> rfl

theorem logicalBlock_local (s s2 : FS) (ino j : Int) (hi : s2.inodes ino = s.inodes ino)
    (hb : s2.blocks = s.blocks) : logicalBlock s2 ino j = logicalBlock s ino j := by
  unfold logicalBlock
  rw [hi, hb]

theorem getNthBlock_false_local (s s2 : FS) (ino j : Int) (hi : s2.inodes ino = s.inodes ino)
    (hb : s2.blocks = s.blocks) :
    (getNthBlock s2 ino j false).1 = (getNthBlock s ino j false).1 := by
  rw [getNthBlock_false_val, getNthBlock_false_val, logicalBlock_local s s2 ino j hi hb, hi]

theorem searchDir_local (s s2 : FS) (ino : Int) (p : List Int)
    (hi : s2.inodes ino = s.inodes ino) (hb : s2.blocks = s.blocks) :
    ∀ (fuel : Nat) (c : DirCursor), searchDir fuel s2 ino p c = searchDir fuel s ino p c := by
  intro fuel
  induction fuel with
  | zero => intro c; rfl
  | succ fuel ih =>
    intro c
    simp only [searchDir, hi, hb, getNthBlock_false_local s s2 ino _ hi hb, ih]

/-- The search in a directory reads the inode of the directory and the blocks only. -/
theorem dirSearch_local (s s2 : FS) (p : List Int) (ino : Int)
    (hi : s2.inodes ino = s.inodes ino) (hb : s2.blocks = s.blocks) :
    dirSearch s2 p ino = dirSearch s p ino := by
  unfold dirSearch
  rw [searchDir_local s s2 ino p hi hb, getNthBlock_false_local s s2 ino _ hi hb]

theorem clearLoop_frame : ∀ (fuel : Nat) (s : FS) (ino i : Int),
    (clearLoop fuel s ino i).inodes = s.inodes ∧ (clearLoop fuel s ino i).blocks = s.blocks ∧
      (clearLoop fuel s ino i).freeInodes = s.freeInodes ∧
      (clearLoop fuel s ino i).freeInodeCount = s.freeInodeCount := by
  intro fuel
  induction fuel with
  | zero => intro s ino i; exact ⟨rfl, rfl, rfl, rfl⟩
  | succ fuel ih =>
    intro s ino i
    unfold clearLoop
    simp only []
    split_ifs with h
    · exact ih (addFreeBlockToList s (getNthBlock s ino i false).1) ino (i + 1)
    · exact ⟨rfl, rfl, rfl, rfl⟩

/-- What `clearFile` leaves as it is: the blocks, the free inode list and the other
inodes; the inode itself has the size 0 and its other fields. -/
theorem clearFile_frame (s : FS) (ino : Int) :
    (clearFile s ino).blocks = s.blocks ∧ (clearFile s ino).freeInodes = s.freeInodes ∧
      (clearFile s ino).inodes = upd s.inodes ino { s.inodes ino with size := 0 } := by
  obtain ⟨h1, h2, h3, _⟩ := clearLoop_frame ((NUM_DIRECT + BLOCKSIZE / 4).toNat + 1) s ino 0
  unfold clearFile
  simp only [saveInode, FS.setInode, h1, h2, h3, and_self]

theorem getNthBlock_freeInodes (s : FS) (ino n : Int) (a : Bool) :
    (getNthBlock s ino n a).2.freeInodes = s.freeInodes := by
  unfold getNthBlock
  simp only []
  split_ifs <;> simp [FS.setInode, FS.setBlock, getNextFreeBlockNum_snd]

theorem getDirectoryEntry_freeInodes (s : FS) (p : List Int) (ino : Int) (create : Bool) :
    (getDirectoryEntry s p ino create).2.2.freeInodes = s.freeInodes := by
  unfold getDirectoryEntry
  simp only []
  split_ifs <;>
    simp [FS.setInode, FS.setBlock, saveInode, saveBlock, getNthBlock_freeInodes]

theorem hd_skipSlashes (p : List Int) : hd (skipSlashes p) ≠ SLASH := by
  induction p with
  | nil => decide
  | cons c rest ih =>
    unfold skipSlashes
    split_ifs with h
    · exact ih
    · simpa [hd] using h

theorem skipSlashes_of_hd (p : List Int) (h : hd p ≠ SLASH) : skipSlashes p = p := by
  cases p with
  | nil => rfl
  | cons c rest =>
    unfold skipSlashes
    rw [if_neg (by simpa [hd] using h)]

/-- The containing directory of a path of one component is the current directory. -/
theorem getContainingDirectory_leaf (s : FS) (p : List Int) (c : Int)
    (hlen : ((cstr p).length : Int) < MAXPATHNAMELEN) (hhd : hd p ≠ SLASH)
    (hleaf : lastSlashIndexLoop p 0 0 = 0) :
    getContainingDirectory s p c = (c, p, s) := by
  unfold getContainingDirectory
  rw [if_neg (by omega)]
  simp only [hhd, if_false, skipSlashes_of_hd p hhd, hleaf, ne_eq, not_true_eq_false]

theorem hd_of_cstr_nil (p : List Int) (h : cstr p = []) : hd p = 0 := by
  cases p with
  | nil => rfl
  | cons d r =>
    unfold cstr at h
    by_cases hd0 : d = 0
    · simpa [hd] using hd0
    · rw [if_neg hd0] at h
      exact absurd h (by simp)

theorem endsWithSlash_of_last : ∀ (p : List Int),
    (cstr p).getLast? = some SLASH → endsWithSlash p = true := by
  intro p
  induction p with
  | nil => intro h; simp [cstr] at h
  | cons c rest ih =>
    intro h
    unfold cstr at h
    by_cases hc0 : c = 0
    · rw [if_pos hc0] at h
      simp at h
    · rw [if_neg hc0] at h
      unfold endsWithSlash
      rw [if_neg hc0]
      by_cases hc : c = SLASH ∧ hd rest = 0
      · rw [if_pos hc]
      · rw [if_neg hc]
        apply ih
        cases hr : cstr rest with
        | nil =>
          rw [hr] at h
          simp only [List.getLast?_singleton, Option.some.injEq] at h
          exact absurd ⟨h, hd_of_cstr_nil rest hr⟩ hc
        | cons d l =>
          rw [hr, List.getLast?_cons_cons] at h
          exact h

/-! ## Lemmas on the caches -/

theorem hash_table_lookup_some (q : List CacheItem) (n : Int) (item : CacheItem)
    (h : hash_table_lookup q n = some item) : item ∈ q ∧ item.number = n := by
  unfold hash_table_lookup at h
  exact ⟨List.mem_of_find?_eq_some h, by simpa using List.find?_some h⟩

theorem hash_table_lookup_none (q : List CacheItem) (n : Int)
    (h : hash_table_lookup q n = none) : ∀ it ∈ q, it.number ≠ n := by
  unfold hash_table_lookup at h
  intro it hit
  simpa using (List.find?_eq_none.mp h) it hit

theorem removeItemFromQueue_spec (n : Int) : ∀ (q : List CacheItem),
    (q.map CacheItem.number).Nodup → (∃ it ∈ q, it.number = n) →
    (∀ it ∈ removeItemFromQueue q n, it ∈ q ∧ it.number ≠ n) ∧
      (removeItemFromQueue q n).length + 1 = q.length := by
  intro q
  induction q with
  | nil => intro _ h; obtain ⟨it, hit, _⟩ := h; simp at hit
  | cons x xs ih =>
    intro hnd hex
    rw [List.map_cons, List.nodup_cons] at hnd
    unfold removeItemFromQueue
    by_cases hx : x.number = n
    · rw [List.eraseP_cons_of_pos (by simpa using hx)]
      refine ⟨fun it hit => ⟨List.mem_cons_of_mem _ hit, fun h => ?_⟩, rfl⟩
      apply hnd.1
      rw [hx, ← h]
      exact List.mem_map_of_mem _ hit
    · rw [List.eraseP_cons_of_neg (by simpa using hx)]
      have hex2 : ∃ it ∈ xs, it.number = n := by
        obtain ⟨it, hit, hn⟩ := hex
        rcases List.mem_cons.mp hit with h | h
        · rw [h] at hn; exact absurd hn hx
        · exact ⟨it, h, hn⟩
      obtain ⟨i1, i2⟩ := ih hnd.2 hex2
      unfold removeItemFromQueue at i1 i2
      refine ⟨fun it hit => ?_, by simp [i2]⟩
      rcases List.mem_cons.mp hit with h | h
      · rw [h]; exact ⟨List.mem_cons_self _ _, hx⟩
      · exact ⟨List.mem_cons_of_mem _ (i1 it h).1, (i1 it h).2⟩

theorem nodup_append_item (rest : List CacheItem) (item : CacheItem) (q : List CacheItem)
    (hsub : rest.Sublist q) (hnd : (q.map CacheItem.number).Nodup)
    (hne : ∀ it ∈ rest, it.number ≠ item.number) :
    ((rest ++ [item]).map CacheItem.number).Nodup := by
  rw [List.map_append, List.nodup_append]
  refine ⟨List.Nodup.sublist (List.Sublist.map _ hsub) hnd, by simp, ?_⟩
  intro a ha hb
  simp only [List.map_cons, List.map_nil, List.mem_singleton] at hb
  obtain ⟨it, hit, he⟩ := List.mem_map.mp ha
  exact hne it hit (by rw [he, hb])

/-- What `getBlock` does to consistent caches: it returns the buffer of an item
`item` of block `n`, which is the last item of the block queue afterwards; the other
items are items of the queue before; the disk changes at the sector of an evicted
block at most, which is no more in the cache and whose sector holds its buffer. -/
theorem getBlock_spec (c : Cache) (n : Int)
    (hsz : c.blockCacheSize = c.cacheBlockQueue.length)
    (hnd : (c.cacheBlockQueue.map CacheItem.number).Nodup) :
    ∃ (rest : List CacheItem) (item : CacheItem) (disk1 : Int → Bytes),
      getBlock c n = some (item.addr,
        { c with disk := disk1, cacheBlockQueue := rest ++ [item],
                 blockCacheSize := ((rest ++ [item]).length : Int) }) ∧
      item.number = n ∧
      (∀ it ∈ rest, it ∈ c.cacheBlockQueue ∧ it.number ≠ n) ∧
      ((rest ++ [item]).map CacheItem.number).Nodup ∧
      (item ∈ c.cacheBlockQueue ∨ item.addr = disk1 n) ∧
      (∀ m, disk1 m = c.disk m ∨
        ((∃ it ∈ c.cacheBlockQueue, it.number = m ∧ disk1 m = it.addr) ∧
          ∀ jt ∈ rest ++ [item], jt.number ≠ m)) := by
  cases hl : hash_table_lookup c.cacheBlockQueue n with
  | some blockItem =>
    obtain ⟨hmem, hnum⟩ := hash_table_lookup_some _ _ _ hl
    obtain ⟨r1, r2⟩ := removeItemFromQueue_spec n c.cacheBlockQueue hnd ⟨blockItem, hmem, hnum⟩
    refine ⟨removeItemFromQueue c.cacheBlockQueue n, blockItem, c.disk, ?_, hnum, r1, ?_,
      Or.inl hmem, fun m => Or.inl rfl⟩
    · unfold getBlock
      rw [hl]
      simp only [addItemEndQueue, List.length_append, List.length_singleton, r2, ← hsz]
    · exact nodup_append_item _ _ _ (List.eraseP_sublist _) hnd
        (fun it hit => by rw [hnum]; exact (r1 it hit).2)
  | none =>
    have hno := hash_table_lookup_none _ _ hl
    by_cases hfull : c.blockCacheSize = BLOCK_CACHESIZE
    · cases hq : c.cacheBlockQueue with
      | nil =>
        rw [hq] at hsz
        rw [hsz] at hfull
        exact absurd hfull (by decide)
      | cons lru rest =>
        rw [hq, List.map_cons, List.nodup_cons] at hnd
        rw [hq] at hno
        have hlru : lru.number ≠ n := hno lru (List.mem_cons_self _ _)
        refine ⟨rest, ⟨n, false, upd c.disk lru.number lru.addr n⟩,
          upd c.disk lru.number lru.addr, ?_, rfl,
          fun it hit => ⟨List.mem_cons_of_mem _ hit, hno it (List.mem_cons_of_mem _ hit)⟩, ?_,
          Or.inr rfl, ?_⟩
        · unfold getBlock
          rw [hl]
          simp only [hfull, if_true, hq, WriteSector, addItemEndQueue, List.length_append,
            List.length_singleton]
          rw [← hfull, hsz, hq]
          simp
        · exact nodup_append_item _ _ _ (List.Sublist.refl _) hnd.2
            (fun it hit => hno it (List.mem_cons_of_mem _ hit))
        · intro m
          by_cases hm : m = lru.number
          · right
            refine ⟨⟨lru, List.mem_cons_self _ _, hm.symm, by rw [hm, upd_same]⟩, ?_⟩
            intro jt hjt
            rcases List.mem_append.mp hjt with h | h
            · intro he
              apply hnd.1
              rw [← hm, ← he]
              exact List.mem_map_of_mem _ h
            · simp only [List.mem_singleton] at h
              rw [h, hm]
              exact fun he => hlru he.symm
          · left
            exact upd_ne _ _ _ _ hm
    · refine ⟨c.cacheBlockQueue, ⟨n, false, c.disk n⟩, c.disk, ?_, rfl,
        fun it hit => ⟨hit, hno it hit⟩, ?_, Or.inr rfl, fun m => Or.inl rfl⟩
      · unfold getBlock
        rw [hl]
        simp only [hfull, if_false, addItemEndQueue]
        simp [hsz]
      · exact nodup_append_item _ _ _ (List.Sublist.refl _) hnd (fun it hit => hno it hit)

theorem INODESPERBLOCK_eq : INODESPERBLOCK = 8 := by decide

theorem inodeOffset_eq (n : Int) :
    (n - (cdiv n INODESPERBLOCK + 1 - 1) * INODESPERBLOCK) * INODESIZE = inodeOffset n := by
  unfold inodeOffset cdiv cmod
  rw [INODESPERBLOCK_eq]
  have h := Int.tmod_add_tdiv n 8
  generalize n.tdiv 8 = q at h ⊢
  generalize n.tmod 8 = r at h ⊢
  have e : n - (q + 1 - 1) * 8 = r := by omega
  rw [e]

theorem inode_records_disjoint (n n2 : Int) (h : n ≠ n2)
    (hs : inodeSector n = inodeSector n2) :
    inodeOffset n + INODESIZE ≤ inodeOffset n2 ∨ inodeOffset n2 + INODESIZE ≤ inodeOffset n := by
  unfold inodeSector inodeOffset cdiv cmod at *
  rw [INODESPERBLOCK_eq] at *
  have h1 := Int.tmod_add_tdiv n 8
  have h2 := Int.tmod_add_tdiv n2 8
  generalize n.tdiv 8 = q at *
  generalize n.tmod 8 = r at *
  generalize n2.tdiv 8 = q2 at *
  generalize n2.tmod 8 = r2 at *
  simp only [INODESIZE]
  omega

theorem setLastAddr_concat (rest : List CacheItem) (item : CacheItem) (buf : Bytes) :
    setLastAddr (rest ++ [item]) buf = rest ++ [{ item with addr := buf }] := by
  unfold setLastAddr
  rw [List.getLast?_concat]
  simp only [List.dropLast_concat]

theorem syncInodes_clean (cur : CacheItem) (rest : List CacheItem) (c : Cache)
    (h : cur.dirty = false) : syncInodes (cur :: rest) c = syncInodes rest c := by
  rw [syncInodes]
  simp [h]

/-- One round of the second loop of `yfsSync` for a dirty inode item: what it keeps and
what it establishes. -/
theorem syncStep_spec (c : Cache) (cur : CacheItem)
    (hsz : c.blockCacheSize = c.cacheBlockQueue.length)
    (hnd : (c.cacheBlockQueue.map CacheItem.number).Nodup) :
    ∃ c2 : Cache,
      (∀ rest, cur.dirty = true → syncInodes (cur :: rest) c = syncInodes rest c2) ∧
      c2.blockCacheSize = c2.cacheBlockQueue.length ∧
      (c2.cacheBlockQueue.map CacheItem.number).Nodup ∧
      c2.cacheInodeQueue = c.cacheInodeQueue ∧
      (∀ m, Synced c m → Synced c2 m) ∧
      (∀ m, m ≠ inodeSector cur.number → DirtyKept c m → DirtyKept c2 m) ∧
      (∀ n2 data, n2 ≠ cur.number → Recorded c n2 data → Recorded c2 n2 data) ∧
      Recorded c2 cur.number cur.addr := by
  obtain ⟨rest, item, disk1, hget, hnum, hrest, hnd2, hitem, hdisk⟩ :=
    getBlock_spec c (inodeSector cur.number) hsz hnd
  refine ⟨{ c with
      disk := upd disk1 (inodeSector cur.number)
        (copyBytes item.addr (inodeOffset cur.number) cur.addr 0 INODESIZE),
      cacheBlockQueue := rest ++ [{ item with
        addr := copyBytes item.addr (inodeOffset cur.number) cur.addr 0 INODESIZE }],
      blockCacheSize := ((rest ++ [item]).length : Int) }, ?_, ?_, ?_, rfl, ?_, ?_, ?_, ?_⟩
  · intro rest2 hd
    rw [syncInodes]
    unfold inodeSector at hget
    simp only [hd, if_true, hget, setLastAddr_concat, inodeOffset_eq, WriteSector]
    rfl
  · simp
  · simpa using hnd2
  · intro m hs it1 hit1 hn
    rcases List.mem_append.mp hit1 with h | h
    · have hmB : m ≠ inodeSector cur.number := by rw [← hn]; exact (hrest it1 h).2
      show upd disk1 _ _ m = it1.addr
      rw [upd_ne _ _ _ _ hmB]
      rcases hdisk m with hd | ⟨_, hd⟩
      · rw [hd]; exact hs it1 (hrest it1 h).1 hn
      · exact absurd hn (hd it1 (List.mem_append_left _ h))
    · simp only [List.mem_singleton] at h
      subst h
      simp only at hn
      show upd disk1 _ _ m = _
      rw [← hn, hnum, upd_same]
  · intro m hm hk it1 hit1 hn
    rcases List.mem_append.mp hit1 with h | h
    · exact hk it1 (hrest it1 h).1 hn
    · simp only [List.mem_singleton] at h
      subst h
      simp only at hn
      exact absurd (hn.symm.trans hnum) hm
  · intro n2 data hne hrec
    have hitemRec : inodeSector n2 = inodeSector cur.number → HasRecord item.addr n2 data := by
      intro hS
      rcases hitem with h | h
      · exact hrec.2 item h (by rw [hnum, hS])
      · rw [h]
        rcases hdisk (inodeSector cur.number) with hd | ⟨⟨it, hit, hn, hd⟩, _⟩
        · rw [hd, ← hS]; exact hrec.1
        · rw [hd]; exact hrec.2 it hit (by rw [hn, hS])
    have hblock : inodeSector n2 = inodeSector cur.number →
        HasRecord (copyBytes item.addr (inodeOffset cur.number) cur.addr 0 INODESIZE) n2 data := by
      intro hS k hk0 hk1
      have hdis := inode_records_disjoint n2 cur.number hne hS
      unfold copyBytes
      rw [if_neg (by omega)]
      exact hitemRec hS k hk0 hk1
    constructor
    · show HasRecord (upd disk1 _ _ (inodeSector n2)) n2 data
      by_cases hS : inodeSector n2 = inodeSector cur.number
      · rw [hS, upd_same]; exact hblock hS
      · rw [upd_ne _ _ _ _ hS]
        rcases hdisk (inodeSector n2) with hd | ⟨⟨it, hit, hn, hd⟩, _⟩
        · rw [hd]; exact hrec.1
        · rw [hd]; exact hrec.2 it hit hn
    · intro it1 hit1 hn
      rcases List.mem_append.mp hit1 with h | h
      · exact hrec.2 it1 (hrest it1 h).1 hn
      · simp only [List.mem_singleton] at h
        subst h
        simp only at hn
        exact hblock (hn.symm.trans hnum)
  · have hblock : HasRecord (copyBytes item.addr (inodeOffset cur.number) cur.addr 0 INODESIZE)
        cur.number cur.addr := by
      intro k hk0 hk1
      unfold copyBytes
      rw [if_pos (by omega)]
      congr 1
      omega
    constructor
    · show HasRecord (upd disk1 _ _ (inodeSector cur.number)) cur.number cur.addr
      rw [upd_same]; exact hblock
    · intro it1 hit1 hn
      rcases List.mem_append.mp hit1 with h | h
      · exact absurd hn (hrest it1 h).2
      · simp only [List.mem_singleton] at h
        subst h
        exact hblock

/-- The second loop of `yfsSync` over consistent caches: it ends, and what it keeps and
establishes. -/
theorem syncInodes_spec : ∀ (items : List CacheItem) (c : Cache),
    c.blockCacheSize = c.cacheBlockQueue.length →
    (c.cacheBlockQueue.map CacheItem.number).Nodup →
    (items.map CacheItem.number).Nodup →
    ∃ c2, syncInodes items c = some c2 ∧ c2.cacheInodeQueue = c.cacheInodeQueue ∧
      (∀ m, Synced c m → Synced c2 m) ∧
      (∀ m, (∀ it ∈ items, it.dirty = true → inodeSector it.number ≠ m) →
        DirtyKept c m → DirtyKept c2 m) ∧
      (∀ n data, (∀ it ∈ items, it.dirty = true → it.number ≠ n) →
        Recorded c n data → Recorded c2 n data) ∧
      (∀ it ∈ items, it.dirty = true → Recorded c2 it.number it.addr) := by
  intro items
  induction items with
  | nil =>
    intro c _ _ _
    exact ⟨c, rfl, rfl, fun _ h => h, fun _ _ h => h, fun _ _ _ h => h,
      fun it hit => absurd hit (List.not_mem_nil it)⟩
  | cons cur rest ih =>
    intro c hsz hnd hin
    rw [List.map_cons, List.nodup_cons] at hin
    by_cases hd : cur.dirty = true
    · obtain ⟨c1, e1, s1, n1, q1, a1, b1, r1, t1⟩ := syncStep_spec c cur hsz hnd
      obtain ⟨c2, e2, q2, a2, b2, r2, t2⟩ := ih c1 s1 n1 hin.2
      refine ⟨c2, by rw [e1 rest hd, e2], by rw [q2, q1], fun m h => a2 m (a1 m h), ?_, ?_, ?_⟩
      · intro m hm hk
        exact b2 m (fun it hit => hm it (List.mem_cons_of_mem _ hit))
          (b1 m (fun h => hm cur (List.mem_cons_self _ _) hd h.symm) hk)
      · intro n data hn hrec
        exact r2 n data (fun it hit => hn it (List.mem_cons_of_mem _ hit))
          (r1 n data (fun h => hn cur (List.mem_cons_self _ _) hd h.symm) hrec)
      · intro it hit hdit
        rcases List.mem_cons.mp hit with h | h
        · rw [h]
          refine r2 cur.number cur.addr (fun jt hjt _ he => ?_) t1
          exact hin.1 (he ▸ List.mem_map_of_mem _ hjt)
        · exact t2 it h hdit
    · have hd2 : cur.dirty = false := by simpa using hd
      obtain ⟨c2, e2, q2, a2, b2, r2, t2⟩ := ih c hsz hnd hin.2
      refine ⟨c2, by rw [syncInodes_clean cur rest c hd2, e2], q2, a2, ?_, ?_, ?_⟩
      · intro m hm hk
        exact b2 m (fun it hit => hm it (List.mem_cons_of_mem _ hit)) hk
      · intro n data hn hrec
        exact r2 n data (fun it hit => hn it (List.mem_cons_of_mem _ hit)) hrec
      · intro it hit hdit
        rcases List.mem_cons.mp hit with h | h
        · rw [h] at hdit; exact absurd hdit hd
        · exact t2 it h hdit

/-- The first loop of `yfsSync`: the sector of every dirty block holds its buffer and
the other sectors are as before. -/
theorem syncBlocks_spec : ∀ (q : List CacheItem) (disk : Int → Bytes),
    (q.map CacheItem.number).Nodup →
    (∀ it ∈ q, it.dirty = true → syncBlocks q disk it.number = it.addr) ∧
      (∀ m, (∀ it ∈ q, it.dirty = true → it.number ≠ m) → syncBlocks q disk m = disk m) := by
  intro q
  induction q with
  | nil =>
    intro disk _
    exact ⟨fun it hit => absurd hit (List.not_mem_nil it), fun _ _ => rfl⟩
  | cons x xs ih =>
    intro disk hnd
    rw [List.map_cons, List.nodup_cons] at hnd
    obtain ⟨i1, i2⟩ := ih (if x.dirty then upd disk x.number x.addr else disk) hnd.2
    constructor
    · intro it hit hd
      rw [syncBlocks]
      rcases List.mem_cons.mp hit with h | h
      · subst h
        rw [i2 it.number (fun jt hjt _ he => hnd.1 (he ▸ List.mem_map_of_mem _ hjt))]
        simp [hd]
      · exact i1 it h hd
    · intro m hm
      rw [syncBlocks, i2 m (fun it hit => hm it (List.mem_cons_of_mem _ hit))]
      by_cases hx : x.dirty = true
      · rw [if_pos hx, upd_ne _ _ _ _ (Ne.symm (hm x (List.mem_cons_self _ _) hx))]
      · rw [if_neg hx]

/-! ## The bounds of the loops of the directory search -/

theorem noteFree_fields (blk : Bytes) (c : DirCursor) :
    (noteFree blk c).i = c.i ∧ (noteFree blk c).blockNum = c.blockNum ∧
    (noteFree blk c).currBlockNum = c.currBlockNum ∧
    (noteFree blk c).currentBlock = c.currentBlock ∧
    (noteFree blk c).curOff = c.curOff ∧ (noteFree blk c).totalSize = c.totalSize ∧
    (noteFree blk c).isFound = c.isFound := by
  unfold noteFree
  split_ifs <;> simp

theorem scanBlock_succ (blk : Bytes) (p : List Int) (size : Int) (fuel : Nat)
    (c : DirCursor) :
    scanBlock (fuel + 1) blk p size c =
      if c.totalSize ≤ size ∧ c.curOff < BLOCKSIZE then
        if isEqual p (entryName blk c.curOff) then { noteFree blk c with isFound := true }
        else scanBlock fuel blk p size (nextEntry (noteFree blk c))
      else c := by
  rw [scanBlock]
  unfold noteFree nextEntry
  simp only []
  split_ifs <;> rfl

theorem scanBlock_i (blk : Bytes) (p : List Int) (size : Int) :
    ∀ (fuel : Nat) (c : DirCursor), (scanBlock fuel blk p size c).i = c.i ∧
      (scanBlock fuel blk p size c).blockNum = c.blockNum := by
  intro fuel
  induction fuel with
  | zero => intro c; simp [scanBlock]
  | succ fuel ih =>
    intro c
    have hn := noteFree_fields blk c
    rw [scanBlock_succ]
    split_ifs
    · exact ⟨hn.1, hn.2.1⟩
    · exact ⟨(ih _).1.trans hn.1, (ih _).2.trans hn.2.1⟩
    · exact ⟨rfl, rfl⟩

theorem scanBlock_fuel_succ (blk : Bytes) (p : List Int) (size : Int) :
    ∀ (fuel : Nat) (c : DirCursor), BLOCKSIZE ≤ c.curOff + DIRENTRYSIZE * fuel →
      scanBlock (fuel + 1) blk p size c = scanBlock fuel blk p size c := by
  intro fuel
  induction fuel with
  | zero =>
    intro c h
    have h2 : ¬ (c.totalSize ≤ size ∧ c.curOff < BLOCKSIZE) := by
      simp only [BLOCKSIZE, DIRENTRYSIZE] at *
      omega
    rw [scanBlock_succ, if_neg h2]; rfl
  | succ fuel ih =>
    intro c h
    have hn := noteFree_fields blk c
    rw [scanBlock_succ]
    conv_rhs => rw [scanBlock_succ]
    split_ifs with h1 h2
    · rfl
    · apply ih
      have e : (nextEntry (noteFree blk c)).curOff = c.curOff + DIRENTRYSIZE := by
        unfold nextEntry; simp [hn.2.2.2.2.1]
      rw [e]
      simp only [BLOCKSIZE, DIRENTRYSIZE] at *
      push_cast at h
      omega
    · rfl

theorem scanBlock_fuel_le (blk : Bytes) (p : List Int) (size : Int) (c : DirCursor)
    (fuel : Nat) (h0 : 0 ≤ c.curOff) (hf : (BLOCKSIZE / DIRENTRYSIZE).toNat ≤ fuel) :
    scanBlock fuel blk p size c
      = scanBlock (BLOCKSIZE / DIRENTRYSIZE).toNat blk p size c := by
  have e : (BLOCKSIZE / DIRENTRYSIZE).toNat = 16 := by decide
  induction fuel with
  | zero => omega
  | succ k ih =>
    by_cases hk : (BLOCKSIZE / DIRENTRYSIZE).toNat ≤ k
    · rw [scanBlock_fuel_succ blk p size k c, ih hk]
      simp only [BLOCKSIZE, DIRENTRYSIZE] at *
      omega
    · have e2 : k + 1 = (BLOCKSIZE / DIRENTRYSIZE).toNat := by omega
      rw [e2]

theorem searchDir_fuel_succ (s : FS) (ino : Int) (p : List Int) :
    ∀ (fuel : Nat) (c : DirCursor), c.blockNum = (getNthBlock s ino c.i false).1 →
      NUM_DIRECT + BLOCKSIZE / 4 ≤ c.i + fuel →
      searchDir (fuel + 1) s ino p c = searchDir fuel s ino p c := by
  intro fuel
  induction fuel with
  | zero =>
    intro c hb h
    have h2 : c.blockNum = 0 := by
      rw [hb]; unfold getNthBlock
      rw [if_pos (by simpa using h)]
    simp [searchDir, h2]
  | succ fuel ih =>
    intro c hb h
    rw [searchDir]
    conv_rhs => rw [searchDir]
    simp only []
    split_ifs with h1 h2
    · rfl
    · apply ih
      · rfl
      · have hi := (scanBlock_i (s.blocks c.blockNum) p (s.inodes ino).size
          (BLOCKSIZE / DIRENTRYSIZE).toNat { c with currentBlock := c.blockNum, curOff := 0 }).1
        simp only [] at hi ⊢
        rw [hi]
        push_cast at h
        omega
    · rfl

theorem searchDir_fuel_le (s : FS) (ino : Int) (p : List Int) (fuel : Nat)
    (hf : (NUM_DIRECT + BLOCKSIZE / 4).toNat + 1 ≤ fuel) :
    searchDir fuel s ino p
        { i := 0, blockNum := (getNthBlock s ino 0 false).1, currBlockNum := 0,
          currentBlock := 0, curOff := 0, totalSize := DIRENTRYSIZE, isFound := false,
          freeEntryOffset := -1, freeEntryBlockNum := 0 }
      = dirSearch s p ino := by
  have e : (NUM_DIRECT + BLOCKSIZE / 4).toNat = 140 := by decide
  induction fuel with
  | zero => omega
  | succ k ih =>
    by_cases hk : (NUM_DIRECT + BLOCKSIZE / 4).toNat + 1 ≤ k
    · rw [searchDir_fuel_succ s ino p k _ rfl, ih hk]
      simp only [NUM_DIRECT, BLOCKSIZE] at *
      omega
    · have e2 : k + 1 = (NUM_DIRECT + BLOCKSIZE / 4).toNat + 1 := by omega
      rw [e2]; rfl

/-! ## The three cases of `getBlock` -/

theorem getBlock_hit (c : Cache) (n : Int) (item : CacheItem)
    (hl : hash_table_lookup c.cacheBlockQueue n = some item) :
    getBlock c n = some (item.addr,
      { c with cacheBlockQueue := removeItemFromQueue c.cacheBlockQueue n ++ [item] }) := by
  unfold getBlock
  rw [hl]
  rfl

theorem getBlock_miss (c : Cache) (n : Int)
    (hl : hash_table_lookup c.cacheBlockQueue n = none)
    (hfull : c.blockCacheSize ≠ BLOCK_CACHESIZE) :
    getBlock c n = some (c.disk n,
      { c with cacheBlockQueue := c.cacheBlockQueue ++ [⟨n, false, c.disk n⟩],
               blockCacheSize := c.blockCacheSize + 1 }) := by
  unfold getBlock
  rw [hl]
  simp only [hfull, if_false, addItemEndQueue]

theorem getBlock_evict (c : Cache) (n : Int) (lru : CacheItem) (rest : List CacheItem)
    (hl : hash_table_lookup c.cacheBlockQueue n = none)
    (hfull : c.blockCacheSize = BLOCK_CACHESIZE) (hq : c.cacheBlockQueue = lru :: rest) :
    getBlock c n = some (upd c.disk lru.number lru.addr n,
      { c with disk := upd c.disk lru.number lru.addr,
               cacheBlockQueue := rest ++ [⟨n, false, upd c.disk lru.number lru.addr n⟩],
               blockCacheSize := c.blockCacheSize - 1 + 1 }) := by
  unfold getBlock
  rw [hl]
  simp only [hfull, if_true, hq, WriteSector, addItemEndQueue]

theorem hash_table_lookup_append (q : List CacheItem) (x : CacheItem) (m : Int) :
    hash_table_lookup (q ++ [x]) m =
      match hash_table_lookup q m with
      | some it => some it
      | none => if x.number = m then some x else none := by
  unfold hash_table_lookup
  rw [List.find?_append]
  cases h : List.find? (fun item => decide (item.number = m)) q with
  | some it => rfl
  | none =>
    by_cases hx : x.number = m
    · simp [hx]
    · simp [hx]

theorem hash_table_lookup_remove_ne (n m : Int) (hm : m ≠ n) : ∀ (q : List CacheItem),
    hash_table_lookup (removeItemFromQueue q n) m = hash_table_lookup q m := by
  intro q
  induction q with
  | nil => rfl
  | cons x xs ih =>
    unfold removeItemFromQueue at ih ⊢
    by_cases hx : x.number = n
    · rw [List.eraseP_cons_of_pos (by simpa using hx)]
      unfold hash_table_lookup
      rw [List.find?_cons_of_neg]
      simp only [decide_eq_true_eq]
      rw [hx]; exact fun h => hm h.symm
    · rw [List.eraseP_cons_of_neg (by simpa using hx)]
      unfold hash_table_lookup at ih ⊢
      by_cases hxm : x.number = m
      · rw [List.find?_cons_of_pos _ (by simpa using hxm),
          List.find?_cons_of_pos _ (by simpa using hxm)]
      · rw [List.find?_cons_of_neg _ (by simpa using hxm),
          List.find?_cons_of_neg _ (by simpa using hxm)]
        exact ih

theorem hash_table_lookup_of_not_mem (q : List CacheItem) (m : Int)
    (h : ∀ it ∈ q, it.number ≠ m) : hash_table_lookup q m = none := by
  unfold hash_table_lookup
  rw [List.find?_eq_none]
  intro it hit
  simpa using h it hit

theorem removeItemFromQueue_eq_filter (n : Int) : ∀ (q : List CacheItem),
    (q.map CacheItem.number).Nodup →
    removeItemFromQueue q n = q.filter (fun it => decide (it.number ≠ n)) := by
  intro q
  induction q with
  | nil => intro _; rfl
  | cons x xs ih =>
    intro hnd
    rw [List.map_cons, List.nodup_cons] at hnd
    unfold removeItemFromQueue at ih ⊢
    by_cases hx : x.number = n
    · rw [List.eraseP_cons_of_pos (by simpa using hx),
        List.filter_cons_of_neg (by simpa using hx)]
      symm
      rw [List.filter_eq_self]
      intro it hit
      simp only [ne_eq, decide_not, Bool.not_eq_eq_eq_not, Bool.not_true, decide_eq_false_iff_not]
      intro he
      apply hnd.1
      rw [hx, ← he]
      exact List.mem_map_of_mem _ hit
    · rw [List.eraseP_cons_of_neg (by simpa using hx),
        List.filter_cons_of_pos (by simpa using hx), ih hnd.2]

/-! ## The comparison of names -/

theorem isEqualLoop_iff (e : Int → Int) :
    ∀ (fuel : Nat) (path : List Int) (i : Int),
      (∀ j, i ≤ j → j < i + fuel → e j ≠ SLASH) →
      (isEqualLoop fuel path e i = true ↔
        (firstComponent path).take fuel = bytesString fuel e i) := by
  intro fuel
  induction fuel with
  | zero => intro path i _; simp [isEqualLoop, bytesString]
  | succ fuel ih =>
    intro path i hns
    have hsl : e i ≠ SLASH := hns i (le_refl _) (by push_cast; omega)
    have hns2 : ∀ j, i + 1 ≤ j → j < i + 1 + fuel → e j ≠ SLASH :=
      fun j h1 h2 => hns j (by omega) (by push_cast; omega)
    cases path with
    | nil =>
      by_cases h0 : e i = 0
      · simp [isEqualLoop, bytesString, firstComponent, hd, h0]
      · have h1 : (0 : Int) ≠ e i := fun h => h0 h.symm
        simp [isEqualLoop, bytesString, firstComponent, hd, h0, h1]
    | cons c rest =>
      by_cases hc : c = SLASH ∨ c = 0
      · by_cases h0 : e i = 0
        · simp [isEqualLoop, bytesString, firstComponent, hd, h0, hc]
        · have h1 : c ≠ e i := by
            rcases hc with h | h
            · rw [h]; exact fun h2 => hsl h2.symm
            · rw [h]; exact fun h2 => h0 h2.symm
          simp [isEqualLoop, bytesString, firstComponent, hd, h0, hc, h1]
      · have hc1 : c ≠ SLASH := fun h => hc (Or.inl h)
        have hc2 : c ≠ 0 := fun h => hc (Or.inr h)
        by_cases h1 : c = e i
        · subst h1
          have ih2 := ih rest (i + 1) hns2
          rw [isEqualLoop, firstComponent, if_neg hc, bytesString, if_neg hc2,
            List.take_succ_cons]
          simp only [hd, List.headD_cons, hc1, hc2, false_or, false_and, if_false, ne_eq,
            not_true_eq_false, List.tail_cons, List.cons.injEq, true_and]
          exact ih2
        · rw [isEqualLoop, firstComponent, if_neg hc, bytesString, List.take_succ_cons]
          simp only [hd, List.headD_cons, hc1, hc2, false_or, false_and, if_false, ne_eq, h1,
            not_false_eq_true, if_true]
          by_cases h0 : e i = 0
          · simp [h0]
          · simp [h0, h1]

theorem isEqualLoop_congr (e e2 : Int → Int) :
    ∀ (fuel : Nat) (path : List Int) (i : Int),
      (∀ j, i ≤ j → j < i + fuel → e2 j = e j) →
      isEqualLoop fuel path e2 i = isEqualLoop fuel path e i := by
  intro fuel
  induction fuel with
  | zero => intro path i _; rfl
  | succ fuel ih =>
    intro path i h
    have hi : e2 i = e i := h i (le_refl _) (by push_cast; omega)
    rw [isEqualLoop, isEqualLoop, hi,
      ih path.tail (i + 1) (fun j h1 h2 => h j (by omega) (by push_cast; omega))]

/-! ## The scan of the inodes at the bootstrap -/

theorem inodeLoop_spec (B : Int) :
    ∀ (fuel : Nat) (s : FS) (tb : Int → Bool) (i : Int), i + fuel = 8 * B →
      s.freeInodes.Pairwise (fun a b => a > b) → (∀ n ∈ s.freeInodes, n < i) →
      (inodeLoop fuel s tb i B).1.inodes = s.inodes ∧
      (inodeLoop fuel s tb i B).1.blocks = s.blocks ∧
      (inodeLoop fuel s tb i B).2.2 = 8 * B ∧
      (∀ n, n ∈ (inodeLoop fuel s tb i B).1.freeInodes ↔
        n ∈ s.freeInodes ∨ (i ≤ n ∧ n < 8 * B ∧ (s.inodes n).type = INODE_FREE)) ∧
      (inodeLoop fuel s tb i B).1.freeInodes.Pairwise (fun a b => a > b) ∧
      (∀ n ∈ (inodeLoop fuel s tb i B).1.freeInodes, n < 8 * B) := by
  intro fuel
  induction fuel with
  | zero =>
    intro s tb i hi hp hb
    have e : i = 8 * B := by simpa using hi
    refine ⟨rfl, rfl, e, fun n => ?_, hp, fun n hn => ?_⟩
    · simp only [inodeLoop]
      constructor
      · exact fun h => Or.inl h
      · rintro (h | ⟨h1, h2, _⟩)
        · exact h
        · omega
    · have := hb n hn
      simp only [inodeLoop] at hn ⊢
      omega
  | succ fuel ih =>
    intro s tb i hi hp hb
    have hlt : i < INODESPERBLOCK * B := by
      rw [INODESPERBLOCK_eq]; push_cast at hi; omega
    have hi2 : i + 1 + (fuel : Int) = 8 * B := by push_cast at hi; omega
    rw [inodeLoop, if_pos hlt]
    by_cases hf : (s.inodes i).type = INODE_FREE
    · rw [if_pos hf]
      have hp2 : (addFreeInodeToList s i).freeInodes.Pairwise (fun a b => a > b) := by
        simp only [addFreeInodeToList, List.pairwise_cons]
        exact ⟨fun n hn => hb n hn, hp⟩
      have hb2 : ∀ n ∈ (addFreeInodeToList s i).freeInodes, n < i + 1 := by
        intro n hn
        simp only [addFreeInodeToList, List.mem_cons] at hn
        rcases hn with h | h
        · omega
        · have := hb n h; omega
      obtain ⟨a1, a2, a3, a4, a5, a6⟩ := ih (addFreeInodeToList s i) tb (i + 1) hi2 hp2 hb2
      refine ⟨a1, a2, a3, fun n => ?_, a5, a6⟩
      rw [a4]
      simp only [addFreeInodeToList, List.mem_cons]
      constructor
      · rintro ((h | h) | ⟨h1, h2, h3⟩)
        · right; rw [h]; exact ⟨le_refl _, by rw [INODESPERBLOCK_eq] at hlt; exact hlt, hf⟩
        · left; exact h
        · right; exact ⟨by omega, h2, h3⟩
      · rintro (h | ⟨h1, h2, h3⟩)
        · left; right; exact h
        · by_cases hn : n = i
          · left; left; exact hn
          · right; exact ⟨by omega, h2, h3⟩
    · rw [if_neg hf]
      obtain ⟨a1, a2, a3, a4, a5, a6⟩ := ih s
        (takenLoop ((NUM_DIRECT + BLOCKSIZE / 4).toNat + 1) s i 0 tb) (i + 1) hi2 hp
        (fun n hn => by have := hb n hn; omega)
      refine ⟨a1, a2, a3, fun n => ?_, a5, a6⟩
      rw [a4]
      constructor
      · rintro (h | ⟨h1, h2, h3⟩)
        · left; exact h
        · right; exact ⟨by omega, h2, h3⟩
      · rintro (h | ⟨h1, h2, h3⟩)
        · left; exact h
        · by_cases hn : n = i
          · rw [hn] at h3; exact absurd h3 hf
          · right; exact ⟨by omega, h2, h3⟩

theorem inodeBlockLoop_spec (N : Int) :
    ∀ (fuel : Nat) (s : FS) (tb : Int → Bool) (i B : Int),
      8 * (B - 1) ≤ i → i < 8 * B → (N ≤ i ∨ N ≤ 8 * (B - 1 + fuel)) →
      s.freeInodes.Pairwise (fun a b => a > b) → (∀ n ∈ s.freeInodes, n < i) →
      (inodeBlockLoop fuel N s tb i B).1.inodes = s.inodes ∧
      (inodeBlockLoop fuel N s tb i B).1.blocks = s.blocks ∧
      (∀ n, n ∈ (inodeBlockLoop fuel N s tb i B).1.freeInodes ↔
        n ∈ s.freeInodes ∨
          (i ≤ n ∧ n < (if N ≤ i then i else 8 * ((N + 7) / 8)) ∧
            (s.inodes n).type = INODE_FREE)) ∧
      (inodeBlockLoop fuel N s tb i B).1.freeInodes.Pairwise (fun a b => a > b) := by
  intro fuel
  induction fuel with
  | zero =>
    intro s tb i B h1 h2 hN hp hb
    have hle : N ≤ i := by
      rcases hN with h | h
      · exact h
      · simp only [Nat.cast_zero, add_zero] at h; omega
    refine ⟨rfl, rfl, fun n => ?_, hp⟩
    simp only [inodeBlockLoop, if_pos hle]
    constructor
    · exact fun h => Or.inl h
    · rintro (h | ⟨h3, h4, _⟩)
      · exact h
      · omega
  | succ fuel ih =>
    intro s tb i B h1 h2 hN hp hb
    rw [inodeBlockLoop]
    by_cases hlt : i < N
    · rw [if_pos hlt]
      simp only []
      have hfu : i + (((INODESPERBLOCK * B - i).toNat : Nat) : Int) = 8 * B := by
        rw [INODESPERBLOCK_eq, Int.toNat_of_nonneg (by omega)]; omega
      obtain ⟨a1, a2, a3, a4, a5, a6⟩ :=
        inodeLoop_spec B (INODESPERBLOCK * B - i).toNat s tb i hfu hp hb
      have hN2 : N ≤ 8 * B ∨ N ≤ 8 * (B + 1 - 1 + (fuel : Int)) := by
        rcases hN with h | h
        · omega
        · right; push_cast at h; omega
      have ih2 := ih (inodeLoop (INODESPERBLOCK * B - i).toNat s tb i B).1
        (inodeLoop (INODESPERBLOCK * B - i).toNat s tb i B).2.1
        (inodeLoop (INODESPERBLOCK * B - i).toNat s tb i B).2.2 (B + 1)
        (by rw [a3]; omega) (by rw [a3]; omega) (by rw [a3]; exact hN2) a5
        (by rw [a3]; exact a6)
      obtain ⟨b1, b2, b3, b4⟩ := ih2
      refine ⟨b1.trans a1, b2.trans a2, fun n => ?_, b4⟩
      refine (b3 n).trans ?_
      rw [a3, a1, a4 n, if_neg (show ¬ N ≤ i by omega)]
      by_cases hN8 : N ≤ 8 * B
      · rw [if_pos hN8]
        have e : 8 * ((N + 7) / 8) = 8 * B := by omega
        rw [e]
        constructor
        · rintro ((h | h) | ⟨h3, h4, _⟩)
          · left; exact h
          · right; exact h
          · omega
        · rintro (h | h)
          · left; left; exact h
          · left; right; exact h
      · rw [if_neg hN8]
        have e : 8 * B ≤ 8 * ((N + 7) / 8) := by omega
        constructor
        · rintro ((h | ⟨h3, h4, h5⟩) | ⟨h3, h4, h5⟩)
          · left; exact h
          · right; exact ⟨h3, by omega, h5⟩
          · right; exact ⟨by omega, h4, h5⟩
        · rintro (h | ⟨h3, h4, h5⟩)
          · left; left; exact h
          · by_cases hn : n < 8 * B
            · left; right; exact ⟨h3, hn, h5⟩
            · right; exact ⟨by omega, h4, h5⟩
    · rw [if_neg hlt]
      refine ⟨rfl, rfl, fun n => ?_, hp⟩
      rw [if_pos (by omega)]
      constructor
      · exact fun h => Or.inl h
      · rintro (h | ⟨h3, h4, _⟩)
        · exact h
        · omega

theorem foldl_free_blocks_frame (tb : Int → Bool) : ∀ (l : List Nat) (s : FS),
    (l.foldl (fun (s1 : FS) (i : Nat) =>
        if tb (i : Int) then s1 else addFreeBlockToList s1 (i : Int)) s).freeInodes
      = s.freeInodes ∧
    (l.foldl (fun (s1 : FS) (i : Nat) =>
        if tb (i : Int) then s1 else addFreeBlockToList s1 (i : Int)) s).inodes
      = s.inodes := by
  intro l
  induction l with
  | nil => intro s; exact ⟨rfl, rfl⟩
  | cons x xs ih =>
    intro s
    rw [List.foldl_cons]
    by_cases h : tb (x : Int) = true
    · simp only [h, if_true]; exact ih s
    · simp only [h]
      exact ⟨(ih _).1.trans rfl, (ih _).2.trans rfl⟩

/-! ## The search of a directory -/

theorem dirEntryBlock_eq (s : FS) (ino k : Int) :
    dirEntryBlock s ino k = logicalBlock s ino (k / 16) := rfl

theorem dirEntryOff_eq (k : Int) : dirEntryOff k = k % 16 * 32 := rfl

theorem dirEntry_in_block (i a : Int) (h0 : 0 ≤ a) (h1 : a < 16) :
    (16 * i + a) / 16 = i ∧ (16 * i + a) % 16 * 32 = 32 * a := by
  constructor <;> omega

theorem FreeSeen_step (s : FS) (ino k : Int) (c : DirCursor) (hk : 0 ≤ k)
    (hf : FreeSeen s ino k c) (hoff : c.curOff = dirEntryOff k)
    (hblk : c.blockNum = dirEntryBlock s ino k) :
    FreeSeen s ino (k + 1) (nextEntry (noteFree (s.blocks (dirEntryBlock s ino k)) c)) := by
  have hoff0 : dirEntryOff k ≠ -1 := by rw [dirEntryOff_eq]; omega
  rcases hf with ⟨h1, h2, h3⟩ | ⟨f, f0, f1, f2, f3, f4, f5⟩
  · by_cases hz : readInt16 (s.blocks (dirEntryBlock s ino k)) c.curOff = 0
    · right
      refine ⟨k, hk, by omega, ?_, h3, ?_, ?_⟩
      · unfold dirEntryInum; rw [← hoff]; exact hz
      · unfold nextEntry noteFree
        rw [if_pos ⟨h1, hz⟩]
        exact hoff
      · unfold nextEntry noteFree
        rw [if_pos ⟨h1, hz⟩]
        exact hblk
    · left
      have hn : ¬ (c.freeEntryOffset = -1 ∧
          readInt16 (s.blocks (dirEntryBlock s ino k)) c.curOff = 0) := fun hh => hz hh.2
      refine ⟨?_, ?_, ?_⟩
      · unfold nextEntry noteFree
        rw [if_neg hn]
        exact h1
      · unfold nextEntry noteFree
        rw [if_neg hn]
        exact h2
      · intro j j0 j1
        by_cases hj : j = k
        · rw [hj]; unfold dirEntryInum; rw [← hoff]; exact hz
        · exact h3 j j0 (by omega)
  · right
    have hne : c.freeEntryOffset ≠ -1 := by
      rw [f4, dirEntryOff_eq]; omega
    have hn : ¬ (c.freeEntryOffset = -1 ∧
        readInt16 (s.blocks (dirEntryBlock s ino k)) c.curOff = 0) := fun hh => hne hh.1
    refine ⟨f, f0, by omega, f2, f3, ?_, ?_⟩
    · unfold nextEntry noteFree
      rw [if_neg hn]
      exact f4
    · unfold nextEntry noteFree
      rw [if_neg hn]
      exact f5

theorem scanBlock_spec (s : FS) (ino : Int) (p : List Int) :
    ∀ (fuel : Nat) (i a : Int) (c : DirCursor), InBlock s ino p i a c → 16 ≤ a + fuel →
      (∃ k, FoundAt s ino p k
          (scanBlock fuel (s.blocks (logicalBlock s ino i)) p (s.inodes ino).size c)) ∨
      (∃ a2, InBlock s ino p i a2
          (scanBlock fuel (s.blocks (logicalBlock s ino i)) p (s.inodes ino).size c) ∧
        (a2 = 16 ∨ (s.inodes ino).size < 32 * (16 * i + a2 + 1))) := by
  intro fuel
  induction fuel with
  | zero =>
    intro i a c h hf
    right
    refine ⟨a, by simpa [scanBlock] using h, Or.inl ?_⟩
    have := h.a16
    simp only [Nat.cast_zero, add_zero] at hf
    omega
  | succ fuel ih =>
    intro i a c h hf
    rw [scanBlock_succ]
    by_cases hc : c.totalSize ≤ (s.inodes ino).size ∧ c.curOff < BLOCKSIZE
    · rw [if_pos hc]
      have ha : a < 16 := by
        have := hc.2; rw [h.coff] at this; simp only [BLOCKSIZE] at this; omega
      have hin : 32 * (16 * i + a + 1) ≤ (s.inodes ino).size := by
        have := hc.1; rw [h.ctot] at this; exact this
      obtain ⟨e1, e2⟩ := dirEntry_in_block i a h.a0 ha
      have hblk : dirEntryBlock s ino (16 * i + a) = logicalBlock s ino i := by
        rw [dirEntryBlock_eq, e1]
      have hoff : dirEntryOff (16 * i + a) = c.curOff := by
        rw [dirEntryOff_eq, e2, h.coff]
      have hk0 : 0 ≤ 16 * i + a := by have := h.i0; have := h.a0; omega
      have hn := noteFree_fields (s.blocks (logicalBlock s ino i)) c
      by_cases hm : isEqual p (entryName (s.blocks (logicalBlock s ino i)) c.curOff) = true
      · rw [if_pos hm]
        left
        refine ⟨16 * i + a, hk0, by omega, ?_, h.noMatch, rfl, ?_, ?_⟩
        · unfold dirEntryMatch; rw [hblk, hoff]; exact hm
        · simp only []; rw [hn.2.2.2.2.1, hoff]
        · simp only []; rw [hn.2.1, hblk, h.cb]
      · rw [if_neg hm]
        have hm2 : dirEntryMatch s ino p (16 * i + a) = false := by
          unfold dirEntryMatch; rw [hblk, hoff]; simpa using hm
        have hfs := FreeSeen_step s ino (16 * i + a) c hk0 h.free hoff.symm
          (by rw [hblk]; exact h.cb)
        rw [hblk] at hfs
        have hnext : InBlock s ino p i (a + 1)
            (nextEntry (noteFree (s.blocks (logicalBlock s ino i)) c)) := by
          refine ⟨by have := h.a0; omega, by omega, h.i0, ?_, ?_, ?_, ?_, ?_, ?_, ?_, ?_, ?_, ?_⟩
          · simp only [nextEntry]; rw [hn.1, h.ci]
          · simp only [nextEntry]; rw [hn.2.1, h.cb]
          · simp only [nextEntry]; rw [hn.2.2.2.1, h.ccur]
          · simp only [nextEntry]; rw [hn.2.2.1, h.ccb]
          · simp only [nextEntry, DIRENTRYSIZE]; rw [hn.2.2.2.2.1, h.coff]; ring
          · simp only [nextEntry, DIRENTRYSIZE]; rw [hn.2.2.2.2.2.1, h.ctot]; ring
          · simp only [nextEntry]; rw [hn.2.2.2.2.2.2, h.cnf]
          · omega
          · have e : 16 * i + (a + 1) = 16 * i + a + 1 := by ring
            rw [e]; exact hfs
          · intro k k0 k1
            by_cases hk : k = 16 * i + a
            · rw [hk]; exact hm2
            · exact h.noMatch k k0 (by omega)
        exact ih i (a + 1) _ hnext (by push_cast at hf; omega)
    · rw [if_neg hc]
      right
      refine ⟨a, h, ?_⟩
      by_cases ha : a = 16
      · exact Or.inl ha
      · right
        have h1 := h.coff
        have h2 := h.ctot
        have h3 := h.a16
        simp only [BLOCKSIZE] at hc
        by_contra hcon
        apply hc
        constructor <;> omega

theorem atHead_end (s : FS) (ino : Int) (p : List Int) (hmap : Mapped s ino) (i e : Int)
    (c : DirCursor) (h : AtHead s ino p i e c) (hb : c.blockNum = 0) :
    SearchEnd s ino p c := by
  have hge : i * 512 ≥ (s.inodes ino).size := by
    have h1 := h.cb
    rw [hb, getNthBlock_false_val] at h1
    by_contra hcon
    have h2 : ¬ (i * BLOCKSIZE ≥ (s.inodes ino).size) := by simpa [BLOCKSIZE] using hcon
    rw [if_neg h2] at h1
    exact hmap i h.i0 (by simpa [BLOCKSIZE] using hcon) h1.symm
  have hw := h.within
  have he0 := h.e0
  rcases h.pos with ⟨p1, p2, p3, p4, p5⟩ | ⟨p1, p2, p3, p4, p5, p6, p7, p8⟩
  · have hS : (s.inodes ino).size = 0 := by omega
    refine ⟨h.cnf, hb, ?_, ?_, ?_, ?_, ?_⟩
    · intro k k0 k1; omega
    · rw [hS]; simpa [p2] using h.free
    · rw [h.ci, hS, p1]; norm_num
    · rw [h.ctot, hS, p2]; norm_num
    · intro hpos; omega
  · have hE : (s.inodes ino).size / 32 = e := by omega
    refine ⟨h.cnf, hb, ?_, ?_, ?_, ?_, ?_⟩
    · intro k k0 k1; exact h.noMatch k k0 (by omega)
    · rw [hE]; exact h.free
    · rw [h.ci]; omega
    · rw [h.ctot, hE]
    · intro _
      have hB : ((s.inodes ino).size - 1) / 512 = i - 1 := by omega
      rw [hB, hE]
      exact ⟨p5, p6, by rw [p7]; ring⟩

theorem searchDir_spec (s : FS) (ino : Int) (p : List Int) (hmap : Mapped s ino) :
    ∀ (fuel : Nat) (i e : Int) (c : DirCursor), AtHead s ino p i e c → 141 ≤ i + fuel →
      (∃ k, FoundAt s ino p k (searchDir fuel s ino p c)) ∨
      SearchEnd s ino p (searchDir fuel s ino p c) := by
  intro fuel
  induction fuel with
  | zero =>
    intro i e c h hf
    right
    have hb : c.blockNum = 0 := by
      rw [h.cb]; unfold getNthBlock
      rw [if_pos (by simp only [NUM_DIRECT, BLOCKSIZE]; simp at hf; omega)]
    simpa [searchDir] using atHead_end s ino p hmap i e c h hb
  | succ fuel ih =>
    intro i e c h hf
    rw [searchDir]
    by_cases hb : c.blockNum = 0
    · have hc : ¬ (c.blockNum ≠ 0 ∧ c.isFound = false) := fun hh => hh.1 hb
      rw [if_neg hc]
      exact Or.inr (atHead_end s ino p hmap i e c h hb)
    · rw [if_pos ⟨hb, h.cnf⟩]
      simp only []
      have hv := getNthBlock_false_val s ino i
      have hlt : i * 512 < (s.inodes ino).size := by
        by_contra hcon
        apply hb
        rw [h.cb, hv, if_pos (by simp only [BLOCKSIZE]; omega)]
      have hcb : c.blockNum = logicalBlock s ino i := by
        rw [h.cb, hv, if_neg (by simp only [BLOCKSIZE]; omega)]
      have hw := h.within
      have he0 := h.e0
      have he : e = 16 * i := by
        rcases h.pos with ⟨p1, p2, _⟩ | ⟨p1, p2, p3, p4, p5, p6, p7, p8⟩
        · omega
        · omega
      have hin : InBlock s ino p i 0 { c with currentBlock := c.blockNum, curOff := 0 } := by
        refine ⟨le_refl _, by norm_num, h.i0, h.ci, hcb, hcb, ?_, by norm_num, ?_, h.cnf, ?_,
          ?_, ?_⟩
        · rcases h.pos with ⟨p1, p2, p3, _⟩ | ⟨p1, p2, p3, p4, p5, _⟩
          · simp only []; rw [p3, if_pos p1]
          · simp only []; rw [p5, if_neg (by omega)]
        · simp only []; rw [h.ctot, he]; ring
        · omega
        · rw [add_zero, ← he]; exact h.free
        · rw [add_zero, ← he]; exact h.noMatch
      have e16 : (BLOCKSIZE / DIRENTRYSIZE).toNat = 16 := by decide
      have hblocks : s.blocks c.blockNum = s.blocks (logicalBlock s ino i) := by rw [hcb]
      rw [e16, hblocks]
      rcases scanBlock_spec s ino p 16 i 0 _ hin (by norm_num) with ⟨k, hk⟩ | ⟨a2, ha, hstop⟩
      · rw [if_pos hk.found]
        exact Or.inl ⟨k, hk⟩
      · rw [if_neg (by rw [ha.cnf]; simp)]
        apply ih (i + 1) (16 * i + a2)
        · refine ⟨by have := h.i0; omega, ?_, ?_, ha.cnf, ?_, ?_, ha.within, ha.free,
            ha.noMatch, ?_⟩
          · simp only []; rw [ha.ci]
          · simp only []; rw [ha.ci]
          · simp only []; rw [ha.ctot]
          · have := h.i0; have := ha.a0; omega
          · right
            have := h.i0
            have := ha.a0
            have := ha.a16
            refine ⟨by omega, by omega, by omega, by omega, ?_, ?_, ?_, ?_⟩
            · simp only []; rw [ha.cb]; congr 1; ring
            · simp only []; rw [ha.ccur]; congr 1; ring
            · simp only []; rw [ha.coff]; ring
            · rcases hstop with h1 | h1
              · left; omega
              · right; exact h1
        · push_cast at hf; omega

theorem dirSearch_spec (s : FS) (ino : Int) (p : List Int) (hmap : Mapped s ino)
    (hsize : 0 ≤ (s.inodes ino).size) :
    (∃ k, FoundAt s ino p k (dirSearch s p ino)) ∨ SearchEnd s ino p (dirSearch s p ino) := by
  unfold dirSearch
  have e : (NUM_DIRECT + BLOCKSIZE / 4).toNat + 1 = 141 := by decide
  rw [e]
  apply searchDir_spec s ino p hmap 141 0 0
  · refine ⟨le_refl _, rfl, rfl, rfl, by simp [DIRENTRYSIZE], le_refl _, by simpa using hsize,
      ?_, ?_, Or.inl ⟨rfl, rfl, rfl, rfl, rfl⟩⟩
    · left; exact ⟨rfl, rfl, fun j j0 j1 => by omega⟩
    · intro k k0 k1; omega
  · norm_num

/-! ## The result of `getDirectoryEntry` after the search -/

theorem getDirectoryEntry_foundAt (s : FS) (p : List Int) (ino k : Int) (create : Bool)
    (h : FoundAt s ino p k (dirSearch s p ino)) :
    getDirectoryEntry s p ino create = (dirEntryOff k, dirEntryBlock s ino k, s) := by
  unfold getDirectoryEntry
  simp only [h.found, if_true, h.off, h.blk]

theorem getDirectoryEntry_searchEnd (s : FS) (p : List Int) (ino : Int)
    (h : SearchEnd s ino p (dirSearch s p ino)) :
    getDirectoryEntry s p ino false = (-1, 0, s) := by
  unfold getDirectoryEntry
  simp [h.nf, h.blk]

theorem searchEnd_of_noMatch (s : FS) (p : List Int) (ino : Int) (hmap : Mapped s ino)
    (hsize : 0 ≤ (s.inodes ino).size)
    (hno : ∀ k, 0 ≤ k → (k + 1) * DIRENTRYSIZE ≤ (s.inodes ino).size →
      dirEntryMatch s ino p k = false) :
    SearchEnd s ino p (dirSearch s p ino) := by
  rcases dirSearch_spec s ino p hmap hsize with ⟨k, hk⟩ | h
  · have := hno k hk.k0 (by simpa [DIRENTRYSIZE] using hk.kin)
    rw [hk.hit] at this
    exact absurd this (by simp)
  · exact h

/-! ## Appending an entry to a directory -/

theorem logicalBlock_frame (s s2 : FS) (ino j : Int)
    (hd : (s2.inodes ino).direct = (s.inodes ino).direct)
    (hi : (s2.inodes ino).indirect = (s.inodes ino).indirect)
    (hb : NUM_DIRECT ≤ j → s2.blocks (s.inodes ino).indirect = s.blocks (s.inodes ino).indirect) :
    logicalBlock s2 ino j = logicalBlock s ino j := by
  unfold logicalBlock
  by_cases h : j < NUM_DIRECT
  · rw [if_pos h, if_pos h, hd]
  · rw [if_neg h, if_neg h, hi, hb (by omega)]

theorem isEqual_congr (p : List Int) (e e2 : Int → Int)
    (h : ∀ i, 0 ≤ i → i < 30 → e2 i = e i) : isEqual p e2 = isEqual p e := by
  unfold isEqual
  apply isEqualLoop_congr
  intro j h0 h1
  have e30 : ((DIRNAMELEN.toNat : Nat) : Int) = 30 := by decide
  rw [e30] at h1
  exact h j h0 (by omega)

theorem dirEntryMatch_appended (s s2 : FS) (ino o blk : Int) (q : List Int)
    (ha : Appended s s2 ino o blk) (k : Int) (k0 : 0 ≤ k)
    (k1 : (k + 1) * 32 ≤ (s.inodes ino).size) :
    dirEntryBlock s2 ino k = dirEntryBlock s ino k ∧
    dirEntryMatch s2 ino q k = dirEntryMatch s ino q k := by
  have hb : dirEntryBlock s2 ino k = dirEntryBlock s ino k := by
    rw [dirEntryBlock_eq, dirEntryBlock_eq]
    exact ha.map (k / 16) (by omega) (by omega)
  refine ⟨hb, ?_⟩
  unfold dirEntryMatch
  rw [hb]
  apply isEqual_congr
  intro i i0 i1
  unfold entryName
  rw [dirEntryBlock_eq, dirEntryOff_eq]
  exact ha.names (k / 16) _ (by omega) (by omega) (by omega)

theorem mapped_appended (s s2 : FS) (ino o blk : Int) (ha : Appended s s2 ino o blk)
    (hmap : Mapped s ino) (h32 : (s.inodes ino).size % 32 = 0) : Mapped s2 ino := by
  intro j j0 j1
  rw [ha.size] at j1
  simp only [BLOCKSIZE] at j1
  by_cases hj : j * 512 < (s.inodes ino).size
  · rw [ha.map j j0 hj]
    exact hmap j j0 (by simpa [BLOCKSIZE] using hj)
  · have e : j = (s.inodes ino).size / 512 := by omega
    rw [e, ← ha.loc]
    exact ha.nz

theorem still_found_of_appended (s s2 : FS) (ino o blk : Int) (q : List Int)
    (ha : Appended s s2 ino o blk) (hmap : Mapped s ino)
    (hsize : 0 ≤ (s.inodes ino).size) (h32 : (s.inodes ino).size % 32 = 0)
    (hfound : (getDirectoryEntry s q ino false).1 ≠ -1) :
    getDirectoryEntry s2 q ino false =
      ((getDirectoryEntry s q ino false).1, (getDirectoryEntry s q ino false).2.1, s2) := by
  rcases dirSearch_spec s ino q hmap hsize with ⟨k, hk⟩ | hend
  swap
  · rw [getDirectoryEntry_searchEnd s q ino hend] at hfound
    exact absurd rfl hfound
  rw [getDirectoryEntry_foundAt s q ino k false hk]
  simp only []
  have hsame := dirEntryMatch_appended s s2 ino o blk q ha
  have hmap2 := mapped_appended s s2 ino o blk ha hmap h32
  have hk1 := hk.kin
  have hk0 := hk.k0
  rcases dirSearch_spec s2 ino q hmap2 (by rw [ha.size]; omega) with ⟨k2, hk2⟩ | hend2
  · have hkk : k2 = k := by
      by_contra hne
      rcases lt_or_gt_of_ne hne with h | h
      · have h1 := hk.first k2 hk2.k0 h
        rw [← (hsame k2 hk2.k0 (by omega)).2, hk2.hit] at h1
        exact absurd h1 (by simp)
      · have h1 := hk2.first k hk0 h
        rw [(hsame k hk0 hk1).2, hk.hit] at h1
        exact absurd h1 (by simp)
    rw [getDirectoryEntry_foundAt s2 q ino k2 false hk2, hkk, (hsame k hk0 hk1).1]
  · have h1 := hend2.noMatch k hk0 (by rw [ha.size]; omega)
    rw [(hsame k hk0 hk1).2, hk.hit] at h1
    exact absurd h1 (by simp)

theorem writeInt16_other (b : Bytes) (o v x : Int) (h0 : x ≠ o) (h1 : x ≠ o + 1) :
    writeInt16 b o v x = b x := by
  unfold writeInt16
  rw [if_neg h0, if_neg h1]

theorem append_inplace (s : FS) (ino : Int) (p : List Int) (hmap : Mapped s ino)
    (hend : SearchEnd s ino p (dirSearch s p ino))
    (hfb0 : (dirSearch s p ino).freeEntryBlockNum = 0)
    (hsize : 0 ≤ (s.inodes ino).size) (h32 : (s.inodes ino).size % 32 = 0)
    (h512 : (s.inodes ino).size % 512 ≠ 0)
    (hind : 6144 ≤ (s.inodes ino).size → ∀ j, 0 ≤ j → j * 512 < (s.inodes ino).size →
      logicalBlock s ino j ≠ (s.inodes ino).indirect) :
    Appended s (getDirectoryEntry s p ino true).2.2 ino (getDirectoryEntry s p ino true).1
      (getDirectoryEntry s p ino true).2.1 ∧
    (getDirectoryEntry s p ino true).2.2.freeBlocks = s.freeBlocks := by
  have hpos : 0 < (s.inodes ino).size := by omega
  obtain ⟨l1, l2, l3⟩ := hend.last hpos
  have hB : ((s.inodes ino).size - 1) / 512 = (s.inodes ino).size / 512 := by omega
  rw [hB] at l1 l2
  have hoff : (dirSearch s p ino).curOff = (s.inodes ino).size % 512 := by rw [l3]; omega
  have h512b : ¬ ((s.inodes ino).size % BLOCKSIZE = 0) := by simpa [BLOCKSIZE] using h512
  have hLin : (s.inodes ino).size / 512 * 512 < (s.inodes ino).size := by omega
  have hL0 : 0 ≤ (s.inodes ino).size / 512 := by omega
  have hres : getDirectoryEntry s p ino true =
      ((s.inodes ino).size % 512, logicalBlock s ino ((s.inodes ino).size / 512),
        saveBlock ((saveInode (s.setInode ino
            { s.inodes ino with size := (s.inodes ino).size + DIRENTRYSIZE }) ino).setBlock
          (logicalBlock s ino ((s.inodes ino).size / 512))
          (writeInt16 (s.blocks (logicalBlock s ino ((s.inodes ino).size / 512)))
            ((s.inodes ino).size % 512) 0))
          (logicalBlock s ino ((s.inodes ino).size / 512))) := by
    unfold getDirectoryEntry
    simp only [hend.nf, Bool.false_eq_true, if_false, if_true, hfb0, ne_eq, not_true_eq_false,
      h512b, hoff, l1, l2]
    rfl
  rw [hres]
  simp only []
  have hmapeq : ∀ j, 0 ≤ j → j * 512 < (s.inodes ino).size →
      logicalBlock (saveBlock ((saveInode (s.setInode ino
            { s.inodes ino with size := (s.inodes ino).size + DIRENTRYSIZE }) ino).setBlock
          (logicalBlock s ino ((s.inodes ino).size / 512))
          (writeInt16 (s.blocks (logicalBlock s ino ((s.inodes ino).size / 512)))
            ((s.inodes ino).size % 512) 0))
          (logicalBlock s ino ((s.inodes ino).size / 512))) ino j = logicalBlock s ino j := by
    intro j j0 j1
    apply logicalBlock_frame
    · simp [saveBlock, saveInode, FS.setInode, FS.setBlock]
    · simp [saveBlock, saveInode, FS.setInode, FS.setBlock]
    · intro hj
      simp only [NUM_DIRECT] at hj
      have hne := hind (by omega) _ hL0 hLin
      simp only [saveBlock, saveInode, FS.setInode, FS.setBlock]
      exact upd_ne _ _ _ _ (fun h => hne h.symm)
  refine ⟨⟨?_, ?_, rfl, ?_, ?_, hmapeq, ?_, ?_⟩, rfl⟩
  · simp [saveBlock, saveInode, FS.setInode, FS.setBlock, DIRENTRYSIZE]
  · simp [saveBlock, saveInode, FS.setInode, FS.setBlock]
  · exact (hmapeq _ hL0 hLin).symm
  · simp only [saveBlock, saveInode, FS.setInode, FS.setBlock, upd_same]
    exact readInt16_writeInt16_same _ _ _ (by norm_num) (by norm_num)
  · intro j x j0 j1 hx
    simp only [saveBlock, saveInode, FS.setInode, FS.setBlock]
    by_cases hjb : logicalBlock s ino j = logicalBlock s ino ((s.inodes ino).size / 512)
    · rw [hjb, upd_same, writeInt16_other _ _ _ _ (by omega) (by omega)]
    · rw [upd_ne _ _ _ _ hjb]
  · exact hmap _ hL0 (by simpa [BLOCKSIZE] using hLin)

theorem append_direct (s : FS) (ino : Int) (p : List Int) (b : Int) (rest : List Int)
    (hend : SearchEnd s ino p (dirSearch s p ino))
    (hfb0 : (dirSearch s p ino).freeEntryBlockNum = 0)
    (hsize : 0 ≤ (s.inodes ino).size) (h512 : (s.inodes ino).size % 512 = 0)
    (hnb : (s.inodes ino).size < 6144)
    (hf : s.freeBlocks = b :: rest) (hb0 : b ≠ 0) :
    Appended s (getDirectoryEntry s p ino true).2.2 ino (getDirectoryEntry s p ino true).1
      (getDirectoryEntry s p ino true).2.1 ∧
    (getDirectoryEntry s p ino true).2.2.freeBlocks = rest := by
  have hci : (dirSearch s p ino).i = (s.inodes ino).size / 512 := by rw [hend.ci]; omega
  have h512b : (s.inodes ino).size % BLOCKSIZE = 0 := by simpa [BLOCKSIZE] using h512
  have hgn := getNthBlock_new_direct s ino ((s.inodes ino).size / 512) b rest
    (by simp only [BLOCKSIZE]; omega) (by simp only [NUM_DIRECT]; omega) hf
  have hres : getDirectoryEntry s p ino true =
      (0, b, saveInode (saveBlock (((({ s with freeBlocks := rest }).setInode ino
          { s.inodes ino with
            direct := upd (s.inodes ino).direct ((s.inodes ino).size / 512) b }).setInode ino
          { s.inodes ino with
            direct := upd (s.inodes ino).direct ((s.inodes ino).size / 512) b,
            size := (s.inodes ino).size + DIRENTRYSIZE }).setBlock b
          (writeInt16 (s.blocks b) 0 0)) b) ino) := by
    unfold getDirectoryEntry
    simp only [hend.nf, Bool.false_eq_true, if_false, if_true, hfb0, ne_eq, not_true_eq_false,
      h512b, hci, hgn]
    simp [saveBlock, saveInode, FS.setInode, FS.setBlock]
  rw [hres]
  simp only []
  refine ⟨⟨?_, ?_, by omega, ?_, ?_, ?_, ?_, hb0⟩, rfl⟩
  · simp [saveBlock, saveInode, FS.setInode, FS.setBlock, DIRENTRYSIZE]
  · simp [saveBlock, saveInode, FS.setInode, FS.setBlock]
  · unfold logicalBlock
    rw [if_pos (by simp only [NUM_DIRECT]; omega)]
    simp [saveBlock, saveInode, FS.setInode, FS.setBlock]
  · simp only [saveBlock, saveInode, FS.setInode, FS.setBlock, upd_same]
    exact readInt16_writeInt16_same _ _ _ (by norm_num) (by norm_num)
  · intro j j0 j1
    unfold logicalBlock
    have hj : j < NUM_DIRECT := by simp only [NUM_DIRECT]; omega
    rw [if_pos hj, if_pos hj]
    simp only [saveBlock, saveInode, FS.setInode, FS.setBlock, upd_same]
    exact upd_ne _ _ _ _ (by omega)
  · intro j x j0 j1 hx
    simp only [saveBlock, saveInode, FS.setInode, FS.setBlock]
    by_cases hjb : logicalBlock s ino j = b
    · rw [hjb, upd_same, writeInt16_other _ _ _ _ (by omega) (by omega)]
    · rw [upd_ne _ _ _ _ hjb]

theorem append_indirect (s : FS) (ino : Int) (p : List Int) (b : Int) (rest : List Int)
    (hend : SearchEnd s ino p (dirSearch s p ino))
    (hfb0 : (dirSearch s p ino).freeEntryBlockNum = 0)
    (h512 : (s.inodes ino).size % 512 = 0)
    (hnb : 6144 ≤ (s.inodes ino).size) (hmax : (s.inodes ino).size < 71680)
    (hf : s.freeBlocks = b :: rest) (hb0 : b ≠ 0) (hb : isInt32 b)
    (hbT : b ≠ (s.inodes ino).indirect)
    (hind : ∀ j, 0 ≤ j → j * 512 < (s.inodes ino).size →
      logicalBlock s ino j ≠ (s.inodes ino).indirect) :
    Appended s (getDirectoryEntry s p ino true).2.2 ino (getDirectoryEntry s p ino true).1
      (getDirectoryEntry s p ino true).2.1 ∧
    (getDirectoryEntry s p ino true).2.2.freeBlocks = rest := by
  have hci : (dirSearch s p ino).i = (s.inodes ino).size / 512 := by rw [hend.ci]; omega
  have h512b : (s.inodes ino).size % BLOCKSIZE = 0 := by simpa [BLOCKSIZE] using h512
  have hn1 : ¬ (s.inodes ino).size / 512 < NUM_DIRECT := by simp only [NUM_DIRECT]; omega
  have hn2 : (s.inodes ino).size / 512 < NUM_DIRECT + BLOCKSIZE / 4 := by
    simp only [NUM_DIRECT, BLOCKSIZE]; omega
  have hgn := getNthBlock_new_indirect s ino ((s.inodes ino).size / 512) b rest
    (by simp only [BLOCKSIZE]; omega) hn1 hn2 hf hb
  have hres : getDirectoryEntry s p ino true =
      (0, b, saveInode (saveBlock (((({ s with freeBlocks := rest }).setBlock
            (s.inodes ino).indirect
            (writeInt32 (s.blocks (s.inodes ino).indirect)
              (4 * ((s.inodes ino).size / 512 - NUM_DIRECT)) b)).setInode ino
          { s.inodes ino with size := (s.inodes ino).size + DIRENTRYSIZE }).setBlock b
          (writeInt16 (s.blocks b) 0 0)) b) ino) := by
    unfold getDirectoryEntry
    simp only [hend.nf, Bool.false_eq_true, if_false, if_true, hfb0, ne_eq, not_true_eq_false,
      h512b, hci, hgn]
    simp [saveBlock, saveInode, FS.setInode, FS.setBlock, upd_ne _ _ _ _ hbT]
  rw [hres]
  simp only []
  have hTb : (s.inodes ino).indirect ≠ b := fun h => hbT h.symm
  refine ⟨⟨?_, ?_, by omega, ?_, ?_, ?_, ?_, hb0⟩, rfl⟩
  · simp [saveBlock, saveInode, FS.setInode, FS.setBlock, DIRENTRYSIZE]
  · simp [saveBlock, saveInode, FS.setInode, FS.setBlock]
  · unfold logicalBlock
    simp only [saveBlock, saveInode, FS.setInode, FS.setBlock, upd_same]
    rw [if_neg hn1, if_pos (by omega), upd_ne _ _ _ _ hTb, upd_same,
      readInt32_writeInt32_same _ _ _ hb.1 hb.2]
  · simp only [saveBlock, saveInode, FS.setInode, FS.setBlock, upd_same]
    exact readInt16_writeInt16_same _ _ _ (by norm_num) (by norm_num)
  · intro j j0 j1
    unfold logicalBlock
    simp only [saveBlock, saveInode, FS.setInode, FS.setBlock, upd_same]
    by_cases hj : j < NUM_DIRECT
    · rw [if_pos hj, if_pos hj]
    · rw [if_neg hj, if_neg hj]
      simp only [NUM_DIRECT, BLOCKSIZE] at hj ⊢
      rw [if_pos (by omega), if_pos (by omega), upd_ne _ _ _ _ hTb, upd_same,
        readInt32_writeInt32_other _ _ _ _ (by omega)]
  · intro j x j0 j1 hx
    simp only [saveBlock, saveInode, FS.setInode, FS.setBlock]
    have hjT := hind j j0 j1
    by_cases hjb : logicalBlock s ino j = b
    · rw [hjb, upd_same, writeInt16_other _ _ _ _ (by omega) (by omega)]
    · rw [upd_ne _ _ _ _ hjb, upd_ne _ _ _ _ hjT]

/-! ## The linked queue and the list of its items -/

theorem linkedFrom_frame (cell cell2 : Int → ItemCell) :
    ∀ (l : List Int) (prev cur last : Int), (∀ a ∈ l, cell2 a = cell a) →
      linkedFrom cell prev cur l last → linkedFrom cell2 prev cur l last := by
  intro l
  induction l with
  | nil => intro prev cur last _ h; exact h
  | cons x xs ih =>
    intro prev cur last hf h
    obtain ⟨h1, h2, h3, h4⟩ := h
    have hx := hf x (List.mem_cons_self _ _)
    refine ⟨h1, h2, by rw [hx]; exact h3, ?_⟩
    rw [hx]
    exact ih _ _ _ (fun a ha => hf a (List.mem_cons_of_mem _ ha)) h4

theorem linkedFrom_nonzero (cell : Int → ItemCell) :
    ∀ (l : List Int) (prev cur last : Int), linkedFrom cell prev cur l last →
      ∀ a ∈ l, a ≠ 0 := by
  intro l
  induction l with
  | nil => intro _ _ _ _ a ha; simp at ha
  | cons x xs ih =>
    intro prev cur last h a ha
    obtain ⟨_, h2, _, h4⟩ := h
    rcases List.mem_cons.mp ha with h | h
    · rw [h]; exact h2
    · exact ih _ _ _ h4 a h

theorem linkedFrom_last (cell : Int → ItemCell) :
    ∀ (l : List Int) (prev cur last : Int), linkedFrom cell prev cur l last → l ≠ [] →
      last ∈ l ∧ (cell last).nextItem = 0 := by
  intro l
  induction l with
  | nil => intro _ _ _ _ h; exact absurd rfl h
  | cons x xs ih =>
    intro prev cur last h _
    obtain ⟨_, _, _, h4⟩ := h
    cases xs with
    | nil =>
      obtain ⟨h5, h6⟩ := h4
      rw [h6]
      exact ⟨List.mem_cons_self _ _, h5⟩
    | cons y ys =>
      obtain ⟨i1, i2⟩ := ih _ _ _ h4 (by simp)
      exact ⟨List.mem_cons_of_mem _ i1, i2⟩

theorem removeFront_spec (m : QueueMem) (x : Int) (xs : List Int) (h : IsQueue m (x :: xs)) :
    m.removeItemFromFrontOfQueue.1 = x ∧ IsQueue m.removeItemFromFrontOfQueue.2 xs ∧
    (∀ a, (m.removeItemFromFrontOfQueue.2.cell a).number = (m.cell a).number) := by
  obtain ⟨⟨h1, h2, h3, h4⟩, hnd⟩ := h
  rw [List.nodup_cons] at hnd
  cases xs with
  | nil =>
    obtain ⟨h5, h6⟩ := h4
    have hres : m.removeItemFromFrontOfQueue =
        (x, { cell := upd m.cell x { m.cell x with prevItem := 0 }, firstItem := 0,
              lastItem := 0 }) := by
      unfold QueueMem.removeItemFromFrontOfQueue
      simp only [h1, h2, if_false, h5, if_true, upd_same, ne_eq, not_true_eq_false]
    rw [hres]
    refine ⟨rfl, ⟨⟨rfl, rfl⟩, List.nodup_nil⟩, ?_⟩
    intro a
    simp only []
    by_cases ha : a = x
    · rw [ha, upd_same]
    · rw [upd_ne _ _ _ _ ha]
  | cons y ys =>
    obtain ⟨h5, h6, h7, h8⟩ := h4
    have hxy : x ≠ y := fun he => hnd.1 (by rw [he]; exact List.mem_cons_self _ _)
    have hyx : y ≠ x := fun he => hxy he.symm
    have hn0 : ¬ (m.cell x).nextItem = 0 := by rw [h5]; exact h6
    have hres : m.removeItemFromFrontOfQueue =
        (x, { cell := upd (upd m.cell x { m.cell x with prevItem := 0 }) y
                { m.cell y with prevItem := 0 },
              firstItem := y, lastItem := m.lastItem }) := by
      unfold QueueMem.removeItemFromFrontOfQueue
      simp only [h1, h2, if_false, hn0, upd_same, h5, ne_eq, h6, not_false_eq_true, if_true,
        upd_ne _ _ _ _ hyx]
    rw [hres]
    have hnd2 := hnd.2
    rw [List.nodup_cons] at hnd2
    refine ⟨rfl, ⟨⟨rfl, h6, ?_, ?_⟩, hnd.2⟩, ?_⟩
    · simp only []; rw [upd_same]
    · simp only []
      rw [upd_same]
      simp only []
      apply linkedFrom_frame m.cell _ ys _ _ _ _ h8
      intro a ha
      have hay : a ≠ y := fun he => hnd2.1 (by rw [← he]; exact ha)
      have hax : a ≠ x := fun he => hnd.1 (by rw [← he]; exact List.mem_cons_of_mem _ ha)
      rw [upd_ne _ _ _ _ hay, upd_ne _ _ _ _ hax]
    · intro a
      simp only []
      by_cases hay : a = y
      · rw [hay, upd_same]
      · rw [upd_ne _ _ _ _ hay]
        by_cases hax : a = x
        · rw [hax, upd_same]
        · rw [upd_ne _ _ _ _ hax]

theorem linkedFrom_append (cell cell3 : Int → ItemCell) (x last : Int)
    (hx_prev : (cell3 x).prevItem = last) (hx_next : (cell3 x).nextItem = 0)
    (hl_next : (cell3 last).nextItem = x)
    (hprev : ∀ a, a ≠ x → (cell3 a).prevItem = (cell a).prevItem)
    (hnext : ∀ a, a ≠ x → a ≠ last → (cell3 a).nextItem = (cell a).nextItem)
    (hx0 : x ≠ 0) :
    ∀ (l : List Int) (prev cur : Int), linkedFrom cell prev cur l last → l ≠ [] → l.Nodup →
      x ∉ l → linkedFrom cell3 prev cur (l ++ [x]) x := by
  intro l
  induction l with
  | nil => intro _ _ _ h; exact absurd rfl h
  | cons y ys ih =>
    intro prev cur h _ hnd hx
    obtain ⟨h1, h2, h3, h4⟩ := h
    have hyx : y ≠ x := fun he => hx (by rw [he]; exact List.mem_cons_self _ _)
    rw [List.nodup_cons] at hnd
    cases ys with
    | nil =>
      obtain ⟨h5, h6⟩ := h4
      rw [h6] at hl_next hx_prev
      exact ⟨h1, h2, by rw [hprev y hyx]; exact h3, hl_next, hx0, hx_prev, hx_next, rfl⟩
    | cons z zs =>
      have hl := linkedFrom_last cell (z :: zs) _ _ _ h4 (by simp)
      have hyl : y ≠ last := fun he => hnd.1 (by rw [he]; exact hl.1)
      have i1 := ih y (cell y).nextItem h4 (by simp) hnd.2
        (fun hm => hx (List.mem_cons_of_mem _ hm))
      refine ⟨h1, h2, by rw [hprev y hyx]; exact h3, ?_⟩
      rw [hnext y hyx hyl]
      exact i1

theorem addItemEndQueue_spec (m : QueueMem) (l : List Int) (x : Int) (h : IsQueue m l)
    (hx : x ∉ l) (hx0 : x ≠ 0) :
    IsQueue (m.addItemEndQueue x true) (l ++ [x]) ∧
    (∀ a, ((m.addItemEndQueue x true).cell a).number = (m.cell a).number) := by
  obtain ⟨hl, hnd⟩ := h
  have hnd2 : (l ++ [x]).Nodup := by
    rw [List.nodup_append]
    refine ⟨hnd, List.nodup_singleton x, ?_⟩
    intro a ha hb
    rw [List.mem_singleton] at hb
    rw [hb] at ha
    exact hx ha
  cases l with
  | nil =>
    obtain ⟨h1, h2⟩ := hl
    have hres : m.addItemEndQueue x true =
        { cell := upd (upd m.cell x { m.cell x with nextItem := 0 }) x
            { number := (m.cell x).number, prevItem := 0, nextItem := 0 },
          firstItem := x, lastItem := x } := by
      unfold QueueMem.addItemEndQueue
      simp only [h1, if_true, upd_same]
    rw [hres]
    refine ⟨⟨⟨rfl, hx0, ?_, ?_, rfl⟩, hnd2⟩, ?_⟩
    · simp only []; rw [upd_same]
    · simp only []; rw [upd_same]
    · intro a
      simp only []
      by_cases ha : a = x
      · rw [ha, upd_same]
      · rw [upd_ne _ _ _ _ ha, upd_ne _ _ _ _ ha]
  | cons y ys =>
    have hf : ¬ m.firstItem = 0 := by rw [hl.1]; exact hl.2.1
    have hlast := linkedFrom_last m.cell (y :: ys) _ _ _ hl (by simp)
    have hxl : x ≠ m.lastItem := fun he => hx (by rw [he]; exact hlast.1)
    have hres : m.addItemEndQueue x true =
        { cell := upd (upd (upd m.cell m.lastItem { m.cell m.lastItem with nextItem := x }) x
              { m.cell x with prevItem := m.lastItem }) x
            { number := (m.cell x).number, prevItem := m.lastItem, nextItem := 0 },
          firstItem := m.firstItem, lastItem := x } := by
      unfold QueueMem.addItemEndQueue
      simp only [hf, if_false, upd_same, upd_ne _ _ _ _ hxl]
    rw [hres]
    refine ⟨⟨?_, hnd2⟩, ?_⟩
    · simp only []
      apply linkedFrom_append m.cell _ x m.lastItem _ _ _ _ _ hx0 (y :: ys) 0 m.firstItem hl
        (by simp) hnd hx
      · rw [upd_same]
      · rw [upd_same]
      · rw [upd_ne _ _ _ _ (fun he => hxl he.symm), upd_ne _ _ _ _ (fun he => hxl he.symm),
          upd_same]
      · intro a ha
        rw [upd_ne _ _ _ _ ha, upd_ne _ _ _ _ ha]
        by_cases hal : a = m.lastItem
        · rw [hal, upd_same]
        · rw [upd_ne _ _ _ _ hal]
      · intro a ha hal
        rw [upd_ne _ _ _ _ ha, upd_ne _ _ _ _ ha, upd_ne _ _ _ _ hal]
    · intro a
      simp only []
      by_cases ha : a = x
      · rw [ha, upd_same]
      · rw [upd_ne _ _ _ _ ha, upd_ne _ _ _ _ ha]
        by_cases hal : a = m.lastItem
        · rw [hal, upd_same]
        · rw [upd_ne _ _ _ _ hal]

theorem linkedFrom_at (cell : Int → ItemCell) (w x last : Int) (post : List Int) :
    ∀ (pre : List Int) (prev cur : Int),
      linkedFrom cell prev cur (pre ++ w :: x :: post) last →
      (cell w).nextItem = x ∧ (cell x).prevItem = w ∧ w ≠ 0 ∧ x ≠ 0 ∧
        linkedFrom cell x (cell x).nextItem post last := by
  intro pre
  induction pre with
  | nil =>
    intro prev cur h
    obtain ⟨_, h2, _, h4, h5, h6, h7⟩ := h
    exact ⟨h4, h6, h2, h5, h7⟩
  | cons u us ih =>
    intro prev cur h
    exact ih _ _ h.2.2.2

theorem linkedFrom_remove (cell cell2 : Int → ItemCell) (w x last last2 : Int)
    (post : List Int) (hw_prev : (cell2 w).prevItem = (cell w).prevItem)
    (htail : linkedFrom cell2 w (cell2 w).nextItem post last2) :
    ∀ (pre : List Int) (prev cur : Int), (∀ a ∈ pre, cell2 a = cell a) →
      linkedFrom cell prev cur (pre ++ w :: x :: post) last →
      linkedFrom cell2 prev cur (pre ++ w :: post) last2 := by
  intro pre
  induction pre with
  | nil =>
    intro prev cur _ h
    obtain ⟨h1, h2, h3, _⟩ := h
    exact ⟨h1, h2, by rw [hw_prev]; exact h3, htail⟩
  | cons u us ih =>
    intro prev cur hpre h
    obtain ⟨h1, h2, h3, h4⟩ := h
    have hu := hpre u (List.mem_cons_self _ _)
    refine ⟨h1, h2, by rw [hu]; exact h3, ?_⟩
    rw [hu]
    exact ih _ _ (fun a ha => hpre a (List.mem_cons_of_mem _ ha)) h4

theorem erase_middle (pre post : List Int) (x : Int) (hx : x ∉ pre) :
    (pre ++ x :: post).erase x = pre ++ post := by
  rw [List.erase_append_right _ hx, List.erase_cons_head]

theorem removeItemFromQueue_linked (m : QueueMem) (l : List Int) (x : Int) (h : IsQueue m l)
    (hx : x ∈ l) :
    IsQueue (m.removeItemFromQueue x) (l.erase x) ∧
    (∀ a, ((m.removeItemFromQueue x).cell a).number = (m.cell a).number) := by
  obtain ⟨pre0, post, hl⟩ := List.append_of_mem hx
  subst hl
  obtain ⟨hlk, hnd⟩ := h
  have hnd0 := hnd
  rw [List.nodup_append] at hnd
  obtain ⟨n1, n2, n3⟩ := hnd
  have hxpre : x ∉ pre0 := fun hm => n3 hm (List.mem_cons_self _ _)
  rw [erase_middle pre0 post x hxpre]
  have hnd2 : (pre0 ++ post).Nodup := by
    rw [List.nodup_append]
    exact ⟨n1, (List.nodup_cons.mp n2).2, fun a ha hb => n3 ha (List.mem_cons_of_mem _ hb)⟩
  rcases List.eq_nil_or_concat pre0 with hp | ⟨pre, w, hp⟩
  · subst hp
    have hprev : (m.cell x).prevItem = 0 := hlk.2.2.1
    have hq : IsQueue m (x :: post) := ⟨hlk, hnd0⟩
    obtain ⟨_, r2, r3⟩ := removeFront_spec m x post hq
    unfold QueueMem.removeItemFromQueue
    rw [if_pos hprev]
    exact ⟨r2, r3⟩
  · subst hp
    rw [List.concat_eq_append, List.append_assoc, List.singleton_append] at hlk
    obtain ⟨a1, a2, a3, a4, a5⟩ := linkedFrom_at m.cell w x m.lastItem post pre 0 m.firstItem hlk
    have hprev : ¬ (m.cell x).prevItem = 0 := by rw [a2]; exact a3
    have hwx : w ≠ x := fun he => hxpre (by rw [← he]; simp)
    have hxw : x ≠ w := fun he => hwx he.symm
    have hwpre : w ∉ pre := by
      intro hm
      rw [List.concat_eq_append, List.nodup_append] at n1
      exact n1.2.2 hm (List.mem_singleton_self w)
    have hbefore : ∀ a ∈ pre, a ≠ w ∧ a ∉ post := by
      intro a ha
      refine ⟨fun he => hwpre (by rw [← he]; exact ha), fun hb => ?_⟩
      exact n3 (by rw [List.concat_eq_append]; exact List.mem_append_left _ ha)
        (List.mem_cons_of_mem _ hb)
    have hwpost : w ∉ post := fun hb =>
      n3 (by rw [List.concat_eq_append]; simp) (List.mem_cons_of_mem _ hb)
    rw [List.concat_eq_append, List.append_assoc, List.singleton_append] at hnd2 ⊢
    cases post with
    | nil =>
      obtain ⟨b1, b2⟩ := a5
      have hres : m.removeItemFromQueue x =
          { cell := upd m.cell w { m.cell w with nextItem := 0 },
            firstItem := m.firstItem, lastItem := w } := by
        unfold QueueMem.removeItemFromQueue
        simp only [a2, a3, if_false, b1, if_true, upd_ne _ _ _ _ hxw, ne_eq,
          not_true_eq_false]
      rw [hres]
      refine ⟨⟨?_, hnd2⟩, ?_⟩
      · simp only []
        apply linkedFrom_remove m.cell _ w x m.lastItem w [] _ _ pre 0 m.firstItem _ hlk
        · rw [upd_same]
        · rw [upd_same]; exact ⟨rfl, rfl⟩
        · intro a ha
          exact upd_ne _ _ _ _ (hbefore a ha).1
      · intro a
        simp only []
        by_cases ha : a = w
        · rw [ha, upd_same]
        · rw [upd_ne _ _ _ _ ha]
    | cons y ys =>
      obtain ⟨b1, b2, b3, b4⟩ := a5
      have hn0 : ¬ (m.cell x).nextItem = 0 := by rw [b1]; exact b2
      have hyw : y ≠ w := fun he => hwpost (by rw [← he]; exact List.mem_cons_self _ _)
      have hwy : w ≠ y := fun he => hyw he.symm
      have hnd3 := (List.nodup_cons.mp n2).2
      rw [List.nodup_cons] at hnd3
      have hres : m.removeItemFromQueue x =
          { cell := upd (upd m.cell w { m.cell w with nextItem := y }) y
              { m.cell y with prevItem := w },
            firstItem := m.firstItem, lastItem := m.lastItem } := by
        unfold QueueMem.removeItemFromQueue
        simp only [a2, a3, if_false, hn0, b1, upd_ne _ _ _ _ hxw, ne_eq, b2,
          not_false_eq_true, if_true, upd_ne _ _ _ _ hyw]
      rw [hres]
      refine ⟨⟨?_, hnd2⟩, ?_⟩
      · simp only []
        apply linkedFrom_remove m.cell _ w x m.lastItem m.lastItem (y :: ys) _ _ pre 0
          m.firstItem _ hlk
        · rw [upd_ne _ _ _ _ hwy, upd_same]
        · rw [upd_ne _ _ _ _ hwy, upd_same]
          refine ⟨rfl, b2, by rw [upd_same], ?_⟩
          rw [upd_same]
          simp only []
          apply linkedFrom_frame m.cell _ ys _ _ _ _ b4
          intro a ha
          have hay : a ≠ y := fun he => hnd3.1 (by rw [← he]; exact ha)
          have haw : a ≠ w := fun he => hwpost (by rw [← he]; exact List.mem_cons_of_mem _ ha)
          rw [upd_ne _ _ _ _ hay, upd_ne _ _ _ _ haw]
        · intro a ha
          have h1 := (hbefore a ha).1
          have h2 : a ≠ y := fun he => (hbefore a ha).2 (by rw [he]; exact List.mem_cons_self _ _)
          rw [upd_ne _ _ _ _ h2, upd_ne _ _ _ _ h1]
      · intro a
        simp only []
        by_cases hay : a = y
        · rw [hay, upd_same]
        · rw [upd_ne _ _ _ _ hay]
          by_cases haw : a = w
          · rw [haw, upd_same]
          · rw [upd_ne _ _ _ _ haw]

/-! ## Reading and writing (C1, C2, C3) -/

/-- C2: `yfsRead` equals its reference definition. For an inode of size `s` whose
logical blocks below the size are all mapped to non-zero block numbers, a non-null
`buf`, `inodeNum > 0`, `size ≥ 0`, `byteOffset ≥ 0` and `CopyTo` succeeding, the result
is `ERROR` when `byteOffset > s` and `min size (s - byteOffset)` otherwise (so 0 when
`byteOffset = s`), and the bytes handed to the client at `buf` are exactly the file
bytes `[byteOffset, byteOffset + result)`, file byte `k` being byte `k mod BLOCKSIZE`
of logical block `k / BLOCKSIZE`; the rest of the client's memory is unchanged. -/
theorem yfsRead_eq_reference (s : FS) (mem : Bytes) (copyOk : Int → Bool)
    (inodeNum buf size byteOffset : Int)
    (hbuf : buf ≠ 0) (hino : 0 < inodeNum) (hsize : 0 ≤ size) (hoff : 0 ≤ byteOffset)
    (hcopy : ∀ j, copyOk j = true)
    (hmap : ∀ j, 0 ≤ j → j * BLOCKSIZE < (s.inodes inodeNum).size →
      logicalBlock s inodeNum j ≠ 0) :
    (yfsRead s mem copyOk inodeNum buf size byteOffset).1
        = readResult (s.inodes inodeNum).size size byteOffset ∧
      (byteOffset = (s.inodes inodeNum).size →
        (yfsRead s mem copyOk inodeNum buf size byteOffset).1 = 0) ∧
      (byteOffset ≤ (s.inodes inodeNum).size →
        ∀ a, (yfsRead s mem copyOk inodeNum buf size byteOffset).2 a =
          if buf ≤ a ∧ a < buf + (yfsRead s mem copyOk inodeNum buf size byteOffset).1
          then fileByte s inodeNum (byteOffset + (a - buf)) else mem a) := by
  rw [yfsRead_spec s mem copyOk inodeNum buf size byteOffset hbuf hino hsize hoff hcopy hmap]
  unfold readResult
  refine ⟨?_, ?_, ?_⟩
  · by_cases h : byteOffset > (s.inodes inodeNum).size <;> simp [h]
  · intro h
    have : ¬ (byteOffset > (s.inodes inodeNum).size) := by omega
    simp only [this, if_false]
    omega
  · intro h a
    have : ¬ (byteOffset > (s.inodes inodeNum).size) := by omega
    simp only [this, if_false]

/-- A read of three bytes at offset 1 of the file `hello` hands `ell` to the client. -/
theorem yfsRead_eq_reference_witness :
    (yfsRead fsFile zeroBlock copyAlways 2 200 3 1).1 = readResult (fsFile.inodes 2).size 3 1 ∧
      ((1 : Int) = (fsFile.inodes 2).size →
        (yfsRead fsFile zeroBlock copyAlways 2 200 3 1).1 = 0) ∧
      ((1 : Int) ≤ (fsFile.inodes 2).size →
        ∀ a, (yfsRead fsFile zeroBlock copyAlways 2 200 3 1).2 a =
          if 200 ≤ a ∧ a < 200 + (yfsRead fsFile zeroBlock copyAlways 2 200 3 1).1
          then fileByte fsFile 2 (1 + (a - 200)) else zeroBlock a) :=
  yfsRead_eq_reference fsFile zeroBlock copyAlways 2 200 3 1 (by decide) (by decide)
    (by decide) (by decide) (fun _ => rfl)
    (by
      intro j hj0 hj1
      have hsz : (fsFile.inodes 2).size = 5 := by decide!
      rw [hsz] at hj1
      have hj : j = 0 := by simp only [BLOCKSIZE] at hj1; omega
      subst hj
      decide!)

/-- C6 (failing input): in `fsLink` the root directory holds the entry `s` of a
symbolic link (inode 2) whose target `t` resolves to the directory with inode 3, and `f`
has an in-use entry in that directory that refers to the regular file with inode 4; yet
`getPathInodeNumber("s/f", root)` and `yfsOpen` of that path return 3, the directory
the link expands to, not the inode 4 of `f`: after the expansion the rest of the path
is skipped up to its next `/` once more. -/
theorem symlink_mid_path_skips_component :
    (fsLink.inodes 1).type = INODE_DIRECTORY ∧
      dirLookup fsLink 1 (str "s") = 2 ∧ (fsLink.inodes 2).type = INODE_SYMLINK ∧
      blockString (fsLink.blocks ((fsLink.inodes 2).direct 0)) = str "t" ∧
      (getPathInodeNumber fsLink (str "t") 1).1 = 3 ∧
      (fsLink.inodes 3).type = INODE_DIRECTORY ∧
      dirLookup fsLink 3 (str "f") = 4 ∧ (fsLink.inodes 4).type = INODE_REGULAR ∧
      (getPathInodeNumber fsLink (str "s/f") 1).1 = 3 ∧
      (yfsOpen fsLink (str "s/f") 1).1 = 3 ∧
      (getPathInodeNumber fsLink (str "t/f") 1).1 = 4 := by
  decide!

/-- C4 (failing input): in `fsLink` the containing directory of the path `s/g` resolves
to the directory with inode 3, the leaf `g` has no entry there and the free inode list
has the head 5; `yfsCreate` returns 5 and makes inode 5 a regular file with `nlink = 1`
and size 0, but `yfsOpen` of the same path returns 3, the directory, and not 5. -/
theorem create_then_open_through_symlink :
    (getContainingDirectory fsLink (str "s/g") 1).1 = 3 ∧
      (getContainingDirectory fsLink (str "s/g") 1).2.1 = str "g" ∧
      (fsLink.inodes 3).type = INODE_DIRECTORY ∧
      dirLookup fsLink 3 (str "g") = 0 ∧ fsLink.freeInodes.head? = some 5 ∧
      (yfsCreate fsLink (str "s/g") 1 CREATE_NEW).1 = 5 ∧
      ((yfsCreate fsLink (str "s/g") 1 CREATE_NEW).2.inodes 5).type = INODE_REGULAR ∧
      ((yfsCreate fsLink (str "s/g") 1 CREATE_NEW).2.inodes 5).nlink = 1 ∧
      ((yfsCreate fsLink (str "s/g") 1 CREATE_NEW).2.inodes 5).size = 0 ∧
      dirLookup (yfsCreate fsLink (str "s/g") 1 CREATE_NEW).2 3 (str "g") = 5 ∧
      (yfsOpen (yfsCreate fsLink (str "s/g") 1 CREATE_NEW).2 (str "s/g") 1).1 = 3 := by
  decide!

/-- C8 (failing input): on the freshly formatted file system `fsFresh`, whose root
directory holds `.` and `..`, `yfsOpen` and `yfsChDir` of the paths `/` and `//` return
`ERROR`, not `ROOTINODE`: the path left after the leading slashes is empty, and the
empty name is looked up in the root directory, where no entry has it. -/
theorem root_path_is_error :
    (fsFresh.inodes ROOTINODE).type = INODE_DIRECTORY ∧
      (yfsOpen fsFresh (str "/") 1).1 = ERROR ∧ (yfsChDir fsFresh (str "/") 1).1 = ERROR ∧
      (yfsOpen fsFresh (str "//") 3).1 = ERROR ∧ (yfsChDir fsFresh (str "//") 3).1 = ERROR ∧
      (yfsOpen fsFresh (str "/.") 1).1 = ROOTINODE := by
  decide!

/-- C9 (failing input): in `fsLink` the name `s` is a symbolic link (inode 2) to the
directory with inode 3. `getPathInodeNumber("s", root)` follows the link and yields 3,
but `getPathInodeNumber("s/", root)` and `getPathInodeNumber("s//", root)` yield 2, the
inode of the link itself. For the directory `t` the three paths agree. -/
theorem trailing_slash_on_symlink :
    (getPathInodeNumber { fsLink with numSymLinks := 0 } (str "s") 1).1 = 3 ∧
      (getPathInodeNumber { fsLink with numSymLinks := 0 } (str "s/") 1).1 = 2 ∧
      (getPathInodeNumber { fsLink with numSymLinks := 0 } (str "s//") 1).1 = 2 ∧
      (fsLink.inodes 2).type = INODE_SYMLINK ∧
      (getPathInodeNumber { fsLink with numSymLinks := 0 } (str "t") 1).1 = 3 ∧
      (getPathInodeNumber { fsLink with numSymLinks := 0 } (str "t/") 1).1 = 3 ∧
      (getPathInodeNumber { fsLink with numSymLinks := 0 } (str "t//") 1).1 = 3 := by
  decide!

/-- C10 (failing input): in `fsDir` the regular file `/a` has inode 2, `nlink = 1` and
the contents `hello`, and the current directory is `d` (inode 3), where the name `b`
does not exist. `yfsLink("/a", "b", 3)` returns 0 and makes `nlink = 2`, and
`yfsUnlink("/a", 3)` returns 0 and makes `nlink = 1`; but `yfsOpen("b", 3)` returns
`ERROR`: the entry `b` was made in the root directory, because `yfsLink` keeps
`ROOTINODE` as the current directory once the old name began with `/`. -/
theorem link_absolute_old_name_moves_new_name :
    dirLookup fsDir 1 (str "a") = 2 ∧ (fsDir.inodes 2).type = INODE_REGULAR ∧
      (fsDir.inodes 2).nlink = 1 ∧ (fsDir.inodes 3).type = INODE_DIRECTORY ∧
      dirLookup fsDir 3 (str "b") = 0 ∧
      (yfsLink fsDir (str "/a") (str "b") 3).1 = 0 ∧
      ((yfsLink fsDir (str "/a") (str "b") 3).2.inodes 2).nlink = 2 ∧
      (yfsUnlink (yfsLink fsDir (str "/a") (str "b") 3).2 (str "/a") 3).1 = 0 ∧
      ((yfsUnlink (yfsLink fsDir (str "/a") (str "b") 3).2 (str "/a") 3).2.inodes 2).nlink = 1 ∧
      (yfsOpen (yfsUnlink (yfsLink fsDir (str "/a") (str "b") 3).2 (str "/a") 3).2
        (str "b") 3).1 = ERROR ∧
      dirLookup (yfsUnlink (yfsLink fsDir (str "/a") (str "b") 3).2 (str "/a") 3).2 3
        (str "b") = 0 ∧
      dirLookup (yfsUnlink (yfsLink fsDir (str "/a") (str "b") 3).2 (str "/a") 3).2 1
        (str "b") = 2 := by
  decide!

/-! ## Create of an existing name (C5) -/

/-- C5 (amended): create of an existing name truncates. For every current directory
`cwd > 0` and every path shorter than `MAXPATHNAMELEN` that does not end in `/`, whose
containing directory resolves to a directory in which the leaf entry refers to an
inode `i` (non-zero) that is not a directory and whose logical blocks
`0 .. ceil(size / BLOCKSIZE) - 1` are all mapped to non-zero block numbers,
`yfsCreate(path, cwd, CREATE_NEW)` returns `i`, sets the size of inode `i` to 0 and
leaves its other fields, marks it dirty, pushes the block numbers of these logical
blocks onto the free block list (block 0 first), allocates no inode, changes no block
(so the directory entry keeps its inum and name) and no other inode (so the directory
keeps its size). -/
theorem yfsCreate_existing_truncates (s : FS) (path : List Int) (cwd i : Int)
    (hcwd : 0 < cwd) (hlen : ((cstr path).length : Int) < MAXPATHNAMELEN)
    (hfmt : endsWithSlash path = false)
    (hdir : (getContainingDirectory s path cwd).1 ≠ ERROR)
    (hD : (s.inodes (getContainingDirectory s path cwd).1).type = INODE_DIRECTORY)
    (hentry : dirLookup s (getContainingDirectory s path cwd).1
      (getContainingDirectory s path cwd).2.1 = i)
    (hi : i ≠ 0) (hnd : (s.inodes i).type ≠ INODE_DIRECTORY)
    (hmap : ∀ j, 0 ≤ j → j * BLOCKSIZE < (s.inodes i).size → logicalBlock s i j ≠ 0) :
    (yfsCreate s path cwd CREATE_NEW).1 = i ∧
      (yfsCreate s path cwd CREATE_NEW).2.inodes i = { s.inodes i with size := 0 } ∧
      (yfsCreate s path cwd CREATE_NEW).2.inodeDirty i = true ∧
      (yfsCreate s path cwd CREATE_NEW).2.freeBlocks
        = (fileBlocks s i).reverse ++ s.freeBlocks ∧
      (yfsCreate s path cwd CREATE_NEW).2.freeInodes = s.freeInodes ∧
      (yfsCreate s path cwd CREATE_NEW).2.blocks = s.blocks ∧
      (∀ k, k ≠ i → (yfsCreate s path cwd CREATE_NEW).2.inodes k = s.inodes k) ∧
      ((yfsCreate s path cwd CREATE_NEW).2.inodes (getContainingDirectory s path cwd).1).size
        = (s.inodes (getContainingDirectory s path cwd).1).size := by
  obtain ⟨n, hn⟩ := getContainingDirectory_state s path cwd
  obtain ⟨hfound, hinum⟩ := dirLookup_found s _ i _ hentry hi
  have hsame : dirSearch (getContainingDirectory s path cwd).2.2
      (getContainingDirectory s path cwd).2.1 (getContainingDirectory s path cwd).1
      = dirSearch s (getContainingDirectory s path cwd).2.1
        (getContainingDirectory s path cwd).1 := by
    apply dirSearch_same <;> rw [hn]
  have hfound2 : (dirSearch (getContainingDirectory s path cwd).2.2
      (getContainingDirectory s path cwd).2.1 (getContainingDirectory s path cwd).1).isFound
      = true := by rw [hsame]; exact hfound
  have hmap2 : ∀ j, 0 ≤ j →
      j * BLOCKSIZE < ((getContainingDirectory s path cwd).2.2.inodes i).size →
      logicalBlock (getContainingDirectory s path cwd).2.2 i j ≠ 0 := by
    intro j hj0 hj1
    rw [logicalBlock_same s _ i j (by rw [hn]) (by rw [hn])]
    rw [hn] at hj1
    exact hmap j hj0 hj1
  have hDi : (getContainingDirectory s path cwd).1 ≠ i := by
    intro h
    rw [h] at hD
    exact hnd hD
  have hres : yfsCreate s path cwd CREATE_NEW
      = (i, saveInode (clearFile (getContainingDirectory s path cwd).2.2 i) i) := by
    unfold yfsCreate
    have h1 : ¬ (cwd ≤ 0) := by omega
    have h2 : ¬ (((cstr path).length : Int) ≥ MAXPATHNAMELEN) := by omega
    have h3 : ((getContainingDirectory s path cwd).2.2.inodes
        (getContainingDirectory s path cwd).1).type = INODE_DIRECTORY := by
      rw [hn]; exact hD
    have h4 : readInt16
        ((getContainingDirectory s path cwd).2.2.blocks
          (dirSearch s (getContainingDirectory s path cwd).2.1
            (getContainingDirectory s path cwd).1).blockNum)
        (dirSearch s (getContainingDirectory s path cwd).2.1
          (getContainingDirectory s path cwd).1).curOff = i := by
      rw [hn]; exact hinum
    simp only [h1, h2, hfmt, hdir, h3, if_false, ne_eq, not_true_eq_false, Bool.false_eq_true,
      getDirectoryEntry_found _ _ _ true hfound2, hsame, h4, hi, not_false_eq_true, if_true,
      CREATE_NEW]
  rw [hres, clearFile_spec _ i hmap2, hn]
  refine ⟨rfl, ?_, ?_, ?_, rfl, rfl, ?_, ?_⟩
  · simp [saveInode, FS.setInode]
  · simp [saveInode]
  · simp [saveInode, FS.setInode, fileBlocks, logicalBlock]
  · intro k hk
    simp [saveInode, FS.setInode, upd_ne _ _ _ _ hk]
  · simp [saveInode, FS.setInode, upd_ne _ _ _ _ hDi]

/-- Create of the existing name `a` in the root directory of `fsDir` truncates the
file `hello`. -/
theorem yfsCreate_existing_truncates_witness :
    (yfsCreate fsDir (str "/a") 3 CREATE_NEW).1 = 2 ∧
      (yfsCreate fsDir (str "/a") 3 CREATE_NEW).2.inodes 2 = { fsDir.inodes 2 with size := 0 } ∧
      (yfsCreate fsDir (str "/a") 3 CREATE_NEW).2.inodeDirty 2 = true ∧
      (yfsCreate fsDir (str "/a") 3 CREATE_NEW).2.freeBlocks
        = (fileBlocks fsDir 2).reverse ++ fsDir.freeBlocks ∧
      (yfsCreate fsDir (str "/a") 3 CREATE_NEW).2.freeInodes = fsDir.freeInodes ∧
      (yfsCreate fsDir (str "/a") 3 CREATE_NEW).2.blocks = fsDir.blocks ∧
      (∀ k, k ≠ 2 → (yfsCreate fsDir (str "/a") 3 CREATE_NEW).2.inodes k = fsDir.inodes k) ∧
      ((yfsCreate fsDir (str "/a") 3 CREATE_NEW).2.inodes
          (getContainingDirectory fsDir (str "/a") 3).1).size
        = (fsDir.inodes (getContainingDirectory fsDir (str "/a") 3).1).size :=
  yfsCreate_existing_truncates fsDir (str "/a") 3 2 (by decide) (by decide!) (by decide!)
    (by decide!) (by decide!) (by decide!) (by decide) (by decide!)
    (by
      intro j hj0 hj1
      have hsz : (fsDir.inodes 2).size = 5 := by decide!
      rw [hsz] at hj1
      have hj : j = 0 := by simp only [BLOCKSIZE] at hj1; omega
      subst hj
      decide!)

/-- C5 as stated fails in three ways. (1) The path `longPath` of 256 characters names
the existing file `a` of the root directory (inode 2, size 5), and `yfsCreate` returns
`ERROR` and leaves the size at 5. (2) In the directory `d` (inode 3) the leaf entry of
the path `.` refers to inode 3, and `yfsCreate` sets the size of this directory from 64
to 0. (3) In `fsSparse` the leaf entry `a` refers to inode 2 of size 1029, whose third
logical block is block 8, and `yfsCreate` pushes no block onto the free block list. -/
theorem yfsCreate_existing_not_always :
    (skipSlashes longPath = str "a" ∧ dirLookup fsDir ROOTINODE (str "a") = 2 ∧
        (fsDir.inodes 2).size = 5 ∧
        (yfsCreate fsDir longPath 1 CREATE_NEW).1 = ERROR ∧
        ((yfsCreate fsDir longPath 1 CREATE_NEW).2.inodes 2).size = 5) ∧
      ((getContainingDirectory fsDir (str ".") 3).1 = 3 ∧
        dirLookup fsDir 3 (str ".") = 3 ∧ (fsDir.inodes 3).size = 64 ∧
        (yfsCreate fsDir (str ".") 3 CREATE_NEW).1 = 3 ∧
        ((yfsCreate fsDir (str ".") 3 CREATE_NEW).2.inodes 3).size = 0) ∧
      (dirLookup fsSparse 1 (str "a") = 2 ∧ (fsSparse.inodes 2).size = 1029 ∧
        logicalBlock fsSparse 2 2 = 8 ∧
        (yfsCreate fsSparse (str "a") 1 CREATE_NEW).1 = 2 ∧
        (yfsCreate fsSparse (str "a") 1 CREATE_NEW).2.freeBlocks = fsSparse.freeBlocks) := by
  decide!

/-! ## The symlink budget (C7) -/

/-- C19. `yfsSeek` equals its reference definition: for every inode of size `s ≥ 0`
and all `int` values offset, whence and cur, the result is the one of `seekReference`
(`ERROR` if `cur < 0` or `cur > s`; else offset for `SEEK_SET` with `0 ≤ offset ≤ s`,
`cur + offset` for `SEEK_CUR` with `0 ≤ cur + offset ≤ s`, `s + offset` for `SEEK_END`
with `offset ≤ 0` and `s + offset ≥ 0`; `ERROR` in every other case), every result
other than `ERROR` lies in `[0, s]`, `SEEK_END` with offset `-s` gives 0, and the
state afterwards is the one before but for the counter `numSymLinks`, so no inode
field is modified. -/
theorem yfsSeek_eq_reference (fs : FS) (inodeNum offset whence cur : Int)
    (hs : 0 ≤ (fs.inodes inodeNum).size) (hs32 : isInt32 (fs.inodes inodeNum).size)
    (ho32 : isInt32 offset) (hc32 : isInt32 cur) :
    (yfsSeek fs inodeNum offset whence cur).1
        = seekReference (fs.inodes inodeNum).size offset whence cur
      ∧ ((yfsSeek fs inodeNum offset whence cur).1 ≠ ERROR →
          0 ≤ (yfsSeek fs inodeNum offset whence cur).1
            ∧ (yfsSeek fs inodeNum offset whence cur).1 ≤ (fs.inodes inodeNum).size)
      ∧ (0 ≤ cur → cur ≤ (fs.inodes inodeNum).size →
          (yfsSeek fs inodeNum (-(fs.inodes inodeNum).size) SEEK_END cur).1 = 0)
      ∧ (yfsSeek fs inodeNum offset whence cur).2 = { fs with numSymLinks := 0 } := by
  obtain ⟨hs1, hs2⟩ := hs32
  obtain ⟨ho1, ho2⟩ := ho32
  obtain ⟨hc1, hc2⟩ := hc32
  generalize hsz : (fs.inodes inodeNum).size = sz at *
  have hw : ∀ v : Int, -2147483648 ≤ v → v < 2147483648 → wrap32 v = v := by
    intro v h1 h2
    unfold wrap32
    split_ifs <;> omega
  have hcur : (0 ≤ cur → cur + offset < 2147483648 → wrap32 (cur + offset) = cur + offset)
      ∧ (¬ cur + offset < 2147483648 → wrap32 (cur + offset) = cur + offset - 4294967296) := by
    refine ⟨fun h0 h => hw _ (by omega) h, fun h => ?_⟩
    unfold wrap32
    split_ifs <;> omega
  have hend : offset ≤ 0 → wrap32 (sz + offset) = sz + offset :=
    fun h => hw _ (by omega) (by omega)
  have key : (yfsSeek fs inodeNum offset whence cur).1 = seekReference sz offset whence cur
      ∧ ((yfsSeek fs inodeNum offset whence cur).1 ≠ ERROR →
          0 ≤ (yfsSeek fs inodeNum offset whence cur).1
            ∧ (yfsSeek fs inodeNum offset whence cur).1 ≤ sz) := by
    unfold yfsSeek seekReference
    simp only [hsz, SEEK_SET, SEEK_CUR, SEEK_END, ERROR]
    generalize wrap32 (cur + offset) = w1 at hcur ⊢
    generalize wrap32 (sz + offset) = w2 at hend ⊢
    split_ifs <;> simp only [ne_eq, not_true_eq_false, false_implies, true_and, and_true] <;>
      omega
  refine ⟨key.1, key.2, ?_, ?_⟩
  · intro h1 h2
    unfold yfsSeek
    simp only [hsz, SEEK_SET, SEEK_CUR, SEEK_END, ERROR]
    have e : wrap32 (sz + -sz) = 0 := by rw [hw _ (by omega) (by omega)]; omega
    rw [e, if_neg (show ¬ (cur > sz ∨ cur < 0) by omega)]
    simp only [if_true, show ((2:Int) = 0) = False by decide, show ((2:Int) = 1) = False by decide,
      if_false]
    rw [if_neg (show ¬ (-sz > 0 ∨ (0:Int) < 0) by omega)]
  · unfold yfsSeek
    simp only []
    split_ifs <;> rfl

/-- The theorem `yfsSeek_eq_reference` at the file `a` of size 5 of `fsFile`: from
position 2, `SEEK_CUR` with offset 3 gives 5. -/
theorem yfsSeek_eq_reference_witness :
    (yfsSeek fsFile 2 3 SEEK_CUR 2).1 = seekReference (fsFile.inodes 2).size 3 SEEK_CUR 2
      ∧ ((yfsSeek fsFile 2 3 SEEK_CUR 2).1 ≠ ERROR →
          0 ≤ (yfsSeek fsFile 2 3 SEEK_CUR 2).1
            ∧ (yfsSeek fsFile 2 3 SEEK_CUR 2).1 ≤ (fsFile.inodes 2).size)
      ∧ (0 ≤ (2 : Int) → 2 ≤ (fsFile.inodes 2).size →
          (yfsSeek fsFile 2 (-(fsFile.inodes 2).size) SEEK_END 2).1 = 0)
      ∧ (yfsSeek fsFile 2 3 SEEK_CUR 2).2 = { fsFile with numSymLinks := 0 } :=
  yfsSeek_eq_reference fsFile 2 3 SEEK_CUR 2 (by decide!) (by decide!) (by decide!) (by decide!)

/-! ## Unlink -/

/-- C11. Removing the last link does not free the inode. In `fsDir` the regular file
`a` has inode 2 with `nlink = 1` and its data in block 8; `yfsLink(a, b)`,
`yfsUnlink(a)` and `yfsUnlink(b)` all return 0, and afterwards block 8 is on the free
block list, but inode 2 still has type `REGULAR` and is not on the free inode list,
which is the one before the three requests: `yfsUnlink` calls `clearFile` and never
`freeUpInode`. -/
theorem unlink_last_link_keeps_inode :
    dirLookup fsDir 1 (str "a") = 2 ∧ (fsDir.inodes 2).type = INODE_REGULAR ∧
      (fsDir.inodes 2).nlink = 1 ∧ fileBlocks fsDir 2 = [8] ∧
      (yfsLink fsDir (str "a") (str "b") 1).1 = 0 ∧
      (yfsUnlink (yfsLink fsDir (str "a") (str "b") 1).2 (str "a") 1).1 = 0 ∧
      (yfsUnlink (yfsUnlink (yfsLink fsDir (str "a") (str "b") 1).2 (str "a") 1).2
        (str "b") 1).1 = 0 ∧
      ((yfsUnlink (yfsUnlink (yfsLink fsDir (str "a") (str "b") 1).2 (str "a") 1).2
        (str "b") 1).2.inodes 2).nlink = 0 ∧
      8 ∈ (yfsUnlink (yfsUnlink (yfsLink fsDir (str "a") (str "b") 1).2 (str "a") 1).2
        (str "b") 1).2.freeBlocks ∧
      ((yfsUnlink (yfsUnlink (yfsLink fsDir (str "a") (str "b") 1).2 (str "a") 1).2
        (str "b") 1).2.inodes 2).type = INODE_REGULAR ∧
      2 ∉ (yfsUnlink (yfsUnlink (yfsLink fsDir (str "a") (str "b") 1).2 (str "a") 1).2
        (str "b") 1).2.freeInodes ∧
      (yfsUnlink (yfsUnlink (yfsLink fsDir (str "a") (str "b") 1).2 (str "a") 1).2
        (str "b") 1).2.freeInodes = fsDir.freeInodes := by
  decide!

/-- C12. Unlink deletes a directory. In `fsDir` the entry `d` of the root directory
refers to inode 3 of type `DIRECTORY` with `nlink = 1`, size 64 and the block 9, which
is not on the free block list; `yfsUnlink(d)` returns 0, sets the size of inode 3 to 0
and pushes block 9 onto the free block list. -/
theorem unlink_clears_directory :
    dirLookup fsDir 1 (str "d") = 3 ∧ (fsDir.inodes 3).type = INODE_DIRECTORY ∧
      (fsDir.inodes 3).size = 64 ∧ fileBlocks fsDir 3 = [9] ∧ 9 ∉ fsDir.freeBlocks ∧
      (yfsUnlink fsDir (str "d") 1).1 = 0 ∧
      ((yfsUnlink fsDir (str "d") 1).2.inodes 3).size = 0 ∧
      (yfsUnlink fsDir (str "d") 1).2.freeBlocks = 9 :: fsDir.freeBlocks ∧
      ((yfsUnlink fsDir (str "d") 1).2.inodes 3).type = INODE_DIRECTORY := by
  decide!

/-! ## Symbolic links -/

/-- C13. No round trip of `yfsSymLink` and `yfsReadLink`. (1) In `fsFile` the name `l`
does not exist in the root directory, inode 4 and block 20 are free, and
`yfsSymLink("/a", "/l")` returns 0 and stores the two bytes `/a`; `yfsReadLink("/l")`
with `len = 64` resolves the link itself, reads the block of the file `a` and returns
5 with the bytes `hello`, not 2 with the bytes `/a`. (2) When the target `/zz` does not
exist the resolution yields 0, which is not `ERROR`, and `yfsReadLink` reads the block
of inode 0 and returns 0, not 3. (3) In `fsStale` the allocated block has held other
bytes, `yfsSymLink` stores the three bytes of `/zz` without a NUL, and the string of
the block is not `/zz`. -/
theorem symlink_readlink_no_round_trip :
    (dirLookup fsFile 1 (str "l") = 0 ∧ fsFile.freeInodes.head? = some 4 ∧
        fsFile.freeBlocks.head? = some 20 ∧
        (yfsSymLink fsFile (str "/a") (str "/l") 1).1 = 0 ∧
        blockString ((yfsSymLink fsFile (str "/a") (str "/l") 1).2.blocks 20) = str "/a" ∧
        (yfsReadLink (yfsSymLink fsFile (str "/a") (str "/l") 1).2 zeroBlock true (str "/l")
          200 64 1).1 = 5 ∧
        bytesString 64 (yfsReadLink (yfsSymLink fsFile (str "/a") (str "/l") 1).2 zeroBlock
          true (str "/l") 200 64 1).2.1 200 = str "hello") ∧
      ((getPathInodeNumber fsFile (str "zz") 1).1 = 0 ∧
        (yfsSymLink fsFile (str "/zz") (str "/l") 1).1 = 0 ∧
        (yfsReadLink (yfsSymLink fsFile (str "/zz") (str "/l") 1).2 zeroBlock true (str "/l")
          200 64 1).1 = 0) ∧
      ((yfsSymLink fsStale (str "/zz") (str "/l") 1).1 = 0 ∧
        ((yfsSymLink fsStale (str "/zz") (str "/l") 1).2.inodes 2).direct 0 = 20 ∧
        (blockString ((yfsSymLink fsStale (str "/zz") (str "/l") 1).2.blocks 20)).take 5
          = str "/zzzz") := by
  decide!

/-- What `yfsSymLink` does with a new name that exists, in every state (a defect, not a
contract: the comment of `SymLink` in `iolib.c` makes an existing new name an error):
the link takes the place of the entry. For every current directory `cwd > 0`, every `oldname` and `newname` shorter than
`MAXPATHNAMELEN` such that the leaf of `newname` has an in-use entry (inum `i`, not 0)
in its containing directory, with a free inode `n` at the head of the free inode list
and a free block `b` at the head of the free block list (a block other than the one
that holds the entry), `yfsSymLink(oldname, newname, cwd)` returns 0, takes inode `n`
and block `b` off the free lists, stores `n` as the inum of the existing entry and
makes inode `n` a symbolic link. -/
theorem yfsSymLink_existing_overwrites (s : FS) (oldname newname : List Int)
    (cwd i n b : Int) (restI restB : List Int)
    (hcwd : 0 < cwd) (hold : ((cstr oldname).length : Int) < MAXPATHNAMELEN)
    (hnew : ((cstr (if hd newname = SLASH then newname.tail else newname)).length : Int)
      < MAXPATHNAMELEN)
    (hentry : dirLookup s (symLinkDir s newname cwd).1 (symLinkDir s newname cwd).2.1 = i)
    (hi : i ≠ 0)
    (hfi : s.freeInodes = n :: restI) (hn0 : -32768 ≤ n) (hn1 : n < 32768)
    (hfb : s.freeBlocks = b :: restB)
    (hb : b ≠ (dirSearch s (symLinkDir s newname cwd).2.1 (symLinkDir s newname cwd).1).blockNum) :
    (yfsSymLink s oldname newname cwd).1 = 0 ∧
      (yfsSymLink s oldname newname cwd).2.freeInodes = restI ∧
      (yfsSymLink s oldname newname cwd).2.freeBlocks = restB ∧
      readInt16 ((yfsSymLink s oldname newname cwd).2.blocks
          (dirSearch s (symLinkDir s newname cwd).2.1 (symLinkDir s newname cwd).1).blockNum)
        (dirSearch s (symLinkDir s newname cwd).2.1 (symLinkDir s newname cwd).1).curOff = n ∧
      ((yfsSymLink s oldname newname cwd).2.inodes n).type = INODE_SYMLINK := by
  unfold symLinkDir at hentry hb ⊢
  obtain ⟨m, hm⟩ := getContainingDirectory_state s
    (if hd newname = SLASH then newname.tail else newname)
    (if hd newname = SLASH then ROOTINODE else cwd)
  obtain ⟨hfound, hinum⟩ := dirLookup_found s _ i _ hentry hi
  generalize hg : getContainingDirectory s
    (if hd newname = SLASH then newname.tail else newname)
    (if hd newname = SLASH then ROOTINODE else cwd) = g at hm hfound hinum hentry hb ⊢
  have hsame : dirSearch g.2.2 g.2.1 g.1 = dirSearch s g.2.1 g.1 := by
    apply dirSearch_same <;> rw [hm]
  have hfound2 : (dirSearch g.2.2 g.2.1 g.1).isFound = true := by rw [hsame]; exact hfound
  generalize hc : dirSearch s g.2.1 g.1 = c at hsame hfound hinum hb ⊢
  have h1 : ¬ ((if hd newname = SLASH then ROOTINODE else cwd) ≤ 0) := by
    split_ifs
    · decide
    · omega
  have h2 : ¬ (((cstr oldname).length : Int) ≥ MAXPATHNAMELEN) := by omega
  have h3 : ¬ (((cstr (if hd newname = SLASH then newname.tail else newname)).length : Int)
      ≥ MAXPATHNAMELEN) := by omega
  have hfi2 : g.2.2.freeInodes = n :: restI := by rw [hm]; exact hfi
  have hfb2 : g.2.2.freeBlocks = b :: restB := by rw [hm]; exact hfb
  have hbl2 : g.2.2.blocks = s.blocks := by rw [hm]
  unfold yfsSymLink
  simp only [h1, h2, h3, if_false, hg]
  clear hm
  generalize g.2.2 = t at hfi2 hfb2 hbl2 hsame hfound2 ⊢
  simp only [getDirectoryEntry_found _ _ _ true hfound2, hsame]
  refine ⟨trivial, ?_, ?_, ?_, ?_⟩
  · simp [saveInode, saveBlock, FS.setBlock, FS.setInode, getNextFreeBlockNum_snd,
      getNextFreeInodeNum_freeInodes, hfi2]
  · simp [saveInode, saveBlock, FS.setBlock, FS.setInode, getNextFreeBlockNum_snd,
      getNextFreeInodeNum_freeBlocks, hfb2]
  · simp only [saveInode, saveBlock, FS.setBlock, FS.setInode, getNextFreeBlockNum_snd,
      getNextFreeBlockNum_fst, getNextFreeInodeNum_freeBlocks, getNextFreeInodeNum_fst,
      getNextFreeInodeNum_blocks, hfb2, hfi2, List.headD_cons, upd_same,
      upd_ne _ _ _ _ (Ne.symm hb)]
    rw [readInt16_name, readInt16_writeInt16_same _ _ _ hn0 hn1]
  · simp only [saveInode, saveBlock, FS.setBlock, FS.setInode, getNextFreeBlockNum_snd,
      getNextFreeBlockNum_fst, getNextFreeInodeNum_freeBlocks, getNextFreeInodeNum_fst,
      getNextFreeInodeNum_blocks, hfb2, hfi2, List.headD_cons, upd_same]

/-- The theorem `yfsSymLink_existing_overwrites` at the existing name `a` of the root
directory of `fsFile`. -/
theorem yfsSymLink_existing_overwrites_witness :
    (yfsSymLink fsFile (str "/x") (str "/a") 1).1 = 0 ∧
      (yfsSymLink fsFile (str "/x") (str "/a") 1).2.freeInodes = [5, 6] ∧
      (yfsSymLink fsFile (str "/x") (str "/a") 1).2.freeBlocks
        = [19, 18, 17, 16, 15, 14, 13, 12, 11, 10, 9] ∧
      readInt16 ((yfsSymLink fsFile (str "/x") (str "/a") 1).2.blocks
          (dirSearch fsFile (symLinkDir fsFile (str "/a") 1).2.1
            (symLinkDir fsFile (str "/a") 1).1).blockNum)
        (dirSearch fsFile (symLinkDir fsFile (str "/a") 1).2.1
          (symLinkDir fsFile (str "/a") 1).1).curOff = 4 ∧
      ((yfsSymLink fsFile (str "/x") (str "/a") 1).2.inodes 4).type = INODE_SYMLINK :=
  yfsSymLink_existing_overwrites fsFile (str "/x") (str "/a") 1 2 4 20 [5, 6]
    [19, 18, 17, 16, 15, 14, 13, 12, 11, 10, 9] (by decide) (by decide!) (by decide!)
    (by decide!) (by decide) (by decide!) (by decide) (by decide) (by decide!) (by decide!)

/-- C14 fails: `yfsSymLink` has no test of the entry that `getDirectoryEntry` returns. In
`fsFile` the leaf `a` of `/a` has the in-use entry with inum 2, and
`yfsSymLink("/x", "/a")` returns 0, not `ERROR`, takes inode 4 and block 20 off the free
lists, and the entry `a` has the inum 4 afterwards. Inode 2, the file the name referred
to, keeps its type, its link count 1 and its block 8, and no name leads to it any
more. -/
theorem symlink_onto_existing_name :
    dirLookup fsFile 1 (str "a") = 2 ∧
      ((yfsSymLink fsFile (str "/x") (str "/a") 1).2.inodes 2).type = INODE_REGULAR ∧
      ((yfsSymLink fsFile (str "/x") (str "/a") 1).2.inodes 2).nlink = 1 ∧
      logicalBlock (yfsSymLink fsFile (str "/x") (str "/a") 1).2 2 0 = 8 ∧
      (8 : Int) ∉ (yfsSymLink fsFile (str "/x") (str "/a") 1).2.freeBlocks ∧
      (yfsSymLink fsFile (str "/x") (str "/a") 1).1 = 0 ∧
      fsFile.freeInodes = [4, 5, 6] ∧
      (yfsSymLink fsFile (str "/x") (str "/a") 1).2.freeInodes = [5, 6] ∧
      fsFile.freeBlocks.head? = some 20 ∧
      (yfsSymLink fsFile (str "/x") (str "/a") 1).2.freeBlocks.head? = some 19 ∧
      dirLookup (yfsSymLink fsFile (str "/x") (str "/a") 1).2 1 (str "a") = 4 := by
  decide!

/-! ## Directories: `yfsMkDir` and `yfsRmDir` -/

/-- C15. The postcondition of `yfsMkDir` depends on what the allocated block held. In
`fsStale`, `yfsMkDir("/m")` returns 0 with the containing directory 1 and the new inode
2 of type `DIRECTORY`, `nlink = 1`, size 64 and block 20, whose two entries have the
inode numbers 2 and 1; but of the two names only the characters `.` are stored, the
bytes that follow are those the block held before, so the names are not `.` and `..`
and `getPathInodeNumber(".", 2)` and `getPathInodeNumber("..", 2)` are 0. In `fsFresh`,
where block 20 holds zeros, they are 2 and 1. -/
theorem mkdir_keeps_stale_names :
    ((yfsMkDir fsStale (str "/m") 1).1 = 0 ∧
        (getContainingDirectory fsStale (str "m") 1).1 = 1 ∧
        dirLookup (yfsMkDir fsStale (str "/m") 1).2 1 (str "m") = 2 ∧
        ((yfsMkDir fsStale (str "/m") 1).2.inodes 2).type = INODE_DIRECTORY ∧
        ((yfsMkDir fsStale (str "/m") 1).2.inodes 2).nlink = 1 ∧
        ((yfsMkDir fsStale (str "/m") 1).2.inodes 2).size = 2 * DIRENTRYSIZE ∧
        ((yfsMkDir fsStale (str "/m") 1).2.inodes 2).direct 0 = 20 ∧
        readInt16 ((yfsMkDir fsStale (str "/m") 1).2.blocks 20) 0 = 2 ∧
        readInt16 ((yfsMkDir fsStale (str "/m") 1).2.blocks 20) 32 = 1 ∧
        isEqual (str ".") (entryName ((yfsMkDir fsStale (str "/m") 1).2.blocks 20) 0) = false ∧
        isEqual (str "..") (entryName ((yfsMkDir fsStale (str "/m") 1).2.blocks 20) 32)
          = false ∧
        (getPathInodeNumber (yfsMkDir fsStale (str "/m") 1).2 (str ".") 2).1 = 0 ∧
        (getPathInodeNumber (yfsMkDir fsStale (str "/m") 1).2 (str "..") 2).1 = 0) ∧
      ((yfsMkDir fsFresh (str "/m") 1).1 = 0 ∧
        (getPathInodeNumber (yfsMkDir fsFresh (str "/m") 1).2 (str ".") 2).1 = 2 ∧
        (getPathInodeNumber (yfsMkDir fsFresh (str "/m") 1).2 (str "..") 2).1 = 1) := by
  decide!

/-- C16. `yfsMkDir` then `yfsRmDir` does not restore the count of free inodes. (1) In
`fsFresh` both requests on `/m` return 0 and the free inode list has 5, then 4, then 5
inodes, but `freeInodeCount` is 5, then 5, then 6: taking an inode does not decrement
it. (2) In `fsLink`, where `s` is a symbolic link to the directory `t` (inode 3),
`yfsMkDir("s/m")` returns 0 and creates `m` in `t`, and the following
`yfsRmDir("s/m")` returns `ERROR` and leaves the free inode list one inode shorter than
before the two requests. -/
theorem mkdir_rmdir_free_inode_count :
    ((yfsMkDir fsFresh (str "/m") 1).1 = 0 ∧
        (yfsRmDir (yfsMkDir fsFresh (str "/m") 1).2 (str "/m") 1).1 = 0 ∧
        fsFresh.freeInodes.length = 5 ∧
        (yfsMkDir fsFresh (str "/m") 1).2.freeInodes.length = 4 ∧
        (yfsRmDir (yfsMkDir fsFresh (str "/m") 1).2 (str "/m") 1).2.freeInodes.length = 5 ∧
        fsFresh.freeInodeCount = 5 ∧
        (yfsMkDir fsFresh (str "/m") 1).2.freeInodeCount = 5 ∧
        (yfsRmDir (yfsMkDir fsFresh (str "/m") 1).2 (str "/m") 1).2.freeInodeCount = 6) ∧
      ((yfsMkDir fsLink (str "s/m") 1).1 = 0 ∧
        dirLookup (yfsMkDir fsLink (str "s/m") 1).2 3 (str "m") = 5 ∧
        (yfsRmDir (yfsMkDir fsLink (str "s/m") 1).2 (str "s/m") 1).1 = ERROR ∧
        fsLink.freeInodes = [5, 6] ∧
        (yfsRmDir (yfsMkDir fsLink (str "s/m") 1).2 (str "s/m") 1).2.freeInodes = [6]) := by
  decide!

/-- C18. `yfsRmDir` accepts a target that is not a directory. (1) In `fsFile` the path
`/e` resolves to inode 3 of type `REGULAR`; `yfsRmDir` returns 0, pushes inode 3 onto
the free inode list and sets the inum of the entry `e` to 0. (2) The path `/zz` does
not resolve (the resolver returns 0, which `yfsRmDir` compares with `ERROR`);
`yfsRmDir` returns 0, pushes inode 0 onto the free inode list and adds an entry to the
root directory, whose size grows from 128 to 160. -/
theorem rmdir_accepts_non_directory :
    ((getPathInodeNumber fsFile (str "e") 1).1 = 3 ∧
        (fsFile.inodes 3).type = INODE_REGULAR ∧
        dirLookup fsFile 1 (str "e") = 3 ∧
        (yfsRmDir fsFile (str "/e") 1).1 = 0 ∧
        (yfsRmDir fsFile (str "/e") 1).2.freeInodes = 3 :: fsFile.freeInodes ∧
        dirLookup (yfsRmDir fsFile (str "/e") 1).2 1 (str "e") = 0) ∧
      ((getPathInodeNumber fsFile (str "zz") 1).1 = 0 ∧
        (yfsRmDir fsFile (str "/zz") 1).1 = 0 ∧
        (yfsRmDir fsFile (str "/zz") 1).2.freeInodes = 0 :: fsFile.freeInodes ∧
        (fsFile.inodes 1).size = 128 ∧
        ((yfsRmDir fsFile (str "/zz") 1).2.inodes 1).size = 160) := by
  decide!

/-- What the size guard of `yfsRmDir` does, in every state (a defect, not a contract:
the comment of `RmDir` in `iolib.c` allows free entries in the directory): `yfsRmDir`
removes a directory only while its size is at most `2 * sizeof(struct dir_entry)`. For
every current directory `cwd > 0` and every path
that resolves to an inode `d` (the result is not `ERROR`): when the size of `d` exceeds
`2 * DIRENTRYSIZE`, as it does when the directory holds free entries besides `.` and
`..`, `yfsRmDir` returns `ERROR` and changes no inode, no block and no free list; when
the size is at most `2 * DIRENTRYSIZE`, `yfsRmDir` returns 0 and pushes `d` onto the
free inode list, and for a path of one component whose entry the search finds in the
starting directory (a directory other than `d`) the inum of that entry is 0
afterwards. -/
theorem yfsRmDir_size_guard (s : FS) (path : List Int) (cwd : Int)
    (hcwd : 0 < cwd) (hres : (rmDirTarget s path cwd).1 ≠ ERROR) :
    ((s.inodes (rmDirTarget s path cwd).1).size > 2 * DIRENTRYSIZE →
        (yfsRmDir s path cwd).1 = ERROR ∧
        (yfsRmDir s path cwd).2.inodes = s.inodes ∧
        (yfsRmDir s path cwd).2.blocks = s.blocks ∧
        (yfsRmDir s path cwd).2.freeInodes = s.freeInodes ∧
        (yfsRmDir s path cwd).2.freeBlocks = s.freeBlocks) ∧
      ((s.inodes (rmDirTarget s path cwd).1).size ≤ 2 * DIRENTRYSIZE →
        (yfsRmDir s path cwd).1 = 0 ∧
        (yfsRmDir s path cwd).2.freeInodes = (rmDirTarget s path cwd).1 :: s.freeInodes ∧
        (((cstr (skipSlashes path)).length : Int) < MAXPATHNAMELEN →
          lastSlashIndexLoop (skipSlashes path) 0 0 = 0 →
          (rmDirTarget s path cwd).1 ≠ (if hd path = SLASH then ROOTINODE else cwd) →
          (dirSearch s (skipSlashes path)
            (if hd path = SLASH then ROOTINODE else cwd)).isFound = true →
          readInt16 ((yfsRmDir s path cwd).2.blocks
              (dirSearch s (skipSlashes path)
                (if hd path = SLASH then ROOTINODE else cwd)).blockNum)
            (dirSearch s (skipSlashes path)
              (if hd path = SLASH then ROOTINODE else cwd)).curOff = 0)) := by
  unfold rmDirTarget at hres ⊢
  obtain ⟨m, hm⟩ := getPathInodeNumber_state { s with numSymLinks := 0 } (skipSlashes path)
    (if hd path = SLASH then ROOTINODE else cwd)
  have h1 : ¬ (cwd ≤ 0) := by omega
  generalize hr : getPathInodeNumber { s with numSymLinks := 0 } (skipSlashes path)
    (if hd path = SLASH then ROOTINODE else cwd) = r at hm hres ⊢
  have hi : r.2.inodes = s.inodes := by rw [hm]
  have hb : r.2.blocks = s.blocks := by rw [hm]
  have hfi : r.2.freeInodes = s.freeInodes := by rw [hm]
  have hfb : r.2.freeBlocks = s.freeBlocks := by rw [hm]
  constructor
  · intro hsz
    have hsz2 : (r.2.inodes r.1).size > 2 * DIRENTRYSIZE := by rw [hi]; exact hsz
    unfold yfsRmDir
    simp only [h1, if_false, hr, hres, hsz2, if_true]
    exact ⟨trivial, hi, hb, hfi, hfb⟩
  · intro hsz
    have hsz2 : ¬ (r.2.inodes r.1).size > 2 * DIRENTRYSIZE := by rw [hi]; omega
    obtain ⟨c1, c2, c3⟩ := clearFile_frame r.2 r.1
    unfold yfsRmDir
    simp only [h1, if_false, hr, hres, hsz2]
    refine ⟨trivial, ?_, ?_⟩
    · obtain ⟨k, hk⟩ := getContainingDirectory_state
        (addFreeInodeToList (clearFile r.2 r.1) r.1) (skipSlashes path)
        (if hd path = SLASH then ROOTINODE else cwd)
      have hk2 : (getContainingDirectory (addFreeInodeToList (clearFile r.2 r.1) r.1)
          (skipSlashes path) (if hd path = SLASH then ROOTINODE else cwd)).2.2.freeInodes
          = r.1 :: s.freeInodes := by
        rw [hk]
        simp only [addFreeInodeToList, c2, hfi]
      simp only [saveBlock, FS.setBlock, getDirectoryEntry_freeInodes, hk2]
    · intro hlen hleaf hne hfound
      rw [getContainingDirectory_leaf _ _ _ hlen (hd_skipSlashes path) hleaf]
      have hloc : dirSearch (addFreeInodeToList (clearFile r.2 r.1) r.1) (skipSlashes path)
          (if hd path = SLASH then ROOTINODE else cwd)
          = dirSearch s (skipSlashes path) (if hd path = SLASH then ROOTINODE else cwd) := by
        apply dirSearch_local
        · simp only [addFreeInodeToList, c3, hi]
          exact upd_ne _ _ _ _ (Ne.symm hne)
        · simp only [addFreeInodeToList, c1, hb]
      simp only [getDirectoryEntry_found _ _ _ true (hloc ▸ hfound), hloc, saveBlock, FS.setBlock,
        upd_same]
      exact readInt16_writeInt16_same _ _ 0 (by decide) (by decide)

/-- The theorem `yfsRmDir_size_guard` at the directory `d` of `fsTomb`, which holds a
free entry. -/
theorem yfsRmDir_size_guard_witness :
    ((fsTomb.inodes (rmDirTarget fsTomb (str "/d") 1).1).size > 2 * DIRENTRYSIZE →
        (yfsRmDir fsTomb (str "/d") 1).1 = ERROR ∧
        (yfsRmDir fsTomb (str "/d") 1).2.inodes = fsTomb.inodes ∧
        (yfsRmDir fsTomb (str "/d") 1).2.blocks = fsTomb.blocks ∧
        (yfsRmDir fsTomb (str "/d") 1).2.freeInodes = fsTomb.freeInodes ∧
        (yfsRmDir fsTomb (str "/d") 1).2.freeBlocks = fsTomb.freeBlocks) ∧
      ((fsTomb.inodes (rmDirTarget fsTomb (str "/d") 1).1).size ≤ 2 * DIRENTRYSIZE →
        (yfsRmDir fsTomb (str "/d") 1).1 = 0 ∧
        (yfsRmDir fsTomb (str "/d") 1).2.freeInodes = (rmDirTarget fsTomb (str "/d") 1).1 :: fsTomb.freeInodes ∧
        (((cstr (skipSlashes (str "/d"))).length : Int) < MAXPATHNAMELEN →
          lastSlashIndexLoop (skipSlashes (str "/d")) 0 0 = 0 →
          (rmDirTarget fsTomb (str "/d") 1).1 ≠ (if hd (str "/d") = SLASH then ROOTINODE else 1) →
          (dirSearch fsTomb (skipSlashes (str "/d"))
            (if hd (str "/d") = SLASH then ROOTINODE else 1)).isFound = true →
          readInt16 ((yfsRmDir fsTomb (str "/d") 1).2.blocks
              (dirSearch fsTomb (skipSlashes (str "/d"))
                (if hd (str "/d") = SLASH then ROOTINODE else 1)).blockNum)
            (dirSearch fsTomb (skipSlashes (str "/d"))
              (if hd (str "/d") = SLASH then ROOTINODE else 1)).curOff = 0)) :=
  yfsRmDir_size_guard fsTomb (str "/d") 1 (by decide) (by decide!)

/-- C17 fails: `yfsRmDir` decides by the size of the directory and never looks at its
entries. In `fsTomb` the directory `d` (inode 3, not the root) holds the entries `.` and
`..` and one free entry left by the unlink of `d/x`, so its size is 96; `yfsRmDir("/d")`
returns `ERROR`, not 0, and the root directory still holds the entry `d`. -/
theorem rmdir_rejects_free_entries :
    (getPathInodeNumber fsTomb (str "d") 1).1 = 3 ∧
      (fsTomb.inodes 3).type = INODE_DIRECTORY ∧ (fsTomb.inodes 3).size = 96 ∧
      fileBlocks fsTomb 3 = [9] ∧
      readInt16 (fsTomb.blocks 9) 0 = 3 ∧ isEqual (str ".") (entryName (fsTomb.blocks 9) 0) ∧
      readInt16 (fsTomb.blocks 9) 32 = 1 ∧
      isEqual (str "..") (entryName (fsTomb.blocks 9) 32) ∧
      readInt16 (fsTomb.blocks 9) 64 = 0 ∧
      (yfsRmDir fsTomb (str "/d") 1).1 = ERROR ∧
      dirLookup (yfsRmDir fsTomb (str "/d") 1).2 1 (str "d") = 3 := by
  decide!

/-! ## Sync -/

/-- C20 (amended): the postcondition of `yfsSync` without the clearing of the dirty
flags. For caches that are consistent (the counter of the block cache is the number of
its items and no two items of a queue have the same number), `yfsSync` returns 0 and
afterwards: the inode cache is as before, so every dirty inode item is still dirty; a
block item that was dirty on entry and is not the sector of a dirty inode is still
dirty while it is in the cache; every block that was dirty on entry has its disk
sector equal to its cached buffer; and every inode `n` that was dirty on entry has its
on-disk record (sector `n / INODESPERBLOCK + 1`, byte offset
`(n mod INODESPERBLOCK) * INODESIZE`, with the division of C) equal to the cached
inode. -/
theorem yfsSync_post (c : Cache) (hok : CacheOk c) :
    ∃ c2, yfsSync c = some (0, c2) ∧
      c2.cacheInodeQueue = c.cacheInodeQueue ∧
      (∀ it ∈ c.cacheBlockQueue, it.dirty = true →
        (∀ jt ∈ c.cacheInodeQueue, jt.dirty = true → inodeSector jt.number ≠ it.number) →
        ∀ it2 ∈ c2.cacheBlockQueue, it2.number = it.number → it2.dirty = true) ∧
      (∀ it ∈ c.cacheBlockQueue, it.dirty = true →
        ∀ it2 ∈ c2.cacheBlockQueue, it2.number = it.number → c2.disk it.number = it2.addr) ∧
      (∀ it ∈ c.cacheInodeQueue, it.dirty = true → ∀ k, 0 ≤ k → k < INODESIZE →
        c2.disk (inodeSector it.number) (inodeOffset it.number + k) = it.addr k) := by
  obtain ⟨b1, b2⟩ := syncBlocks_spec c.cacheBlockQueue c.disk hok.blocks
  obtain ⟨c2, e2, q2, a2, k2, _, t2⟩ := syncInodes_spec c.cacheInodeQueue
    { c with disk := syncBlocks c.cacheBlockQueue c.disk } hok.size hok.blocks hok.inodes
  have huniq : ∀ it ∈ c.cacheBlockQueue, ∀ jt ∈ c.cacheBlockQueue,
      jt.number = it.number → jt = it :=
    fun it hit jt hjt h => List.inj_on_of_nodup_map hok.blocks hjt hit h
  refine ⟨c2, ?_, q2, ?_, ?_, ?_⟩
  · unfold yfsSync
    rw [e2]
  · intro it hit hd hno it2 hit2 hn
    refine k2 it.number hno ?_ it2 hit2 hn
    intro jt hjt hj
    rw [huniq it hit jt hjt hj]
    exact hd
  · intro it hit hd it2 hit2 hn
    refine a2 it.number ?_ it2 hit2 hn
    intro jt hjt hj
    rw [huniq it hit jt hjt hj]
    exact b1 it hit hd
  · intro it hit hd k hk0 hk1
    exact (t2 it hit hd).1 k hk0 hk1

/-- The theorem `yfsSync_post` at the cache `cacheDirty`. -/
theorem yfsSync_post_witness :
    ∃ c2, yfsSync cacheDirty = some (0, c2) ∧
      c2.cacheInodeQueue = cacheDirty.cacheInodeQueue ∧
      (∀ it ∈ cacheDirty.cacheBlockQueue, it.dirty = true →
        (∀ jt ∈ cacheDirty.cacheInodeQueue, jt.dirty = true →
          inodeSector jt.number ≠ it.number) →
        ∀ it2 ∈ c2.cacheBlockQueue, it2.number = it.number → it2.dirty = true) ∧
      (∀ it ∈ cacheDirty.cacheBlockQueue, it.dirty = true →
        ∀ it2 ∈ c2.cacheBlockQueue, it2.number = it.number → c2.disk it.number = it2.addr) ∧
      (∀ it ∈ cacheDirty.cacheInodeQueue, it.dirty = true → ∀ k, 0 ≤ k → k < INODESIZE →
        c2.disk (inodeSector it.number) (inodeOffset it.number + k) = it.addr k) :=
  yfsSync_post cacheDirty ⟨by decide, by decide, by decide⟩

/-- C20 as stated fails: `yfsSync` on `cacheDirty`, which holds the dirty block 9 and
the dirty inode 3, returns 0, and afterwards the item of block 9 and the item of inode
3 are still dirty; the sector 9 holds the buffer of block 9 and the sector 1 holds the
record of inode 3 at offset 192. -/
theorem yfsSync_keeps_dirty_flags :
    (yfsSync cacheDirty).map (fun (r : Int × Cache) => ((r.1,
        r.2.cacheBlockQueue.map (fun (it : CacheItem) => (it.number, it.dirty)),
        r.2.cacheInodeQueue.map (fun (it : CacheItem) => (it.number, it.dirty)),
        [r.2.disk 9 0, r.2.disk 1 191, r.2.disk 1 192, r.2.disk 1 255, r.2.disk 1 256]) :
          Int × List (Int × Bool) × List (Int × Bool) × List Int))
      = some (0, [(9, true), (1, false)], [(3, true)], [122, 0, 7, 7, 0]) := by
  decide!

/-! ## Validation of the arguments and exhaustion -/

/-- C21. `yfsWrite` does not validate its arguments. On the regular file `a` of
`fsFile` (inode 2, the bytes `hello` in block 8): with `size = -2` the result is -2, not
`ERROR`, and the inode is marked dirty; with `byteOffset = -1` and `size = 3` the result
is 3 and the three bytes are stored from one byte before the buffer of block 8 on, so
the block holds `elllo` afterwards. With `inodeNum = 0` the result depends on the
record of inode 0: in the state after `yfsCreate` on an empty free inode list, where
inode 0 has the type `REGULAR`, the result of a write of 5 bytes is 5 and the record
gets the size 5 and the block 20. -/
theorem write_accepts_invalid_arguments :
    ((fsFile.inodes 2).type = INODE_REGULAR ∧ fsFile.inodeDirty 2 = false ∧
        (yfsWrite fsFile memHello copyAlways 2 100 (-2) 0).1 = -2 ∧
        (yfsWrite fsFile memHello copyAlways 2 100 (-2) 0).2.inodeDirty 2 = true) ∧
      (bytesString 8 (fsFile.blocks 8) 0 = str "hello" ∧
        (yfsWrite fsFile memHello copyAlways 2 100 3 (-1)).1 = 3 ∧
        (yfsWrite fsFile memHello copyAlways 2 100 3 (-1)).2.blocks 8 (-1) = 104 ∧
        bytesString 8 ((yfsWrite fsFile memHello copyAlways 2 100 3 (-1)).2.blocks 8) 0
          = str "elllo") ∧
      (((yfsCreate fsNoInode (str "/n") 1 CREATE_NEW).2.inodes 0).type = INODE_REGULAR ∧
        (yfsWrite (yfsCreate fsNoInode (str "/n") 1 CREATE_NEW).2 memHello copyAlways
          0 100 5 0).1 = 5 ∧
        ((yfsWrite (yfsCreate fsNoInode (str "/n") 1 CREATE_NEW).2 memHello copyAlways
          0 100 5 0).2.inodes 0).size = 5 ∧
        ((yfsWrite (yfsCreate fsNoInode (str "/n") 1 CREATE_NEW).2 memHello copyAlways
          0 100 5 0).2.inodes 0).direct 0 = 20) := by
  decide!

/-- C22 (amended): `yfsCreate` rejects a path that ends in `/`. For every state, every
current directory and every pathname whose last character before the NUL is `/`,
`yfsCreate` returns `ERROR` and leaves the state as it is: no directory entry is
created and no inode is allocated. -/
theorem yfsCreate_trailing_slash (s : FS) (path : List Int) (cwd inodeNumToSet : Int)
    (h : (cstr path).getLast? = some SLASH) :
    yfsCreate s path cwd inodeNumToSet = (ERROR, s) := by
  unfold yfsCreate
  rw [endsWithSlash_of_last path h]
  simp only [if_true]
  split_ifs <;> rfl

/-- The theorem `yfsCreate_trailing_slash` at the path `d/` in `fsDir`. -/
theorem yfsCreate_trailing_slash_witness :
    yfsCreate fsDir (str "d/") 1 CREATE_NEW = (ERROR, fsDir) :=
  yfsCreate_trailing_slash fsDir (str "d/") 1 CREATE_NEW (by decide)

/-- C22 as stated fails: the pathname `d//n` contains two consecutive `/`, and in
`fsDir`, where `d` is a directory (inode 3) without an entry `n`,
`yfsCreate("d//n", 1, CREATE_NEW)` returns the new inode 4, takes it off the free inode
list and creates the entry `n` in `d`. -/
theorem create_accepts_double_slash :
    dirLookup fsDir 3 (str "n") = 0 ∧ fsDir.freeInodes = [4, 5, 6] ∧
      (yfsCreate fsDir (str "d//n") 1 CREATE_NEW).1 = 4 ∧
      (yfsCreate fsDir (str "d//n") 1 CREATE_NEW).2.freeInodes = [5, 6] ∧
      dirLookup (yfsCreate fsDir (str "d//n") 1 CREATE_NEW).2 3 (str "n") = 4 ∧
      ((yfsCreate fsDir (str "d//n") 1 CREATE_NEW).2.inodes 4).type = INODE_REGULAR := by
  decide!

/-- C23. An empty free inode list does not surface as `ERROR`. In `fsNoInode` the free
inode list is empty and the name `n` does not exist in the root directory;
`yfsCreate("/n")` returns 0, not `ERROR`, makes inode 0 a regular file with
`nlink = 1` and marks it dirty, and adds an entry with the name `n` and the inum 0 to
the root directory, whose size grows from 128 to 160. -/
theorem create_without_free_inode :
    fsNoInode.freeInodes = [] ∧ dirLookup fsNoInode 1 (str "n") = 0 ∧
      (fsNoInode.inodes 1).type = INODE_DIRECTORY ∧
      (fsNoInode.inodes 0).type = INODE_FREE ∧ (fsNoInode.inodes 0).nlink = 0 ∧
      (yfsCreate fsNoInode (str "/n") 1 CREATE_NEW).1 = 0 ∧
      ((yfsCreate fsNoInode (str "/n") 1 CREATE_NEW).2.inodes 0).type = INODE_REGULAR ∧
      ((yfsCreate fsNoInode (str "/n") 1 CREATE_NEW).2.inodes 0).nlink = 1 ∧
      (yfsCreate fsNoInode (str "/n") 1 CREATE_NEW).2.inodeDirty 0 = true ∧
      dirLookup (yfsCreate fsNoInode (str "/n") 1 CREATE_NEW).2 1 (str "n") = 0 ∧
      (fsNoInode.inodes 1).size = 128 ∧
      ((yfsCreate fsNoInode (str "/n") 1 CREATE_NEW).2.inodes 1).size = 160 := by
  decide!

/-! ## Invariants over the requests -/

/-- C25. The shape of the directories is not kept. The state `fsDir` has the shape
(the root directory of size 128 and the directory `d`, inode 3, of size 64, both with
`.` and `..`); `yfsRmDir("/d")` returns 0 and leaves inode 3 with the type `DIRECTORY`
and the size 0, and so does `yfsUnlink("d")`; neither state has the shape. -/
theorem directory_shape_not_kept :
    DirShape fsDir ∧
      (yfsRmDir fsDir (str "/d") 1).1 = 0 ∧
      ((yfsRmDir fsDir (str "/d") 1).2.inodes 3).type = INODE_DIRECTORY ∧
      ((yfsRmDir fsDir (str "/d") 1).2.inodes 3).size = 0 ∧
      ¬ DirShape (yfsRmDir fsDir (str "/d") 1).2 ∧
      (yfsUnlink fsDir (str "d") 1).1 = 0 ∧
      ((yfsUnlink fsDir (str "d") 1).2.inodes 3).type = INODE_DIRECTORY ∧
      ((yfsUnlink fsDir (str "d") 1).2.inodes 3).size = 0 ∧
      ¬ DirShape (yfsUnlink fsDir (str "d") 1).2 := by
  have hshape : DirShape fsDir := by
    intro n h
    by_cases h3 : n = 3
    · subst h3
      exact ⟨by decide!, by decide!, by decide!, by decide!⟩
    · by_cases h2 : n = 2
      · subst h2
        exact absurd h (by decide!)
      · by_cases h1 : n = 1
        · subst h1
          exact ⟨by decide!, by decide!, by decide!, by decide!⟩
        · exfalso
          have e : fsDir.inodes n = freeInode := by
            simp only [fsDir, upd, h1, h2, h3, if_false]
          rw [e] at h
          exact absurd h (by decide)
  have hr : ((yfsRmDir fsDir (str "/d") 1).2.inodes 3).type = INODE_DIRECTORY := by decide!
  have hu : ((yfsUnlink fsDir (str "d") 1).2.inodes 3).type = INODE_DIRECTORY := by decide!
  refine ⟨hshape, by decide!, hr, by decide!, fun h => ?_, by decide!, hu, by decide!,
    fun h => ?_⟩
  · exact absurd (h 3 hr).2.1 (by decide!)
  · exact absurd (h 3 hu).2.1 (by decide!)

/-- C26. The free inode list does not stay the list of the inodes of type `FREE`. The
bootstrapped state `fsBoot` (8 inodes) has the invariant; `yfsMkDir("/m")` takes inode 7
and `yfsRmDir("/m")` pushes it back, both return 0, and afterwards inode 7 is on the
free inode list with the type `DIRECTORY`. -/
theorem free_inode_list_holds_directory :
    FreeInodeInv fsBoot 8 ∧
      (yfsMkDir fsBoot (str "/m") 1).1 = 0 ∧
      dirLookup (yfsMkDir fsBoot (str "/m") 1).2 1 (str "m") = 7 ∧
      (yfsRmDir (yfsMkDir fsBoot (str "/m") 1).2 (str "/m") 1).1 = 0 ∧
      (7 : Int) ∈ (yfsRmDir (yfsMkDir fsBoot (str "/m") 1).2 (str "/m") 1).2.freeInodes ∧
      ((yfsRmDir (yfsMkDir fsBoot (str "/m") 1).2 (str "/m") 1).2.inodes 7).type
        = INODE_DIRECTORY ∧
      ¬ FreeInodeInv (yfsRmDir (yfsMkDir fsBoot (str "/m") 1).2 (str "/m") 1).2 8 := by
  unfold FreeInodeInv
  decide!

/-- C27. The root directory can be freed. In the bootstrapped state `fsBoot` the inode
`ROOTINODE` is a directory, not on the free inode list, and its block 7 is not on the
free block list. `yfsRmDir(".")` with the root as the current directory returns 0 and
pushes `ROOTINODE` onto the free inode list; `yfsUnlink(".")` followed by
`yfsUnlink("..")` return 0 and push block 7 onto the free block list; `yfsRmDir("/")`
returns 0, not `ERROR`. -/
theorem root_can_be_freed :
    ((fsBoot.inodes ROOTINODE).type = INODE_DIRECTORY ∧ ROOTINODE ∉ fsBoot.freeInodes ∧
        fileBlocks fsBoot ROOTINODE = [7] ∧ (7 : Int) ∉ fsBoot.freeBlocks) ∧
      ((yfsRmDir fsBoot (str ".") ROOTINODE).1 = 0 ∧
        ROOTINODE ∈ (yfsRmDir fsBoot (str ".") ROOTINODE).2.freeInodes) ∧
      ((yfsUnlink fsBoot (str ".") ROOTINODE).1 = 0 ∧
        (yfsUnlink (yfsUnlink fsBoot (str ".") ROOTINODE).2 (str "..") ROOTINODE).1 = 0 ∧
        (7 : Int) ∈ (yfsUnlink (yfsUnlink fsBoot (str ".") ROOTINODE).2 (str "..")
          ROOTINODE).2.freeBlocks) ∧
      (yfsRmDir fsBoot (str "/") ROOTINODE).1 = 0 := by
  decide!

/-- C28. A clean item of the block cache can differ from the disk. (1) On the caches:
`getNthBlock` for the logical block 12 of the empty file `emptyFile`, with allocation,
on the empty cache over a disk of zero blocks takes block 20 as the data block and
stores 20 in the first slot of the buffer of block 0 (`inode->indirect` is 0); the item
of block 0 is not dirty afterwards, and sector 0 holds 0 in this slot, also after
`yfsSync`. (2) On the requests: from the bootstrapped state `fsBoot`, `yfsCreate("/f")`
returns inode 7 and `yfsWrite` of one byte at offset 6144 returns 1, after which block 0
holds 20 in its first slot and is not marked dirty. -/
theorem clean_item_differs_from_disk :
    ((cacheEmpty.getNthBlock [20, 19] emptyFile 12 true).map
        (fun (r : Int × Inode × Cache × List Int) => (r.1, blockView r.2.2.1))
        = some (20, [(0, false, 20)], 0) ∧
      ((cacheEmpty.getNthBlock [20, 19] emptyFile 12 true).bind
          (fun (r : Int × Inode × Cache × List Int) => yfsSync r.2.2.1)).map
        (fun (r : Int × Cache) => (r.1, blockView r.2))
        = some (0, [(0, false, 20)], 0)) ∧
      ((yfsCreate fsBoot (str "/f") 1 CREATE_NEW).1 = 7 ∧
        (yfsWrite (yfsCreate fsBoot (str "/f") 1 CREATE_NEW).2 memHello copyAlways
          7 100 1 6144).1 = 1 ∧
        readInt32 (fsBoot.blocks 0) 0 = 0 ∧ fsBoot.blockDirty 0 = false ∧
        readInt32 ((yfsWrite (yfsCreate fsBoot (str "/f") 1 CREATE_NEW).2 memHello copyAlways
          7 100 1 6144).2.blocks 0) 0 = 20 ∧
        (yfsWrite (yfsCreate fsBoot (str "/f") 1 CREATE_NEW).2 memHello copyAlways
          7 100 1 6144).2.blockDirty 0 = false) := by
  exact ⟨⟨by decide!, by decide!⟩, by decide!⟩

/-! ## The bootstrap scan -/

/-- C29. The bootstrap puts the blocks of the inode region on the free block list. The
image `imgFresh` has 21 blocks and 8 inodes, so the inode region is the blocks 1 and 2;
after `buildFreeInodeAndBlockLists` the free block list holds the blocks 1 to 6 and 8
to 20: block 0 and the block 7 of the root directory are not on it and every number is
below 21, but the blocks 1 and 2 are on it. -/
theorem bootstrap_frees_inode_region :
    readInt32 (imgFresh.blocks 1) 0 = 21 ∧ readInt32 (imgFresh.blocks 1) 4 = 8 ∧
      cdiv (8 + 1 + INODESPERBLOCK - 1) INODESPERBLOCK = 2 ∧
      (buildFreeInodeAndBlockLists imgFresh).freeBlocks
        = [20, 19, 18, 17, 16, 15, 14, 13, 12, 11, 10, 9, 8, 6, 5, 4, 3, 2, 1] ∧
      (1 : Int) ∈ (buildFreeInodeAndBlockLists imgFresh).freeBlocks ∧
      (2 : Int) ∈ (buildFreeInodeAndBlockLists imgFresh).freeBlocks := by
  decide!

/-- C30. The bootstrap puts a referenced indirect block on the free block list. In the
image `imgIndirect` (21 blocks) the regular file of inode 2 has the size `13 * 512`, the
data blocks 3 to 6, 8 to 15 and 17 and the indirect block 16, all in `[1, 21)`; after
`buildFreeInodeAndBlockLists` no data block of the file is on the free block list, but
the indirect block 16 is. -/
theorem bootstrap_frees_indirect_block :
    (imgIndirect.inodes 2).type = INODE_REGULAR ∧
      (imgIndirect.inodes 2).size = 13 * BLOCKSIZE ∧
      (imgIndirect.inodes 2).size > NUM_DIRECT * BLOCKSIZE ∧
      fileBlocks imgIndirect 2 = [3, 4, 5, 6, 8, 9, 10, 11, 12, 13, 14, 15, 17] ∧
      (imgIndirect.inodes 2).indirect = 16 ∧
      (buildFreeInodeAndBlockLists imgIndirect).freeBlocks = [20, 19, 18, 16, 2, 1] ∧
      (16 : Int) ∈ (buildFreeInodeAndBlockLists imgIndirect).freeBlocks := by
  decide!

/-! ## The indirect block -/

/-- What `getNthBlock` does in the indirect range, in every state (a defect, not a
contract: the indirect block is never allocated): `getNthBlock` allocates the data block
only. For every inode and
every logical block `n` with `NUM_DIRECT <= n < NUM_DIRECT + BLOCKSIZE / 4` that lies
at or beyond the size of the file, with a free block `b` at the head of the free block
list, `getNthBlock(inode, n, true)` returns `b`, takes `b` and no other block off the
free block list, changes no inode (`inode.indirect` stays as it is, 0 for an inode
that has never used its indirect block) and no dirty flag, and stores `b` in the slot
`n - NUM_DIRECT` of the block whose number is `inode.indirect`; the other bytes of
that block are not changed (it is not zeroed) and no other block is modified. -/
theorem getNthBlock_indirect_alloc (s : FS) (ino n b : Int) (rest : List Int)
    (h1 : NUM_DIRECT ≤ n) (h2 : n < NUM_DIRECT + BLOCKSIZE / 4)
    (hover : n * BLOCKSIZE ≥ (s.inodes ino).size)
    (hf : s.freeBlocks = b :: rest) (hb : isInt32 b) :
    (getNthBlock s ino n true).1 = b ∧
      (getNthBlock s ino n true).2.freeBlocks = rest ∧
      (getNthBlock s ino n true).2.inodes = s.inodes ∧
      (getNthBlock s ino n true).2.inodeDirty = s.inodeDirty ∧
      (getNthBlock s ino n true).2.blockDirty = s.blockDirty ∧
      readInt32 ((getNthBlock s ino n true).2.blocks (s.inodes ino).indirect)
        (4 * (n - NUM_DIRECT)) = b ∧
      (∀ k, k < 4 * (n - NUM_DIRECT) ∨ 4 * (n - NUM_DIRECT) + 4 ≤ k →
        (getNthBlock s ino n true).2.blocks (s.inodes ino).indirect k
          = s.blocks (s.inodes ino).indirect k) ∧
      (∀ m, m ≠ (s.inodes ino).indirect →
        (getNthBlock s ino n true).2.blocks m = s.blocks m) := by
  rw [getNthBlock_new_indirect s ino n b rest hover (by omega) h2 hf hb]
  refine ⟨rfl, rfl, rfl, rfl, rfl, ?_, ?_, ?_⟩
  · simp only [FS.setBlock, upd_same]
    exact readInt32_writeInt32_same _ _ _ hb.1 hb.2
  · intro k hk
    simp only [FS.setBlock, upd_same]
    unfold writeInt32
    rw [if_neg (by omega), if_neg (by omega), if_neg (by omega), if_neg (by omega)]
  · intro m hm
    simp only [FS.setBlock]
    exact upd_ne _ _ _ _ hm

/-- The theorem `getNthBlock_indirect_alloc` at the empty file `e` (inode 3) of
`fsFile`. -/
theorem getNthBlock_indirect_alloc_witness :
    (getNthBlock fsFile 3 12 true).1 = 20 ∧
      (getNthBlock fsFile 3 12 true).2.freeBlocks = [19, 18, 17, 16, 15, 14, 13, 12, 11, 10, 9] ∧
      (getNthBlock fsFile 3 12 true).2.inodes = fsFile.inodes ∧
      (getNthBlock fsFile 3 12 true).2.inodeDirty = fsFile.inodeDirty ∧
      (getNthBlock fsFile 3 12 true).2.blockDirty = fsFile.blockDirty ∧
      readInt32 ((getNthBlock fsFile 3 12 true).2.blocks (fsFile.inodes 3).indirect)
        (4 * (12 - NUM_DIRECT)) = 20 ∧
      (∀ k, k < 4 * (12 - NUM_DIRECT) ∨ 4 * (12 - NUM_DIRECT) + 4 ≤ k →
        (getNthBlock fsFile 3 12 true).2.blocks (fsFile.inodes 3).indirect k
          = fsFile.blocks (fsFile.inodes 3).indirect k) ∧
      (∀ m, m ≠ (fsFile.inodes 3).indirect →
        (getNthBlock fsFile 3 12 true).2.blocks m = fsFile.blocks m) :=
  getNthBlock_indirect_alloc fsFile 3 12 20 [19, 18, 17, 16, 15, 14, 13, 12, 11, 10, 9]
    (by decide) (by decide) (by decide!) (by decide!) (by decide)

/-- C24 fails: no indirect block is allocated. The regular file `e` of `fsFile` (inode
3) has never used its indirect block (`indirect = 0`); `getNthBlock` for its logical
block 12 with allocation returns the data block 20 and takes this one block off the free
block list, leaves `indirect` at 0 and stores 20 in the first slot of block 0, the boot
block. The file `a` (inode 2), whose `indirect` is 0 too, reads the same slot: its
logical block 12 is block 20 afterwards, the data block of the file `e`. -/
theorem indirect_block_not_allocated :
    (fsFile.inodes 3).type = INODE_REGULAR ∧ (fsFile.inodes 3).indirect = 0 ∧
      fsFile.freeBlocks = [20, 19, 18, 17, 16, 15, 14, 13, 12, 11, 10, 9] ∧
      (getNthBlock fsFile 3 12 true).1 = 20 ∧
      (getNthBlock fsFile 3 12 true).2.freeBlocks
        = [19, 18, 17, 16, 15, 14, 13, 12, 11, 10, 9] ∧
      ((getNthBlock fsFile 3 12 true).2.inodes 3).indirect = 0 ∧
      readInt32 (fsFile.blocks 0) 0 = 0 ∧
      readInt32 ((getNthBlock fsFile 3 12 true).2.blocks 0) 0 = 20 ∧
      (fsFile.inodes 2).type = INODE_REGULAR ∧ (fsFile.inodes 2).indirect = 0 ∧
      logicalBlock fsFile 2 12 = 0 ∧
      logicalBlock (getNthBlock fsFile 3 12 true).2 2 12 = 20 := by
  decide!

/-! ## C38: the free lists are stacks -/

/-- C38 (amended): the free block list is a stack: `addFreeBlockToList n` followed by
`getNextFreeBlockNum` returns `n` and leaves the list as it was, and on an empty list
`getNextFreeBlockNum` returns 0 and changes nothing. The free inode list is a stack as
well: `addFreeInodeToList n` followed by `getNextFreeInodeNum` returns `n` and leaves
the list as it was; on a list `h :: rest` it returns `h`, leaves `rest`, marks inode `h`
dirty, changes no other inode and no other field of inode `h`, and increases the `reuse`
field of `h` by exactly 1 when that field is below `INT_MAX`; on an empty list it returns
0 and changes nothing. -/
theorem free_lists_are_stacks (s : FS) (n h : Int) (rest : List Int)
    (hl : s.freeInodes = h :: rest)
    (hlo : -2147483648 ≤ (s.inodes h).reuse) (hhi : (s.inodes h).reuse < 2147483647) :
    (getNextFreeBlockNum (addFreeBlockToList s n)).1 = n ∧
    (getNextFreeBlockNum (addFreeBlockToList s n)).2.freeBlocks = s.freeBlocks ∧
    getNextFreeBlockNum { s with freeBlocks := [] } = (0, { s with freeBlocks := [] }) ∧
    (getNextFreeInodeNum (addFreeInodeToList s n)).1 = n ∧
    (getNextFreeInodeNum (addFreeInodeToList s n)).2.freeInodes = s.freeInodes ∧
    (getNextFreeInodeNum s).1 = h ∧
    (getNextFreeInodeNum s).2.freeInodes = rest ∧
    ((getNextFreeInodeNum s).2.inodes h).reuse = (s.inodes h).reuse + 1 ∧
    (getNextFreeInodeNum s).2.inodes h = { s.inodes h with reuse := (s.inodes h).reuse + 1 } ∧
    (∀ k, k ≠ h → (getNextFreeInodeNum s).2.inodes k = s.inodes k) ∧
    (getNextFreeInodeNum s).2.inodeDirty h = true ∧
    (getNextFreeInodeNum s).2.blocks = s.blocks ∧
    (getNextFreeInodeNum s).2.freeBlocks = s.freeBlocks ∧
    getNextFreeInodeNum { s with freeInodes := [] } = (0, { s with freeInodes := [] }) := by
  have h0 : -2147483648 ≤ (s.inodes h).reuse + 1 := by omega
  have h1 : (s.inodes h).reuse + 1 < 2147483648 := by omega
  have hw : wrap32 ((s.inodes h).reuse + 1) = (s.inodes h).reuse + 1 := by
    unfold wrap32
    split_ifs with hc <;> omega
  have e := getNextFreeInodeNum_cons s h rest hl
  refine ⟨rfl, rfl, rfl, rfl, rfl, ?_, ?_, ?_, ?_, ?_, ?_, ?_, ?_, rfl⟩
  · rw [e]
  · rw [e]
  · rw [e]; simp [saveInode, FS.setInode, upd, hw]
  · rw [e]; simp [saveInode, FS.setInode, upd, hw]
  · intro k hk; rw [e]; simp [saveInode, FS.setInode, upd, hk]
  · rw [e]; simp [saveInode, FS.setInode, upd]
  · rw [e]; simp [saveInode, FS.setInode]
  · rw [e]; simp [saveInode, FS.setInode]

/-- C38, an instance: on `fsFile`, whose free inode list is `[4, 5, 6]`. -/
theorem free_lists_are_stacks_witness :
    (getNextFreeBlockNum (addFreeBlockToList fsFile 30)).1 = 30 ∧
    (getNextFreeBlockNum (addFreeBlockToList fsFile 30)).2.freeBlocks = fsFile.freeBlocks ∧
    getNextFreeBlockNum { fsFile with freeBlocks := [] }
      = (0, { fsFile with freeBlocks := [] }) ∧
    (getNextFreeInodeNum (addFreeInodeToList fsFile 30)).1 = 30 ∧
    (getNextFreeInodeNum (addFreeInodeToList fsFile 30)).2.freeInodes = fsFile.freeInodes ∧
    (getNextFreeInodeNum fsFile).1 = 4 ∧
    (getNextFreeInodeNum fsFile).2.freeInodes = [5, 6] ∧
    ((getNextFreeInodeNum fsFile).2.inodes 4).reuse = (fsFile.inodes 4).reuse + 1 ∧
    (getNextFreeInodeNum fsFile).2.inodes 4
      = { fsFile.inodes 4 with reuse := (fsFile.inodes 4).reuse + 1 } ∧
    (∀ k, k ≠ 4 → (getNextFreeInodeNum fsFile).2.inodes k = fsFile.inodes k) ∧
    (getNextFreeInodeNum fsFile).2.inodeDirty 4 = true ∧
    (getNextFreeInodeNum fsFile).2.blocks = fsFile.blocks ∧
    (getNextFreeInodeNum fsFile).2.freeBlocks = fsFile.freeBlocks ∧
    getNextFreeInodeNum { fsFile with freeInodes := [] }
      = (0, { fsFile with freeInodes := [] }) :=
  free_lists_are_stacks fsFile 30 4 [5, 6] (by decide) (by decide!) (by decide!)

/-- C38 as stated fails: the field `reuse` is an `int`. In `fsReuseMax` the head of the
free inode list is inode 4 with `reuse = INT_MAX`; `getNextFreeInodeNum` returns 4 and the
field is not `reuse + 1` afterwards (the increment overflows). -/
theorem reuse_increment_overflows :
    fsReuseMax.freeInodes = [4, 5, 6] ∧ (fsReuseMax.inodes 4).reuse = 2147483647 ∧
    (getNextFreeInodeNum fsReuseMax).1 = 4 ∧
    ((getNextFreeInodeNum fsReuseMax).2.inodes 4).reuse = -2147483648 ∧
    ((getNextFreeInodeNum fsReuseMax).2.inodes 4).reuse
      ≠ (fsReuseMax.inodes 4).reuse + 1 := by
  decide!

/-! ## C35 and C40: free slots in lookups, and the bytes written by `yfsCreate` -/

/-- C35 fails: `getDirectoryEntry` compares the names of all entries within the size,
also of those with `inum = 0`. In `fsDir` the first `yfsUnlink` of `a` returns 0 and
leaves the entry at offset 64 of block 7 with `inum = 0` and the name `a`; no entry with
`inum ≠ 0` is named `a` any more (the other three are `.`, `..` and `d`), and yet
`getDirectoryEntry` without creation returns the offset 64 of the deleted entry, not -1,
and a second `yfsUnlink` of `a` returns 0, not `ERROR`; it decrements the link count of
inode 0. -/
theorem lookup_finds_deleted_entry :
    (yfsUnlink fsDir (str "a") 1).1 = 0 ∧
    (fsUnlinked.inodes 1).size = 128 ∧ (fsUnlinked.inodes 1).direct 0 = 7 ∧
    readInt16 (fsUnlinked.blocks 7) 64 = 0 ∧
    isEqual (str "a") (entryName (fsUnlinked.blocks 7) 64) = true ∧
    isEqual (str "a") (entryName (fsUnlinked.blocks 7) 0) = false ∧
    isEqual (str "a") (entryName (fsUnlinked.blocks 7) 32) = false ∧
    isEqual (str "a") (entryName (fsUnlinked.blocks 7) 96) = false ∧
    (getDirectoryEntry fsUnlinked (str "a") 1 false).1 = 64 ∧
    (getDirectoryEntry fsUnlinked (str "a") 1 false).2.1 = 7 ∧
    (yfsUnlink fsUnlinked (str "a") 1).1 = 0 ∧
    (fsUnlinked.inodes 0).nlink = 0 ∧
    ((yfsUnlink fsUnlinked (str "a") 1).2.inodes 0).nlink = -1 := by
  decide!

/-- C40 fails: `yfsCreate` copies the leaf name up to its NUL, not up to `DIRNAMELEN`
bytes. In `fsUnlinked` the root block 7 has a free entry at offset 64 and the entry of
the directory `d` (inode 3) at offset 96. `yfsCreate` of the 32 character name `longName`
is accepted, returns the new inode 4 and uses the entry at offset 64 of block 7; the last
two characters of the name land on the `inum` field of the next entry, which reads 28270
afterwards, so that `d` no longer leads to inode 3. -/
theorem create_long_name_overwrites_next_entry :
    ((cstr longName).length : Int) < MAXPATHNAMELEN ∧
    (getDirectoryEntry fsUnlinked longName 1 false).1 = -1 ∧
    (getDirectoryEntry fsUnlinked longName 1 true).1 = 64 ∧
    (getDirectoryEntry fsUnlinked longName 1 true).2.1 = 7 ∧
    (yfsCreate fsUnlinked longName 1 CREATE_NEW).1 = 4 ∧
    readInt16 (fsUnlinked.blocks 7) 96 = 3 ∧
    readInt16 ((yfsCreate fsUnlinked longName 1 CREATE_NEW).2.blocks 7) 96 = 28270 ∧
    (yfsCreate fsUnlinked longName 1 CREATE_NEW).2.blocks 7 96 ≠ fsUnlinked.blocks 7 96 ∧
    dirLookup fsUnlinked 1 (str "d") = 3 ∧
    dirLookup (yfsCreate fsUnlinked longName 1 CREATE_NEW).2 1 (str "d") = 28270 := by
  decide!

/-! ## C39: path resolution terminates -/

/-- C39: path resolution terminates. For every state, start inode and path, a call of
`getPathInodeNumber` with `numSymLinks = 0` returns: with a recursion depth of
`pathFuel path 0` or more the bounded function yields one and the same result `r`, which
is what `getPathInodeNumber` returns. Every call is of one of three kinds, with
`next` the inode of the first component: it returns without a recursive call; or it is
the one recursive call on the rest of the path behind a component that is not a symbolic
link, with the same budget and a strictly shorter path; or `next` is a symbolic link,
`numSymLinks + 1` does not exceed `MAXSYMLINKS`, the first recursive call resolves the
target with `numSymLinks + 1`, and the second one, on the rest of the path, starts with
the budget `r.2 ≥ numSymLinks + 1` left by the first and a strictly shorter path. The
loops of the directory search end by themselves: more rounds than the `BLOCKSIZE /
DIRENTRYSIZE` entries of a block or the `NUM_DIRECT + BLOCKSIZE / 4` blocks of a file
change nothing. -/
theorem getPathInodeNumber_terminates (s : FS) (path : List Int) (start : Int) :
    (∃ r : Int × Int,
      (∀ fuel, pathFuel path 0 ≤ fuel →
        getPathInodeNumberFuel fuel { s with numSymLinks := 0 } path start 0 = some r) ∧
      getPathInodeNumber { s with numSymLinks := 0 } path start
        = (r.1, { s with numSymLinks := r.2 })) ∧
    (∀ (fuel : Nat) (p : List Int) (st n : Int),
      (getPathInodeNumberFuel (fuel + 1) s p st n = some (0, n) ∨
        getPathInodeNumberFuel (fuel + 1) s p st n = some (dirLookup s st p, n) ∨
        getPathInodeNumberFuel (fuel + 1) s p st n = some (0, n + 1)) ∨
      (∃ np, firstScan s p (dirLookup s st p) = some np ∧
        (s.inodes (dirLookup s st p)).type ≠ INODE_SYMLINK ∧
        getPathInodeNumberFuel (fuel + 1) s p st n
          = getPathInodeNumberFuel fuel s (skipSlashes np) (dirLookup s st p) n ∧
        (skipSlashes np).length < p.length) ∨
      (∃ np, firstScan s p (dirLookup s st p) = some np ∧
        (s.inodes (dirLookup s st p)).type = INODE_SYMLINK ∧ n + 1 ≤ MAXSYMLINKS ∧
        getPathInodeNumberFuel (fuel + 1) s p st n =
          (match getPathInodeNumberFuel fuel s (linkTarget s (dirLookup s st p))
              (linkStart s (dirLookup s st p) st) (n + 1) with
          | none => none
          | some r =>
            match scanComponent (skipSlashes np) with
            | none => some r
            | some rest => getPathInodeNumberFuel fuel s (skipSlashes rest) r.1 r.2) ∧
        (∀ (r : Int × Int) (rest : List Int),
          getPathInodeNumberFuel fuel s (linkTarget s (dirLookup s st p))
              (linkStart s (dirLookup s st p) st) (n + 1) = some r →
          scanComponent (skipSlashes np) = some rest →
          n + 1 ≤ r.2 ∧ (skipSlashes rest).length < p.length))) ∧
    (∀ (ino : Int) (p : List Int) (fuel : Nat),
      (NUM_DIRECT + BLOCKSIZE / 4).toNat + 1 ≤ fuel →
      searchDir fuel s ino p
          { i := 0, blockNum := (getNthBlock s ino 0 false).1, currBlockNum := 0,
            currentBlock := 0, curOff := 0, totalSize := DIRENTRYSIZE, isFound := false,
            freeEntryOffset := -1, freeEntryBlockNum := 0 }
        = dirSearch s p ino) ∧
    (∀ (blk : Bytes) (p : List Int) (size : Int) (c : DirCursor) (fuel : Nat),
      0 ≤ c.curOff → (BLOCKSIZE / DIRENTRYSIZE).toNat ≤ fuel →
      scanBlock fuel blk p size c
        = scanBlock (BLOCKSIZE / DIRENTRYSIZE).toNat blk p size c) := by
  refine ⟨?_, ?_, fun ino p fuel hf => searchDir_fuel_le s ino p fuel hf,
    fun blk p size c fuel h0 hf => scanBlock_fuel_le blk p size c fuel h0 hf⟩
  · have hs := getPathInodeNumberFuel_isSome { s with numSymLinks := 0 } (pathFuel path 0)
      path start 0 (le_refl _)
    cases hr : getPathInodeNumberFuel (pathFuel path 0) { s with numSymLinks := 0 } path
        start 0 with
    | none => rw [hr] at hs; simp at hs
    | some r =>
      refine ⟨r, fun fuel hf => getPathInodeNumberFuel_le _ _ fuel path start 0 r hf hr, ?_⟩
      exact getPathInodeNumber_of_fuel { s with numSymLinks := 0 } (pathFuel path 0) path
        start r hr
  · intro fuel p st n
    by_cases h1 : (s.inodes st).type = INODE_DIRECTORY
    swap
    · exact Or.inl (Or.inl (gp_notdir fuel s p st n h1))
    by_cases h2 : dirLookup s st p = 0
    · exact Or.inl (Or.inl (gp_notfound fuel s p st n h1 h2))
    cases h3 : firstScan s p (dirLookup s st p) with
    | none => exact Or.inl (Or.inr (Or.inl (gp_leaf fuel s p st n h1 h2 h3)))
    | some np =>
      by_cases h4 : hd (skipSlashes np) = 0
      · exact Or.inl (Or.inr (Or.inl (gp_end fuel s p np st n h1 h2 h3 h4)))
      by_cases h5 : (s.inodes (dirLookup s st p)).type = INODE_SYMLINK
      · by_cases h6 : n + 1 > MAXSYMLINKS
        · exact Or.inl (Or.inr (Or.inr (gp_exceed fuel s p np st n h1 h2 h3 h4 h5 h6)))
        · refine Or.inr (Or.inr ⟨np, rfl, h5, by omega,
            gp_expand fuel s p np st n h1 h2 h3 h4 h5 h6, ?_⟩)
          intro r rest hr hsc
          refine ⟨getPathInodeNumberFuel_nsl s fuel _ _ _ r hr, ?_⟩
          have a1 := firstScan_length s p np _ h3
          have a2 := scanComponent_some _ _ hsc
          have a3 := skipSlashes_length_lt rest a2.2
          omega
      · exact Or.inr (Or.inl ⟨np, rfl, h5, gp_walk fuel s p np st n h1 h2 h3 h4 h5,
          firstScan_walk_length s p np _ h3 h5⟩)

/-! ## C36 and C37: the block cache -/

/-- C37: the block cache is transparent. For consistent caches (the counter is the
number of items, no two items have the same number) and every block `n`, `getBlock n`
returns the logical content of `n` (the buffer of its item when cached, else its sector)
and leaves the logical content of every block `m` as it was; an item of the cache before
whose block is not in the cache afterwards has its buffer in its sector; the caches are
consistent afterwards. -/
theorem getBlock_transparent (c : Cache) (n : Int)
    (hsz : c.blockCacheSize = c.cacheBlockQueue.length)
    (hnd : (c.cacheBlockQueue.map CacheItem.number).Nodup) :
    ∃ (buf : Bytes) (c2 : Cache), getBlock c n = some (buf, c2) ∧
      buf = logicalContent c n ∧
      (∀ m, logicalContent c2 m = logicalContent c m) ∧
      (∀ it ∈ c.cacheBlockQueue, (∀ jt ∈ c2.cacheBlockQueue, jt.number ≠ it.number) →
        c2.disk it.number = it.addr) ∧
      c2.blockCacheSize = c2.cacheBlockQueue.length ∧
      (c2.cacheBlockQueue.map CacheItem.number).Nodup := by
  cases hl : hash_table_lookup c.cacheBlockQueue n with
  | some item =>
    obtain ⟨hmem, hnum⟩ := hash_table_lookup_some _ _ _ hl
    obtain ⟨r1, r2⟩ := removeItemFromQueue_spec n c.cacheBlockQueue hnd ⟨item, hmem, hnum⟩
    have hrn : hash_table_lookup (removeItemFromQueue c.cacheBlockQueue n) n = none :=
      hash_table_lookup_of_not_mem _ _ (fun it hit => (r1 it hit).2)
    refine ⟨_, _, getBlock_hit c n item hl, ?_, ?_, ?_, ?_, ?_⟩
    · unfold logicalContent; rw [hl]
    · intro m
      unfold logicalContent
      simp only []
      rw [hash_table_lookup_append]
      by_cases hm : m = n
      · rw [hm, hrn, hl]; simp [hnum]
      · rw [hash_table_lookup_remove_ne n m hm]
        cases hq : hash_table_lookup c.cacheBlockQueue m with
        | some it => rfl
        | none =>
          have : ¬ item.number = m := by rw [hnum]; exact fun h => hm h.symm
          simp [this]
    · intro it hit hno
      exfalso
      by_cases hi : it.number = n
      · exact hno item (by simp) (by rw [hnum, hi])
      · refine hno it ?_ rfl
        simp only [List.mem_append]
        left
        rw [removeItemFromQueue_eq_filter n _ hnd, List.mem_filter]
        exact ⟨hit, by simpa using hi⟩
    · simp only [List.length_append, List.length_singleton, r2, hsz]
    · exact nodup_append_item _ _ _ (List.eraseP_sublist _) hnd
        (fun it hit => by rw [hnum]; exact (r1 it hit).2)
  | none =>
    have hno := hash_table_lookup_none _ _ hl
    by_cases hfull : c.blockCacheSize = BLOCK_CACHESIZE
    · cases hq : c.cacheBlockQueue with
      | nil =>
        rw [hq] at hsz
        rw [hsz] at hfull
        exact absurd hfull (by decide)
      | cons lru rest =>
        have hnd2 := hnd
        rw [hq, List.map_cons, List.nodup_cons] at hnd2
        rw [hq] at hno
        have hlru : lru.number ≠ n := hno lru (List.mem_cons_self _ _)
        have hrest : hash_table_lookup rest lru.number = none :=
          hash_table_lookup_of_not_mem _ _ (fun it hit he => hnd2.1 (by
            rw [← he]; exact List.mem_map_of_mem _ hit))
        refine ⟨_, _, getBlock_evict c n lru rest hl hfull hq, ?_, ?_, ?_, ?_, ?_⟩
        · unfold logicalContent; rw [hl]
          exact upd_ne _ _ _ _ (fun h => hlru h.symm)
        · intro m
          unfold logicalContent
          simp only []
          rw [hash_table_lookup_append, hq]
          by_cases hm : m = lru.number
          · rw [hm, hrest]
            have e : hash_table_lookup (lru :: rest) lru.number = some lru := by
              unfold hash_table_lookup
              rw [List.find?_cons_of_pos _ (by simp)]
            rw [e]
            have : ¬ n = lru.number := fun h => hlru h.symm
            simp [this, upd_same]
          · have e : hash_table_lookup (lru :: rest) m = hash_table_lookup rest m := by
              unfold hash_table_lookup
              rw [List.find?_cons_of_neg _ (by simpa using fun h => hm h.symm)]
            rw [e]
            cases hq2 : hash_table_lookup rest m with
            | some it => rfl
            | none =>
              by_cases hnm : n = m
              · simp [hnm, upd_ne _ _ _ _ hm]
              · simp [hnm, upd_ne _ _ _ _ hm]
        · intro it hit hno2
          rcases List.mem_cons.mp hit with h | h
          · rw [h]; simp only []; rw [upd_same]
          · exact absurd rfl (hno2 it (by simp [h]))
        · simp only [List.length_append, List.length_singleton]
          rw [hsz, hq]
          simp
        · exact nodup_append_item _ _ _ (List.Sublist.refl _) hnd2.2
            (fun it hit => hno it (List.mem_cons_of_mem _ hit))
    · refine ⟨_, _, getBlock_miss c n hl hfull, ?_, ?_, ?_, ?_, ?_⟩
      · unfold logicalContent; rw [hl]
      · intro m
        unfold logicalContent
        simp only []
        rw [hash_table_lookup_append]
        cases hq2 : hash_table_lookup c.cacheBlockQueue m with
        | some it => rfl
        | none =>
          by_cases hnm : n = m
          · simp [hnm]
          · simp [hnm]
      · intro it hit hno2
        exact absurd rfl (hno2 it (by simp [hit]))
      · simp only [List.length_append, List.length_singleton]
        rw [hsz]
        simp
      · exact nodup_append_item _ _ _ (List.Sublist.refl _) hnd (fun it hit => hno it hit)

/-- C37, an instance: block 40 is not in the full cache `cacheFull`; its sector is read
and block 1 is evicted. -/
theorem getBlock_transparent_witness :
    ∃ (buf : Bytes) (c2 : Cache), getBlock cacheFull 40 = some (buf, c2) ∧
      buf = logicalContent cacheFull 40 ∧
      (∀ m, logicalContent c2 m = logicalContent cacheFull m) ∧
      (∀ it ∈ cacheFull.cacheBlockQueue,
        (∀ jt ∈ c2.cacheBlockQueue, jt.number ≠ it.number) → c2.disk it.number = it.addr) ∧
      c2.blockCacheSize = c2.cacheBlockQueue.length ∧
      (c2.cacheBlockQueue.map CacheItem.number).Nodup :=
  getBlock_transparent cacheFull 40 (by decide!) (by decide!)

/-- C36: the LRU policy of the block cache. For consistent caches with at most
`BLOCK_CACHESIZE` items and every block `n`, `getBlock n` leaves the item of `n` at the
most recently used end of the queue, behind the other items in their order before: all
of them when `n` was in the cache (the item of `n` is the one that was there), all of
them when `n` was not in the cache and the cache was not full, and all but the least
recently used one when `n` was not in the cache and the cache held `BLOCK_CACHESIZE`
items. Afterwards no two items have the same number, the lookup finds exactly the
numbers of the queue, the counter is the number of items and is at most
`BLOCK_CACHESIZE`. The queue is a list here; on the linked items of the source,
`removeItemFromQueue` takes the item out of the list of the queue and keeps the order of
the others, `addItemEndQueue` puts an item behind the last one, and
`removeItemFromFrontOfQueue` returns the first item and leaves the rest. -/
theorem getBlock_lru (c : Cache) (n : Int)
    (hsz : c.blockCacheSize = c.cacheBlockQueue.length)
    (hnd : (residentBlocks c).Nodup) (hcap : c.blockCacheSize ≤ BLOCK_CACHESIZE) :
    (∃ (buf : Bytes) (c2 : Cache) (item : CacheItem), getBlock c n = some (buf, c2) ∧
      item.number = n ∧ buf = item.addr ∧
      (n ∈ residentBlocks c → item ∈ c.cacheBlockQueue ∧
        c2.cacheBlockQueue
          = c.cacheBlockQueue.filter (fun it => decide (it.number ≠ n)) ++ [item] ∧
        residentBlocks c2 = (residentBlocks c).filter (fun m => decide (m ≠ n)) ++ [n] ∧
        c2.cacheBlockQueue.length = c.cacheBlockQueue.length) ∧
      (n ∉ residentBlocks c → c.blockCacheSize < BLOCK_CACHESIZE →
        c2.cacheBlockQueue = c.cacheBlockQueue ++ [item] ∧
        residentBlocks c2 = residentBlocks c ++ [n]) ∧
      (n ∉ residentBlocks c → c.blockCacheSize = BLOCK_CACHESIZE →
        c2.cacheBlockQueue = c.cacheBlockQueue.tail ++ [item] ∧
        residentBlocks c2 = (residentBlocks c).tail ++ [n] ∧
        c2.cacheBlockQueue.length = c.cacheBlockQueue.length) ∧
      (residentBlocks c2).Nodup ∧
      (∀ m, (hash_table_lookup c2.cacheBlockQueue m).isSome = true ↔ m ∈ residentBlocks c2) ∧
      c2.blockCacheSize = c2.cacheBlockQueue.length ∧
      c2.blockCacheSize ≤ BLOCK_CACHESIZE) ∧
    (∀ (m : QueueMem) (l : List Int) (x : Int), IsQueue m l → x ∈ l →
      IsQueue (m.removeItemFromQueue x) (l.erase x) ∧
      ∀ a, ((m.removeItemFromQueue x).cell a).number = (m.cell a).number) ∧
    (∀ (m : QueueMem) (l : List Int) (x : Int), IsQueue m l → x ∉ l → x ≠ 0 →
      IsQueue (m.addItemEndQueue x true) (l ++ [x]) ∧
      ∀ a, ((m.addItemEndQueue x true).cell a).number = (m.cell a).number) ∧
    (∀ (m : QueueMem) (x : Int) (xs : List Int), IsQueue m (x :: xs) →
      m.removeItemFromFrontOfQueue.1 = x ∧ IsQueue m.removeItemFromFrontOfQueue.2 xs ∧
      ∀ a, (m.removeItemFromFrontOfQueue.2.cell a).number = (m.cell a).number) := by
  refine ⟨?_, fun m l x h hx => removeItemFromQueue_linked m l x h hx,
    fun m l x h hx hx0 => addItemEndQueue_spec m l x h hx hx0,
    fun m x xs h => removeFront_spec m x xs h⟩
  have hidx : ∀ (q : List CacheItem) (m : Int),
      (hash_table_lookup q m).isSome = true ↔ m ∈ q.map CacheItem.number := by
    intro q m
    unfold hash_table_lookup
    rw [List.find?_isSome]
    simp only [decide_eq_true_eq, List.mem_map]
  have hres : ∀ (m : Int), m ∈ residentBlocks c ↔
      ∃ it ∈ c.cacheBlockQueue, it.number = m := by
    intro m; unfold residentBlocks; simp only [List.mem_map]
  unfold residentBlocks at hnd
  cases hl : hash_table_lookup c.cacheBlockQueue n with
  | some item =>
    obtain ⟨hmem, hnum⟩ := hash_table_lookup_some _ _ _ hl
    obtain ⟨r1, r2⟩ := removeItemFromQueue_spec n c.cacheBlockQueue hnd ⟨item, hmem, hnum⟩
    have hin : n ∈ residentBlocks c := (hres n).2 ⟨item, hmem, hnum⟩
    have hf := removeItemFromQueue_eq_filter n _ hnd
    refine ⟨_, _, item, getBlock_hit c n item hl, hnum, rfl, ?_, ?_, ?_, ?_, ?_, ?_, ?_⟩
    · intro _
      refine ⟨hmem, by simp only [hf], ?_, ?_⟩
      · unfold residentBlocks
        simp only [hf, List.map_append, List.map_cons, List.map_nil, hnum, List.filter_map]
        rfl
      · simp only [List.length_append, List.length_singleton, r2]
    · intro h; exact absurd hin h
    · intro h; exact absurd hin h
    · exact nodup_append_item _ _ _ (List.eraseP_sublist _) hnd
        (fun it hit => by rw [hnum]; exact (r1 it hit).2)
    · intro m; exact hidx _ m
    · simp only [List.length_append, List.length_singleton, r2, hsz]
    · exact hcap
  | none =>
    have hno := hash_table_lookup_none _ _ hl
    have hnin : n ∉ residentBlocks c := by
      rw [hres]; rintro ⟨it, hit, he⟩; exact hno it hit he
    by_cases hfull : c.blockCacheSize = BLOCK_CACHESIZE
    · cases hq : c.cacheBlockQueue with
      | nil =>
        rw [hq] at hsz
        rw [hsz] at hfull
        exact absurd hfull (by decide)
      | cons lru rest =>
        have hnd2 := hnd
        rw [hq, List.map_cons, List.nodup_cons] at hnd2
        rw [hq] at hno
        refine ⟨_, _, ⟨n, false, upd c.disk lru.number lru.addr n⟩,
          getBlock_evict c n lru rest hl hfull hq, rfl, rfl, ?_, ?_, ?_, ?_, ?_, ?_, ?_⟩
        · intro h; exact absurd h hnin
        · intro _ h; rw [hfull] at h; exact absurd h (lt_irrefl _)
        · intro _ _
          refine ⟨rfl, ?_, ?_⟩
          · unfold residentBlocks; simp [hq]
          · simp
        · exact nodup_append_item _ _ _ (List.Sublist.refl _) hnd2.2
            (fun it hit => hno it (List.mem_cons_of_mem _ hit))
        · intro m; exact hidx _ m
        · simp only [List.length_append, List.length_singleton]
          rw [hsz, hq]
          simp
        · simp only []; omega
    · refine ⟨_, _, ⟨n, false, c.disk n⟩, getBlock_miss c n hl hfull, rfl, rfl,
        ?_, ?_, ?_, ?_, ?_, ?_, ?_⟩
      · intro h; exact absurd h hnin
      · intro _ _
        refine ⟨rfl, ?_⟩
        unfold residentBlocks; simp
      · intro _ h; exact absurd h hfull
      · exact nodup_append_item _ _ _ (List.Sublist.refl _) hnd (fun it hit => hno it hit)
      · intro m; exact hidx _ m
      · simp only [List.length_append, List.length_singleton]
        rw [hsz]
        simp
      · simp only []
        have : c.blockCacheSize < BLOCK_CACHESIZE := lt_of_le_of_ne hcap hfull
        omega

/-- C36, an instance: `getBlock 40` on the full cache `cacheFull`. -/
theorem getBlock_lru_witness :
    (∃ (buf : Bytes) (c2 : Cache) (item : CacheItem), getBlock cacheFull 40 = some (buf, c2) ∧
      item.number = 40 ∧ buf = item.addr ∧
      (40 ∈ residentBlocks cacheFull → item ∈ cacheFull.cacheBlockQueue ∧
        c2.cacheBlockQueue
          = cacheFull.cacheBlockQueue.filter (fun it => decide (it.number ≠ 40)) ++ [item] ∧
        residentBlocks c2
          = (residentBlocks cacheFull).filter (fun m => decide (m ≠ 40)) ++ [40] ∧
        c2.cacheBlockQueue.length = cacheFull.cacheBlockQueue.length) ∧
      (40 ∉ residentBlocks cacheFull → cacheFull.blockCacheSize < BLOCK_CACHESIZE →
        c2.cacheBlockQueue = cacheFull.cacheBlockQueue ++ [item] ∧
        residentBlocks c2 = residentBlocks cacheFull ++ [40]) ∧
      (40 ∉ residentBlocks cacheFull → cacheFull.blockCacheSize = BLOCK_CACHESIZE →
        c2.cacheBlockQueue = cacheFull.cacheBlockQueue.tail ++ [item] ∧
        residentBlocks c2 = (residentBlocks cacheFull).tail ++ [40] ∧
        c2.cacheBlockQueue.length = cacheFull.cacheBlockQueue.length) ∧
      (residentBlocks c2).Nodup ∧
      (∀ m, (hash_table_lookup c2.cacheBlockQueue m).isSome = true ↔ m ∈ residentBlocks c2) ∧
      c2.blockCacheSize = c2.cacheBlockQueue.length ∧
      c2.blockCacheSize ≤ BLOCK_CACHESIZE) ∧
    (∀ (m : QueueMem) (l : List Int) (x : Int), IsQueue m l → x ∈ l →
      IsQueue (m.removeItemFromQueue x) (l.erase x) ∧
      ∀ a, ((m.removeItemFromQueue x).cell a).number = (m.cell a).number) ∧
    (∀ (m : QueueMem) (l : List Int) (x : Int), IsQueue m l → x ∉ l → x ≠ 0 →
      IsQueue (m.addItemEndQueue x true) (l ++ [x]) ∧
      ∀ a, ((m.addItemEndQueue x true).cell a).number = (m.cell a).number) ∧
    (∀ (m : QueueMem) (x : Int) (xs : List Int), IsQueue m (x :: xs) →
      m.removeItemFromFrontOfQueue.1 = x ∧ IsQueue m.removeItemFromFrontOfQueue.2 xs ∧
      ∀ a, (m.removeItemFromFrontOfQueue.2.cell a).number = (m.cell a).number) :=
  getBlock_lru cacheFull 40 (by decide!) (by decide!) (by decide!)

/-! ## C32: the comparison of names -/

/-- C32: for every path and every name field `e` of `DIRNAMELEN` bytes without a `/`,
`isEqual path e` is true exactly when the first component of the path, truncated to
`DIRNAMELEN` characters, equals the stored name (`e` up to its first NUL, or all
`DIRNAMELEN` bytes when there is none); the result depends on the `DIRNAMELEN` bytes of
the field only. -/
theorem isEqual_eq_reference (path : List Int) (e : Int → Int)
    (hns : ∀ i, 0 ≤ i → i < DIRNAMELEN → e i ≠ SLASH) :
    (isEqual path e = true ↔
      (firstComponent path).take DIRNAMELEN.toNat = storedName e) ∧
    isEqual path e = isEqualReference path e ∧
    (∀ e2 : Int → Int, (∀ i, 0 ≤ i → i < DIRNAMELEN → e2 i = e i) →
      isEqual path e2 = isEqual path e) := by
  have hd30 : ((DIRNAMELEN.toNat : Nat) : Int) = DIRNAMELEN := by decide
  have h1 : isEqual path e = true ↔
      (firstComponent path).take DIRNAMELEN.toNat = storedName e := by
    unfold isEqual storedName
    exact isEqualLoop_iff e DIRNAMELEN.toNat path 0
      (fun j h1 h2 => hns j h1 (by rw [hd30] at h2; omega))
  refine ⟨h1, ?_, ?_⟩
  · unfold isEqualReference
    by_cases h : (firstComponent path).take DIRNAMELEN.toNat = storedName e
    · rw [h1.2 h]; simp [h]
    · have : isEqual path e = false := by
        cases hb : isEqual path e with
        | false => rfl
        | true => exact absurd (h1.1 hb) h
      rw [this]; simp [h]
  · intro e2 h2
    unfold isEqual
    exact isEqualLoop_congr e e2 DIRNAMELEN.toNat path 0
      (fun j h3 h4 => h2 j h3 (by rw [hd30] at h4; omega))

/-- C32, an instance: the path `a/x` and the name field of the entry of `a` in the root
block of `fsDir`. -/
theorem isEqual_eq_reference_witness :
    (isEqual (str "a/x") (entryName (fsDir.blocks 7) 64) = true ↔
      (firstComponent (str "a/x")).take DIRNAMELEN.toNat
        = storedName (entryName (fsDir.blocks 7) 64)) ∧
    isEqual (str "a/x") (entryName (fsDir.blocks 7) 64)
      = isEqualReference (str "a/x") (entryName (fsDir.blocks 7) 64) ∧
    (∀ e2 : Int → Int,
      (∀ i, 0 ≤ i → i < DIRNAMELEN → e2 i = entryName (fsDir.blocks 7) 64 i) →
      isEqual (str "a/x") e2 = isEqual (str "a/x") (entryName (fsDir.blocks 7) 64)) :=
  isEqual_eq_reference (str "a/x") (entryName (fsDir.blocks 7) 64) (by
    intro i h0 h1
    have h2 : i < 30 := h1
    interval_cases i <;> decide!)

/-! ## C31: the free inode list after the bootstrap -/

/-- C31 (amended): for every disk image with `num_inodes` in its header and empty free
lists at the start, the free inode list after `buildFreeInodeAndBlockLists` holds,
exactly once each and in descending order, the inode numbers `n` with
`ROOTINODE ≤ n < scanEnd num_inodes` whose type is `INODE_FREE`, and no other number:
the scan runs to the end of the block of inodes it is in, so the bound is `num_inodes`
rounded up to a multiple of `INODESPERBLOCK` (and `ROOTINODE`, that is no inode at all,
when `num_inodes ≤ ROOTINODE`). The bound is `num_inodes` itself when `num_inodes` is a
multiple of `INODESPERBLOCK`. The inodes are not changed. -/
theorem bootstrap_free_inodes (s : FS) (hempty : s.freeInodes = []) :
    (∀ n, n ∈ (buildFreeInodeAndBlockLists s).freeInodes ↔
      (ROOTINODE ≤ n ∧ n < scanEnd (readInt32 (s.blocks 1) 4) ∧
        (s.inodes n).type = INODE_FREE)) ∧
    (buildFreeInodeAndBlockLists s).freeInodes.Nodup ∧
    (buildFreeInodeAndBlockLists s).freeInodes.Pairwise (fun a b => a > b) ∧
    (buildFreeInodeAndBlockLists s).inodes = s.inodes ∧
    (ROOTINODE < readInt32 (s.blocks 1) 4 →
      readInt32 (s.blocks 1) 4 % INODESPERBLOCK = 0 →
      scanEnd (readInt32 (s.blocks 1) 4) = readInt32 (s.blocks 1) 4) ∧
    (ROOTINODE < readInt32 (s.blocks 1) 4 →
      readInt32 (s.blocks 1) 4 ≤ scanEnd (readInt32 (s.blocks 1) 4) ∧
      scanEnd (readInt32 (s.blocks 1) 4) < readInt32 (s.blocks 1) 4 + INODESPERBLOCK ∧
      scanEnd (readInt32 (s.blocks 1) 4) % INODESPERBLOCK = 0) := by
  generalize hN : readInt32 (s.blocks 1) 4 = N
  have hfuel : N ≤ 1 ∨ N ≤ 8 * ((1 : Int) - 1 + (N.toNat : Int)) := by
    by_cases h : N ≤ 1
    · exact Or.inl h
    · right; rw [Int.toNat_of_nonneg (by omega)]; omega
  obtain ⟨a1, _, a3, a4⟩ := inodeBlockLoop_spec N N.toNat s (upd (fun _ => false) 0 true) 1 1
    (by norm_num) (by norm_num) hfuel (by rw [hempty]; exact List.Pairwise.nil)
    (by rw [hempty]; intro n hn; simp at hn)
  have hfr := foldl_free_blocks_frame
    (inodeBlockLoop N.toNat N s (upd (fun _ => false) 0 true) 1 1).2
    (List.range (readInt32 (s.blocks 1) 0).toNat)
    (inodeBlockLoop N.toNat N s (upd (fun _ => false) 0 true) 1 1).1
  have hfree : (buildFreeInodeAndBlockLists s).freeInodes
      = (inodeBlockLoop N.toNat N s (upd (fun _ => false) 0 true) 1 1).1.freeInodes := by
    unfold buildFreeInodeAndBlockLists
    simp only [hN, ROOTINODE]
    exact hfr.1
  have hino : (buildFreeInodeAndBlockLists s).inodes = s.inodes := by
    unfold buildFreeInodeAndBlockLists
    simp only [hN, ROOTINODE]
    exact hfr.2.trans a1
  have hse : scanEnd N = if N ≤ 1 then 1 else 8 * ((N + 7) / 8) := by
    unfold scanEnd
    rw [INODESPERBLOCK_eq]
    simp only [ROOTINODE]
    have : N + 8 - 1 = N + 7 := by ring
    rw [this]
  refine ⟨fun n => ?_, ?_, ?_, hino, ?_, ?_⟩
  · rw [hfree, a3 n, hempty, hse]
    simp only [ROOTINODE, List.not_mem_nil, false_or]
  · rw [hfree]
    exact a4.imp (fun h => ne_of_gt h)
  · rw [hfree]; exact a4
  · intro h1 h2
    rw [hse]
    rw [INODESPERBLOCK_eq] at h2
    simp only [ROOTINODE] at h1
    rw [if_neg (by omega)]
    omega
  · intro h1
    rw [hse, INODESPERBLOCK_eq]
    simp only [ROOTINODE] at h1
    rw [if_neg (by omega)]
    omega

/-- C31, an instance: the image `imgFresh`, whose header says `num_inodes = 8`. -/
theorem bootstrap_free_inodes_witness :
    (∀ n, n ∈ (buildFreeInodeAndBlockLists imgFresh).freeInodes ↔
      (ROOTINODE ≤ n ∧ n < scanEnd (readInt32 (imgFresh.blocks 1) 4) ∧
        (imgFresh.inodes n).type = INODE_FREE)) ∧
    (buildFreeInodeAndBlockLists imgFresh).freeInodes.Nodup ∧
    (buildFreeInodeAndBlockLists imgFresh).freeInodes.Pairwise (fun a b => a > b) ∧
    (buildFreeInodeAndBlockLists imgFresh).inodes = imgFresh.inodes ∧
    (ROOTINODE < readInt32 (imgFresh.blocks 1) 4 →
      readInt32 (imgFresh.blocks 1) 4 % INODESPERBLOCK = 0 →
      scanEnd (readInt32 (imgFresh.blocks 1) 4) = readInt32 (imgFresh.blocks 1) 4) ∧
    (ROOTINODE < readInt32 (imgFresh.blocks 1) 4 →
      readInt32 (imgFresh.blocks 1) 4 ≤ scanEnd (readInt32 (imgFresh.blocks 1) 4) ∧
      scanEnd (readInt32 (imgFresh.blocks 1) 4)
        < readInt32 (imgFresh.blocks 1) 4 + INODESPERBLOCK ∧
      scanEnd (readInt32 (imgFresh.blocks 1) 4) % INODESPERBLOCK = 0) :=
  bootstrap_free_inodes imgFresh (by decide!)

/-- C31 as stated fails: the header of `imgSix` says `num_inodes = 6`, every inode but the
root is free, and the free inode list after `buildFreeInodeAndBlockLists` is
`[7, 6, 5, 4, 3, 2]`: it holds the numbers 6 and 7, which are not below `num_inodes`. -/
theorem bootstrap_lists_inodes_beyond_count :
    imgSix.freeInodes = [] ∧ readInt32 (imgSix.blocks 1) 4 = 6 ∧
    (buildFreeInodeAndBlockLists imgSix).freeInodes = [7, 6, 5, 4, 3, 2] ∧
    (7 : Int) ∈ (buildFreeInodeAndBlockLists imgSix).freeInodes ∧
    ¬ ((7 : Int) < readInt32 (imgSix.blocks 1) 4) := by
  decide!

/-! ## C33 and C34: the entry that `getDirectoryEntry` returns for a new name -/

/-- C33: free-slot reuse. For every directory `ino` whose blocks within the size are
mapped, every name `p` that matches no entry within the size, and `f` the first entry
within the size with `inum = 0`, `getDirectoryEntry` with creation returns the location
of entry `f` (its offset in the block and the number of the block) and leaves the state
as it is: the size, the block map and the free block list are unchanged. -/
theorem getDirectoryEntry_reuses_free_slot (s : FS) (ino : Int) (p : List Int) (f : Int)
    (hmap : Mapped s ino) (hsize : 0 ≤ (s.inodes ino).size)
    (hno : ∀ k, 0 ≤ k → (k + 1) * DIRENTRYSIZE ≤ (s.inodes ino).size →
      dirEntryMatch s ino p k = false)
    (hf0 : 0 ≤ f) (hf1 : (f + 1) * DIRENTRYSIZE ≤ (s.inodes ino).size)
    (hfree : dirEntryInum s ino f = 0)
    (hfirst : ∀ j, 0 ≤ j → j < f → dirEntryInum s ino j ≠ 0) :
    getDirectoryEntry s p ino true = (dirEntryOff f, dirEntryBlock s ino f, s) ∧
    (getDirectoryEntry s p ino true).2.2.inodes = s.inodes ∧
    (getDirectoryEntry s p ino true).2.2.blocks = s.blocks ∧
    (getDirectoryEntry s p ino true).2.2.freeBlocks = s.freeBlocks := by
  have hend := searchEnd_of_noMatch s p ino hmap hsize hno
  simp only [DIRENTRYSIZE] at hf1
  have hfK : f < (s.inodes ino).size / 32 := by omega
  have hloc : (dirSearch s p ino).freeEntryOffset = dirEntryOff f ∧
      (dirSearch s p ino).freeEntryBlockNum = dirEntryBlock s ino f := by
    rcases hend.free with ⟨_, _, h3⟩ | ⟨g, g0, g1, g2, g3, g4, g5⟩
    · exact absurd hfree (h3 f hf0 hfK)
    · have hgf : g = f := by
        by_contra hne
        rcases lt_or_gt_of_ne hne with h | h
        · exact hfirst g g0 h g2
        · exact g3 f hf0 h hfree
      rw [hgf] at g4 g5
      exact ⟨g4, g5⟩
  have hnz : dirEntryBlock s ino f ≠ 0 := by
    rw [dirEntryBlock_eq]
    apply hmap (f / 16) (by omega)
    simp only [BLOCKSIZE]
    omega
  have hres : getDirectoryEntry s p ino true = (dirEntryOff f, dirEntryBlock s ino f, s) := by
    unfold getDirectoryEntry
    simp only [hend.nf, Bool.false_eq_true, if_false, if_true, hloc.1, hloc.2, ne_eq, hnz,
      not_false_eq_true]
  rw [hres]
  exact ⟨rfl, rfl, rfl, rfl⟩

/-- C33, an instance: in `fsUnlinked` the entry 2 of the root directory (offset 64 of
block 7) is free, and `zz` is not a name of the directory. -/
theorem getDirectoryEntry_reuses_free_slot_witness :
    getDirectoryEntry fsUnlinked (str "zz") 1 true
      = (dirEntryOff 2, dirEntryBlock fsUnlinked 1 2, fsUnlinked) ∧
    (getDirectoryEntry fsUnlinked (str "zz") 1 true).2.2.inodes = fsUnlinked.inodes ∧
    (getDirectoryEntry fsUnlinked (str "zz") 1 true).2.2.blocks = fsUnlinked.blocks ∧
    (getDirectoryEntry fsUnlinked (str "zz") 1 true).2.2.freeBlocks = fsUnlinked.freeBlocks :=
  getDirectoryEntry_reuses_free_slot fsUnlinked 1 (str "zz") 2
    (by
      intro j h0 h1
      have hs : (fsUnlinked.inodes 1).size = 128 := by decide!
      rw [hs] at h1
      simp only [BLOCKSIZE] at h1
      have hj : j = 0 := by omega
      rw [hj]
      decide!)
    (by decide!)
    (by
      intro k h0 h1
      have hs : (fsUnlinked.inodes 1).size = 128 := by decide!
      rw [hs] at h1
      simp only [DIRENTRYSIZE] at h1
      have hk : k < 4 := by omega
      interval_cases k <;> decide!)
    (by decide) (by decide!) (by decide!)
    (by
      intro j h0 h1
      interval_cases j <;> decide!)

/-- C34 (amended): directory append. For every directory `ino` of a size `s` below the
maximal file size that is a multiple of `DIRENTRYSIZE`, whose blocks within the size are
mapped, with no free entry and no entry matching `p`, with a free block `b ≠ 0` at the
head of the free block list when `s` is a multiple of `BLOCKSIZE` (and, once the
directory uses the indirect block, with that block neither `b` nor a block of the
directory), `getDirectoryEntry` with creation increases the size by `DIRENTRYSIZE`, marks
the inode dirty and returns the entry at file offset `s`: offset `s mod BLOCKSIZE` of the
block of logical index `s / BLOCKSIZE`, with `inum = 0`. The head of the free block list
is taken when `s` is a multiple of `BLOCKSIZE` and the list is unchanged otherwise, and
every name that was found before is found at the same location afterwards. -/
theorem getDirectoryEntry_appends (s : FS) (ino : Int) (p : List Int) (b : Int)
    (rest : List Int) (hmap : Mapped s ino) (hsize : 0 ≤ (s.inodes ino).size)
    (h32 : (s.inodes ino).size % DIRENTRYSIZE = 0)
    (hmax : (s.inodes ino).size < (NUM_DIRECT + BLOCKSIZE / 4) * BLOCKSIZE)
    (hno : ∀ k, 0 ≤ k → (k + 1) * DIRENTRYSIZE ≤ (s.inodes ino).size →
      dirEntryMatch s ino p k = false)
    (hnofree : ∀ k, 0 ≤ k → (k + 1) * DIRENTRYSIZE ≤ (s.inodes ino).size →
      dirEntryInum s ino k ≠ 0)
    (hfb : (s.inodes ino).size % BLOCKSIZE = 0 →
      s.freeBlocks = b :: rest ∧ b ≠ 0 ∧ isInt32 b ∧
        (NUM_DIRECT * BLOCKSIZE ≤ (s.inodes ino).size → b ≠ (s.inodes ino).indirect))
    (hind : NUM_DIRECT * BLOCKSIZE ≤ (s.inodes ino).size →
      ∀ j, 0 ≤ j → j * BLOCKSIZE < (s.inodes ino).size →
        logicalBlock s ino j ≠ (s.inodes ino).indirect) :
    ((getDirectoryEntry s p ino true).2.2.inodes ino).size
      = (s.inodes ino).size + DIRENTRYSIZE ∧
    (getDirectoryEntry s p ino true).2.2.inodeDirty ino = true ∧
    (getDirectoryEntry s p ino true).1 = (s.inodes ino).size % BLOCKSIZE ∧
    (getDirectoryEntry s p ino true).2.1
      = logicalBlock (getDirectoryEntry s p ino true).2.2 ino
          ((s.inodes ino).size / BLOCKSIZE) ∧
    readInt16 ((getDirectoryEntry s p ino true).2.2.blocks
      (getDirectoryEntry s p ino true).2.1) (getDirectoryEntry s p ino true).1 = 0 ∧
    ((s.inodes ino).size % BLOCKSIZE = 0 →
      (getDirectoryEntry s p ino true).2.2.freeBlocks = rest) ∧
    ((s.inodes ino).size % BLOCKSIZE ≠ 0 →
      (getDirectoryEntry s p ino true).2.2.freeBlocks = s.freeBlocks) ∧
    (∀ q, (getDirectoryEntry s q ino false).1 ≠ -1 →
      getDirectoryEntry (getDirectoryEntry s p ino true).2.2 q ino false =
        ((getDirectoryEntry s q ino false).1, (getDirectoryEntry s q ino false).2.1,
          (getDirectoryEntry s p ino true).2.2)) := by
  have hend := searchEnd_of_noMatch s p ino hmap hsize hno
  simp only [DIRENTRYSIZE, NUM_DIRECT, BLOCKSIZE] at h32 hmax hnofree hfb hind
  have hfb0 : (dirSearch s p ino).freeEntryBlockNum = 0 := by
    rcases hend.free with ⟨_, h2, _⟩ | ⟨g, g0, g1, g2, _⟩
    · exact h2
    · exact absurd g2 (hnofree g g0 (by omega))
  have hmain : Appended s (getDirectoryEntry s p ino true).2.2 ino
      (getDirectoryEntry s p ino true).1 (getDirectoryEntry s p ino true).2.1 ∧
      ((s.inodes ino).size % 512 = 0 → (getDirectoryEntry s p ino true).2.2.freeBlocks = rest) ∧
      ((s.inodes ino).size % 512 ≠ 0 →
        (getDirectoryEntry s p ino true).2.2.freeBlocks = s.freeBlocks) := by
    by_cases h512 : (s.inodes ino).size % 512 = 0
    · obtain ⟨f1, f2, f3, f4⟩ := hfb h512
      by_cases hnb : (s.inodes ino).size < 6144
      · obtain ⟨a1, a2⟩ := append_direct s ino p b rest hend hfb0 hsize h512 hnb f1 f2
        exact ⟨a1, fun _ => a2, fun h => absurd h512 h⟩
      · obtain ⟨a1, a2⟩ := append_indirect s ino p b rest hend hfb0 h512 (by omega)
          (by omega) f1 f2 f3 (f4 (by omega)) (hind (by omega))
        exact ⟨a1, fun _ => a2, fun h => absurd h512 h⟩
    · obtain ⟨a1, a2⟩ := append_inplace s ino p hmap hend hfb0 hsize h32 h512 hind
      exact ⟨a1, fun h => absurd h h512, fun _ => a2⟩
  obtain ⟨ha, hf1, hf2⟩ := hmain
  simp only [DIRENTRYSIZE, BLOCKSIZE]
  refine ⟨ha.size, ha.dirty, ha.off, ha.loc, ha.inum, hf1, hf2, ?_⟩
  intro q hq
  exact still_found_of_appended s _ ino _ _ q ha hmap hsize h32 hq

/-- C34, an instance: the root directory of `fsDir` has the four entries `.`, `..`, `a`
and `d` in block 7; the name `zz` is appended at offset 128 of that block. -/
theorem getDirectoryEntry_appends_witness :
    ((getDirectoryEntry fsDir (str "zz") 1 true).2.2.inodes 1).size
      = (fsDir.inodes 1).size + DIRENTRYSIZE ∧
    (getDirectoryEntry fsDir (str "zz") 1 true).2.2.inodeDirty 1 = true ∧
    (getDirectoryEntry fsDir (str "zz") 1 true).1 = (fsDir.inodes 1).size % BLOCKSIZE ∧
    (getDirectoryEntry fsDir (str "zz") 1 true).2.1
      = logicalBlock (getDirectoryEntry fsDir (str "zz") 1 true).2.2 1
          ((fsDir.inodes 1).size / BLOCKSIZE) ∧
    readInt16 ((getDirectoryEntry fsDir (str "zz") 1 true).2.2.blocks
      (getDirectoryEntry fsDir (str "zz") 1 true).2.1)
      (getDirectoryEntry fsDir (str "zz") 1 true).1 = 0 ∧
    ((fsDir.inodes 1).size % BLOCKSIZE = 0 →
      (getDirectoryEntry fsDir (str "zz") 1 true).2.2.freeBlocks
        = [19, 18, 17, 16, 15, 14, 13, 12, 11, 10]) ∧
    ((fsDir.inodes 1).size % BLOCKSIZE ≠ 0 →
      (getDirectoryEntry fsDir (str "zz") 1 true).2.2.freeBlocks = fsDir.freeBlocks) ∧
    (∀ q, (getDirectoryEntry fsDir q 1 false).1 ≠ -1 →
      getDirectoryEntry (getDirectoryEntry fsDir (str "zz") 1 true).2.2 q 1 false =
        ((getDirectoryEntry fsDir q 1 false).1, (getDirectoryEntry fsDir q 1 false).2.1,
          (getDirectoryEntry fsDir (str "zz") 1 true).2.2)) :=
  getDirectoryEntry_appends fsDir 1 (str "zz") 20 [19, 18, 17, 16, 15, 14, 13, 12, 11, 10]
    (by
      intro j h0 h1
      have hs : (fsDir.inodes 1).size = 128 := by decide!
      rw [hs] at h1
      simp only [BLOCKSIZE] at h1
      have hj : j = 0 := by omega
      rw [hj]
      decide!)
    (by decide!) (by decide!) (by decide!)
    (by
      intro k h0 h1
      have hs : (fsDir.inodes 1).size = 128 := by decide!
      rw [hs] at h1
      simp only [DIRENTRYSIZE] at h1
      have hk : k < 4 := by omega
      interval_cases k <;> decide!)
    (by
      intro k h0 h1
      have hs : (fsDir.inodes 1).size = 128 := by decide!
      rw [hs] at h1
      simp only [DIRENTRYSIZE] at h1
      have hk : k < 4 := by omega
      interval_cases k <;> decide!)
    (by
      intro h
      exact absurd h (by decide!))
    (by
      intro h
      exact absurd h (by decide!))

/-- C34 as stated fails at the maximal size: the directory of `fsDirMax` has
`(NUM_DIRECT + BLOCKSIZE / 4) * BLOCKSIZE` bytes, a multiple of `BLOCKSIZE`, in 140 mapped
blocks, no free entry and no entry named `n`, and the free block list holds the blocks 20
and 19. `getNthBlock` has no block of index 140 and yields 0, which `getDirectoryEntry`
does not test: no block is taken from the free block list, the size grows beyond the
maximal size, and the entry returned is offset 0 of block 0. -/
theorem append_at_maximal_size :
    (fsDirMax.inodes 1).size = (NUM_DIRECT + BLOCKSIZE / 4) * BLOCKSIZE ∧
    (fsDirMax.inodes 1).size % BLOCKSIZE = 0 ∧
    logicalBlock fsDirMax 1 0 = 100 ∧ logicalBlock fsDirMax 1 139 = 239 ∧
    (getDirectoryEntry fsDirMax (str "n") 1 false).1 = -1 ∧
    (dirSearch fsDirMax (str "n") 1).freeEntryBlockNum = 0 ∧
    fsDirMax.freeBlocks = [20, 19] ∧
    (getDirectoryEntry fsDirMax (str "n") 1 true).2.2.freeBlocks = [20, 19] ∧
    (getDirectoryEntry fsDirMax (str "n") 1 true).1 = 0 ∧
    (getDirectoryEntry fsDirMax (str "n") 1 true).2.1 = 0 ∧
    ((getDirectoryEntry fsDirMax (str "n") 1 true).2.2.inodes 1).size = 71712 := by
  decide!

end Yfs
